import Mathlib

/-!
Fraction: a shallow embedding of `Fraction.cpp` / `Fraction.h` / `FractionException.cpp`

Modelling conventions.

* The C++ type `int` is modelled by `Int`. Signed overflow is undefined behaviour in C++
  and the specification excludes it; the member functions are first given for executions
  in which no `int` operation overflows: in that regime `+`, `-`, `*` agree with the
  operations of `Int`, and `/`, `%` are the truncating `Int.tdiv`, `Int.tmod`.
* The section on 32-bit `int` gives the member functions again on the values of a 32-bit
  `int` (names ending in `32`): `+`, `-`, `*` and unary `-` wrap around, `/` and `%` are
  undefined for a zero divisor and for `INT_MIN` by -1. They are used where a statement
  is not restricted to executions without overflow.
* A call ends in one of three ways, recorded by `Result`: it returns a value, it throws
  `FractionException("Error: Division by zero")`, or it executes an `int` division by
  zero, which is undefined behaviour.
* A member function that mutates `*this` is a function from the receiver before the call
  to the receiver after the call together with the way the call ended; a thrown
  exception leaves the receiver as it was when the exception was thrown.
* `float` and `double` values are the rationals they denote, with IEEE-754 rounding to
  nearest (ties to even) after every operation; see the section on floating point.
-/

/-- How a call ends: normal return of a value, the exception thrown by
`Fraction::checkDivisionByZero`, or undefined behaviour (an `int` division by zero, on
32-bit `int` also `INT_MIN` divided by -1 and a conversion to `int` out of range). -/
inductive Result (α : Type) where
  | ok (value : α)
  | divisionByZero
  | undefined
  deriving DecidableEq, Repr

namespace Result

/-- Sequencing: the continuation runs only after a normal return. -/
def bind {α β : Type} (r : Result α) (k : α → Result β) : Result β :=
  match r with
  | ok value => k value
  | divisionByZero => divisionByZero
  | undefined => undefined

end Result

/-- The two public data members of `class Fraction` (`Fraction.h`, lines 81-82). -/
structure Fraction where
  numerator : Int
  denominator : Int
  deriving DecidableEq, Repr

namespace Fraction

/-- Division `a / b` on C++ `int`: truncating, undefined behaviour for `b == 0`. -/
def idiv (a b : Int) : Result Int :=
  if b = 0 then Result.undefined else Result.ok (Int.tdiv a b)

/-- The receiver and outcome of a mutating member function whose body computed the new
state `r` from the state `before`. -/
def commit (before : Fraction) (r : Result Fraction) : Fraction × Result Unit :=
  match r with
  | Result.ok after => (after, Result.ok ())
  | Result.divisionByZero => (before, Result.divisionByZero)
  | Result.undefined => (before, Result.undefined)

/-- Member `Fraction::gcd` (`Fraction.cpp`, lines 338-359): the `for (;;)` loop, one recursive
call per iteration. Both `%=` are guarded by the preceding tests, so no division by zero
occurs. The loop terminates because `|a|` strictly decreases. -/
def gcd (a b : Int) : Int :=
  if a = 0 then b
  else
    let b1 := Int.tmod b a
    if b1 = 0 then a
    else gcd (Int.tmod a b1) b1
termination_by a.natAbs
decreasing_by
  simp_wf
  rename_i ha hb
  have key : ∀ x y : Int, (Int.tmod x y).natAbs = x.natAbs % y.natAbs := by
    intro x y
    cases x <;> cases y <;> simp [Int.tmod, Int.natAbs_ofNat, Int.natAbs_neg] <;> rfl
  rw [key]
  have h1 : (Int.tmod b a).natAbs < a.natAbs := by
    rw [key]; exact Nat.mod_lt _ (Int.natAbs_pos.mpr ha)
  exact lt_of_lt_of_le (Nat.mod_lt _ (Int.natAbs_pos.mpr hb)) h1.le

/-- Member `Fraction::lcm` (`Fraction.cpp`, lines 361-366). -/
def lcm (a b : Int) : Int :=
  let gcdNumber := gcd a b
  if gcdNumber ≠ 0 then Int.tdiv a gcdNumber * b else 0

/-- Member `Fraction::simplify` (`Fraction.cpp`, lines 381-393), as the new state of `*this`. -/
def simplify (self : Fraction) : Result Fraction :=
  let g := gcd self.numerator self.denominator
  (idiv self.numerator g).bind fun numerator =>
  (idiv self.denominator g).bind fun denominator =>
  if denominator < 0 then Result.ok ⟨-numerator, -denominator⟩
  else Result.ok ⟨numerator, denominator⟩

/-- Member `Fraction::checkDivisionByZero` (`FractionException.cpp`, lines 13-18). -/
def checkDivisionByZero (possibleZero : Int) : Result Unit :=
  if possibleZero = 0 then Result.divisionByZero else Result.ok ()

/-- Default constructor `Fraction()` (`Fraction.h`, lines 8-11). -/
def ctor : Fraction := ⟨0, 1⟩

/-- Constructor `Fraction(int)` (`Fraction.h`, lines 13-16). -/
def ctorInt (numerator_ : Int) : Fraction := ⟨numerator_, 1⟩

/-- Constructor `Fraction(int, int)` (`Fraction.cpp`, lines 7-11). -/
def ctorIntInt (numerator denominator : Int) : Result Fraction :=
  simplify ⟨numerator, denominator⟩

/-- Member `Fraction::comparison(const Fraction&, ComparisonOperator)`
(`Fraction.cpp`, lines 62-74). -/
def comparison (self f2 : Fraction) (operation : Int → Int → Bool) : Result Bool :=
  if self.denominator = f2.denominator then
    Result.ok (operation self.numerator f2.numerator)
  else
    let lcm := Fraction.lcm self.denominator f2.denominator
    (idiv lcm self.denominator).bind fun q1 =>
    (idiv lcm f2.denominator).bind fun q2 =>
    Result.ok (operation (self.numerator * q1) (f2.numerator * q2))

/-- Member `Fraction::comparison(const int&, ComparisonOperator)`
(`Fraction.cpp`, lines 76-86). -/
def comparisonInt (self : Fraction) (i1 : Int) (operation : Int → Int → Bool) : Bool :=
  if self.denominator = 1 then operation self.numerator i1
  else operation self.numerator (i1 * self.denominator)

/-- Member `Fraction::commonOperation(const Fraction&, PlusMinusOperator, Fraction&)`
(`Fraction.cpp`, lines 88-99); the value is the final content of `result`. -/
def commonOperation (self f2 : Fraction) (operation : Int → Int → Int) : Result Fraction :=
  let lcmNumber := lcm self.denominator f2.denominator
  (idiv lcmNumber self.denominator).bind fun q1 =>
  (idiv lcmNumber f2.denominator).bind fun q2 =>
  (ctorIntInt (operation (self.numerator * q1) (f2.numerator * q2)) lcmNumber).bind fun result =>
  simplify result

/-- Member `Fraction::commonOperation(const int&, PlusMinusOperator, Fraction&)`
(`Fraction.cpp`, lines 101-109); the value is the final content of `result`. -/
def commonOperationInt (self : Fraction) (i1 : Int) (operation : Int → Int → Int) :
    Result Fraction :=
  (ctorIntInt (operation self.numerator (i1 * self.denominator)) self.denominator).bind
    fun result => simplify result

/-- Functor `std::plus<int>`. -/
def plus (x y : Int) : Int := x + y

/-- Functor `std::minus<int>`. -/
def minus (x y : Int) : Int := x - y

/-- Functor `std::equal_to<int>`. -/
def equal_to (x y : Int) : Bool := decide (x = y)

/-- Functor `std::not_equal_to<int>`. -/
def not_equal_to (x y : Int) : Bool := decide (x ≠ y)

/-- Functor `std::greater<int>`. -/
def greater (x y : Int) : Bool := decide (x > y)

/-- Functor `std::less<int>`. -/
def less (x y : Int) : Bool := decide (x < y)

/-- Functor `std::greater_equal<int>`. -/
def greater_equal (x y : Int) : Bool := decide (x ≥ y)

/-- Functor `std::less_equal<int>`. -/
def less_equal (x y : Int) : Bool := decide (x ≤ y)

/-- Unary `operator-()` (`Fraction.cpp`, lines 111-114). -/
def opNeg (self : Fraction) : Result Fraction :=
  ctorIntInt (-self.numerator) self.denominator

/-- Operator `operator+(const Fraction&)` (lines 116-120). -/
def opAdd (self fraction : Fraction) : Result Fraction :=
  commonOperation self fraction plus

/-- Operator `operator+(const int&)` (lines 122-126). -/
def opAddInt (self : Fraction) (integer : Int) : Result Fraction :=
  commonOperationInt self integer plus

/-- Operator `operator+=(const Fraction&)` (lines 128-131). -/
def opAddAssign (self fraction : Fraction) : Fraction × Result Unit :=
  commit self (commonOperation self fraction plus)

/-- Operator `operator+=(const int&)` (lines 133-136). -/
def opAddAssignInt (self : Fraction) (integer : Int) : Fraction × Result Unit :=
  commit self (commonOperationInt self integer plus)

/-- Operator `operator-(const Fraction&)` (lines 138-142). -/
def opSub (self fraction : Fraction) : Result Fraction :=
  commonOperation self fraction minus

/-- Operator `operator-(const int&)` (lines 144-148). -/
def opSubInt (self : Fraction) (integer : Int) : Result Fraction :=
  commonOperationInt self integer minus

/-- Operator `operator-=(const Fraction&)` (lines 150-153). -/
def opSubAssign (self fraction : Fraction) : Fraction × Result Unit :=
  commit self (commonOperation self fraction minus)

/-- Operator `operator-=(const int&)` (lines 155-158). -/
def opSubAssignInt (self : Fraction) (integer : Int) : Fraction × Result Unit :=
  commit self (commonOperationInt self integer minus)

/-- Operator `operator*(const Fraction&)` (lines 160-167). -/
def opMul (self fraction : Fraction) : Result Fraction :=
  (ctorIntInt (self.numerator * fraction.numerator)
    (self.denominator * fraction.denominator)).bind fun result => simplify result

/-- Operator `operator*(const int&)` (lines 169-176). -/
def opMulInt (self : Fraction) (integer : Int) : Result Fraction :=
  (ctorIntInt (self.numerator * integer) self.denominator).bind fun result => simplify result

/-- Operator `operator*=(const Fraction&)` (lines 178-186), for an argument that is not the
receiver itself. -/
def opMulAssign (self fraction : Fraction) : Fraction × Result Unit :=
  let s1 : Fraction := ⟨self.numerator * fraction.numerator, self.denominator⟩
  let s2 : Fraction := ⟨s1.numerator, s1.denominator * fraction.denominator⟩
  commit s2 (simplify s2)

/-- Operator `operator*=(const int&)` (lines 188-195). -/
def opMulAssignInt (self : Fraction) (integer : Int) : Fraction × Result Unit :=
  let s1 : Fraction := ⟨self.numerator * integer, self.denominator⟩
  commit s1 (simplify s1)

/-- Operator `operator/(const Fraction&)` (lines 197-206). -/
def opDiv (self fraction : Fraction) : Result Fraction :=
  (checkDivisionByZero fraction.numerator).bind fun _ =>
  (ctorIntInt (self.numerator * fraction.denominator)
    (self.denominator * fraction.numerator)).bind fun result => simplify result

/-- Operator `operator/(const int&)` (lines 208-217). -/
def opDivInt (self : Fraction) (integer : Int) : Result Fraction :=
  (checkDivisionByZero integer).bind fun _ =>
  (ctorIntInt self.numerator (self.denominator * integer)).bind fun result => simplify result

/-- Operator `operator/=(const Fraction&)` (lines 219-229), for an argument that is not the
receiver itself. -/
def opDivAssign (self fraction : Fraction) : Fraction × Result Unit :=
  match checkDivisionByZero fraction.numerator with
  | Result.ok _ =>
    let s1 : Fraction := ⟨self.numerator * fraction.denominator, self.denominator⟩
    let s2 : Fraction := ⟨s1.numerator, s1.denominator * fraction.numerator⟩
    commit s2 (simplify s2)
  | Result.divisionByZero => (self, Result.divisionByZero)
  | Result.undefined => (self, Result.undefined)

/-- Operator `operator/=(const int&)` (lines 231-240). -/
def opDivAssignInt (self : Fraction) (integer : Int) : Fraction × Result Unit :=
  match checkDivisionByZero integer with
  | Result.ok _ =>
    let s1 : Fraction := ⟨self.numerator, self.denominator * integer⟩
    commit s1 (simplify s1)
  | Result.divisionByZero => (self, Result.divisionByZero)
  | Result.undefined => (self, Result.undefined)

/-- Operator `operator%(const Fraction&)` (lines 242-253). The parameter `floatToInt` stands for
the float-mediated conversion `(int) division.getFloatValue()` of line 248. -/
def opMod (floatToInt : Fraction → Int) (self fraction : Fraction) : Result Int :=
  (checkDivisionByZero fraction.numerator).bind fun _ =>
  (opDiv self fraction).bind fun division =>
  let integer := floatToInt division
  let integer := division.denominator * integer
  Result.ok (division.numerator - integer)

/-- Operator `operator%(const int&)` (lines 255-266). The parameter `floatToInt` stands for the
float-mediated conversion `(int) division.getFloatValue()` of line 261. -/
def opModInt (floatToInt : Fraction → Int) (self : Fraction) (integer : Int) : Result Int :=
  (checkDivisionByZero integer).bind fun _ =>
  (opDivInt self integer).bind fun division =>
  let integerPart := floatToInt division
  let integerPart := division.denominator * integerPart
  Result.ok (division.numerator - integerPart)

/-- Operator `operator==(const Fraction&)` (lines 268-271). -/
def opEq (self fraction : Fraction) : Result Bool := comparison self fraction equal_to

/-- Operator `operator==(const int&)` (lines 273-276). -/
def opEqInt (self : Fraction) (integer : Int) : Bool := comparisonInt self integer equal_to

/-- Operator `operator!=(const Fraction&)` (lines 278-281). -/
def opNe (self fraction : Fraction) : Result Bool := comparison self fraction not_equal_to

/-- Operator `operator!=(const int&)` (lines 283-286). -/
def opNeInt (self : Fraction) (integer : Int) : Bool := comparisonInt self integer not_equal_to

/-- Operator `operator>(const Fraction&)` (lines 288-291). -/
def opGt (self fraction : Fraction) : Result Bool := comparison self fraction greater

/-- Operator `operator>(const int&)` (lines 293-296). -/
def opGtInt (self : Fraction) (integer : Int) : Bool := comparisonInt self integer greater

/-- Operator `operator<(const Fraction&)` (lines 298-301). -/
def opLt (self fraction : Fraction) : Result Bool := comparison self fraction less

/-- Operator `operator<(const int&)` (lines 303-306). -/
def opLtInt (self : Fraction) (integer : Int) : Bool := comparisonInt self integer less

/-- Operator `operator>=(const Fraction&)` (lines 308-311). -/
def opGe (self fraction : Fraction) : Result Bool := comparison self fraction greater_equal

/-- Operator `operator>=(const int&)` (lines 313-316). -/
def opGeInt (self : Fraction) (integer : Int) : Bool :=
  comparisonInt self integer greater_equal

/-- Operator `operator<=(const Fraction&)` (lines 318-321). -/
def opLe (self fraction : Fraction) : Result Bool := comparison self fraction less_equal

/-- Operator `operator<=(const int&)` (lines 323-326). -/
def opLeInt (self : Fraction) (integer : Int) : Bool := comparisonInt self integer less_equal

/-! ## Floating point

A `float` or `double` value is modelled by the rational number it denotes. Arithmetic on
them is IEEE-754 arithmetic with the default rounding (to nearest, ties to even) and an
unbounded exponent range: no `int` held by a fraction leaves the range of normal numbers.
`pow` is taken to be correctly rounded. Conversion to `int` truncates toward zero. -/

/-- Rounding of a rational to the nearest integer, ties to the even integer. -/
def roundHalfEven (q : ℚ) : Int :=
  let f : Int := ⌊q⌋
  if q - (f : ℚ) < 1 / 2 then f
  else if 1 / 2 < q - (f : ℚ) then f + 1
  else if f % 2 = 0 then f else f + 1

/-- Rounding to `prec` significant bits: with 2^e ≤ |x| < 2^(e+1), the magnitude is
rounded to a multiple of 2^(e+1-prec) and the sign is kept. -/
def roundSig (prec : Nat) (x : ℚ) : ℚ :=
  if x = 0 then 0
  else
    let e : Int := Int.log 2 |x|
    let ulp : ℚ := 2 ^ (e + 1 - (prec : Int))
    let r : ℚ := (roundHalfEven (|x| / ulp) : ℚ) * ulp
    if x < 0 then -r else r

/-- Rounding to `float` (binary32, 24 significant bits). -/
def toFloat (x : ℚ) : ℚ := roundSig 24 x

/-- Rounding to `double` (binary64, 53 significant bits). -/
def toDouble (x : ℚ) : ℚ := roundSig 53 x

/-- Conversion `(int) x` of a floating-point value: truncation toward zero. -/
def castInt (x : ℚ) : Int := if 0 ≤ x then ⌊x⌋ else -⌊-x⌋

/-- Member `Fraction::getFloatValue` (`Fraction.cpp`, lines 333-336):
`numerator / (float) denominator`, both operands converted to `float`, the quotient
rounded to `float`; meaningful for a denominator that is not 0. -/
def getFloatValue (self : Fraction) : ℚ :=
  toFloat (toFloat (self.numerator : ℚ) / toFloat (self.denominator : ℚ))

/-- The expression `(int) division.getFloatValue()` of lines 248 and 261. -/
def floatValueToInt (division : Fraction) : Int := castInt (getFloatValue division)

/-- Library function `frexp`: mantissa and exponent with `number = mantissa * 2^exponent`
and 1/2 ≤ |mantissa| < 1; (0, 0) for 0. -/
def frexp (number : ℚ) : ℚ × Int :=
  if number = 0 then (0, 0)
  else
    let exponent : Int := Int.log 2 |number| + 1
    (number / 2 ^ exponent, exponent)

/-- Member `Fraction::mantissaToInteger` (`Fraction.cpp`, lines 368-379), the `while` loop
run for at most `fuel` tests: the returned integer and the final `*n`, or `none` when the
loop has not ended within that many tests. -/
def mantissaToInteger : Nat → ℚ → Int → Option (Int × Int)
  | 0, _, _ => none
  | fuel + 1, mantissa, n =>
    if mantissa ≠ toFloat ((castInt mantissa : Int) : ℚ) then
      mantissaToInteger fuel (toFloat (mantissa * 10)) (n + 1)
    else some (castInt mantissa, n)

/-- Library function `pow` on `double`, correctly rounded. -/
def pow (x : ℚ) (y : Int) : ℚ := toDouble (x ^ y)

/-- The shift `h = ::std::min(denominator, exponent)` of line 47. -/
def importShift (denominator exponent : Int) : Int := min denominator exponent

/-- The exact value of `numerator * pow(2, exponent - h)` (line 50), before any rounding
and before the conversion to `int`. -/
def scaledNumerator (numerator denominator exponent : Int) : ℚ :=
  (numerator : ℚ) * (2 : ℚ) ^ (exponent - importShift denominator exponent)

/-- The exact value of `pow(5, h) * pow(10, denominator - h)` (line 51), before any
rounding and before the conversion to `int`. -/
def scaledDenominator (denominator exponent : Int) : ℚ :=
  (5 : ℚ) ^ importShift denominator exponent *
    (10 : ℚ) ^ (denominator - importShift denominator exponent)

/-- The `int` that line 50 stores in `this->numerator`: the `double` product
`numerator * pow(2, exponent - h)` converted to `int`. -/
def importNumerator (numerator denominator exponent : Int) : Int :=
  let h : Int := importShift denominator exponent
  castInt (toDouble ((numerator : ℚ) * pow 2 (exponent - h)))

/-- The `int` that line 51 stores in `this->denominator`: the `double` product
`pow(5, h) * pow(10, denominator - h)` converted to `int`. -/
def importDenominator (denominator exponent : Int) : Int :=
  let h : Int := importShift denominator exponent
  castInt (toDouble (pow 5 h * pow 10 (denominator - h)))

/-- Constructor `Fraction(float)` (`Fraction.cpp`, lines 35-54) on a `float` value
`number`, with the loop of `mantissaToInteger` given `fuel` tests. -/
def ctorFloat (fuel : Nat) (number : ℚ) : Result Fraction :=
  let (mantissa, exponent) := frexp number
  match mantissaToInteger fuel mantissa 0 with
  | none => Result.undefined
  | some (numerator, denominator) =>
    simplify ⟨importNumerator numerator denominator exponent,
      importDenominator denominator exponent⟩

/-! ## 32-bit int

The member functions on the values of a 32-bit `int`. Each function is the one above with
`wrap` around every `+`, `-`, `*` and unary `-`, and with `/` and `%` undefined on the
operands of `Traps`. -/

/-- Constant `INT_MIN` of a 32-bit `int`. -/
def INT_MIN : Int := -2147483648

/-- Constant `INT_MAX` of a 32-bit `int`. -/
def INT_MAX : Int := 2147483647

/-- The integer is the value of an `int`. -/
def IsInt (x : Int) : Prop := INT_MIN ≤ x ∧ x ≤ INT_MAX

instance (x : Int) : Decidable (IsInt x) := by
  unfold IsInt; infer_instance

/-- Both members of the fraction are values of an `int`. -/
def IsInts (f : Fraction) : Prop := IsInt f.numerator ∧ IsInt f.denominator

instance (f : Fraction) : Decidable (IsInts f) := by
  unfold IsInts; infer_instance

/-- The `int` left by `+`, `-`, `*` or unary `-` whose exact result is `x`: `x` itself when
it is in range, and its two's complement wrap-around otherwise (signed overflow is
undefined behaviour in C++; wrap-around is what the compiled code does). -/
def wrap (x : Int) : Int := (x + 2147483648) % 4294967296 - 2147483648

/-- The operands for which `int` division `x / y` and remainder `x % y` are undefined:
division by zero and `INT_MIN` by -1. -/
def Traps (x y : Int) : Prop := y = 0 ∨ (x = INT_MIN ∧ y = -1)

instance (x y : Int) : Decidable (Traps x y) := by
  unfold Traps; infer_instance

/-- Division `a / b` on 32-bit `int`. -/
def idiv32 (a b : Int) : Result Int :=
  if Traps a b then Result.undefined else Result.ok (Int.tdiv a b)

/-- Member `Fraction::gcd` (`Fraction.cpp`, lines 338-359) on 32-bit `int`: each `%=` is
undefined on the operands of `Traps`. -/
def gcd32 (a b : Int) : Result Int :=
  if a = 0 then Result.ok b
  else if Traps b a then Result.undefined
  else
    let b1 := Int.tmod b a
    if b1 = 0 then Result.ok a
    else if Traps a b1 then Result.undefined
    else gcd32 (Int.tmod a b1) b1
termination_by a.natAbs
decreasing_by
  simp_wf
  rename_i ha _ hb _
  have key : ∀ x y : Int, (Int.tmod x y).natAbs = x.natAbs % y.natAbs := by
    intro x y
    cases x <;> cases y <;> simp [Int.tmod, Int.natAbs_ofNat, Int.natAbs_neg] <;> rfl
  rw [key]
  have h1 : (Int.tmod b a).natAbs < a.natAbs := by
    rw [key]; exact Nat.mod_lt _ (Int.natAbs_pos.mpr ha)
  exact lt_of_lt_of_le (Nat.mod_lt _ (Int.natAbs_pos.mpr hb)) h1.le

/-- The loop of `Fraction::gcd` on 32-bit `int` run for at most `fuel` iterations: `none`
when the loop is still running after that many iterations, otherwise how it ended. -/
def gcd32Iter : Nat → Int → Int → Option (Result Int)
  | 0, _, _ => none
  | fuel + 1, a, b =>
    if a = 0 then some (Result.ok b)
    else if Traps b a then some Result.undefined
    else
      let b1 := Int.tmod b a
      if b1 = 0 then some (Result.ok a)
      else if Traps a b1 then some Result.undefined
      else gcd32Iter fuel (Int.tmod a b1) b1

/-- Member `Fraction::lcm` (`Fraction.cpp`, lines 361-366) on 32-bit `int`. -/
def lcm32 (a b : Int) : Result Int :=
  (gcd32 a b).bind fun gcdNumber =>
  if gcdNumber ≠ 0 then (idiv32 a gcdNumber).bind fun q => Result.ok (wrap (q * b))
  else Result.ok 0

/-- Member `Fraction::simplify` (`Fraction.cpp`, lines 381-393) on 32-bit `int`. -/
def simplify32 (self : Fraction) : Result Fraction :=
  (gcd32 self.numerator self.denominator).bind fun g =>
  (idiv32 self.numerator g).bind fun numerator =>
  (idiv32 self.denominator g).bind fun denominator =>
  if denominator < 0 then Result.ok ⟨wrap (-numerator), wrap (-denominator)⟩
  else Result.ok ⟨numerator, denominator⟩

/-- Constructor `Fraction(int, int)` (`Fraction.cpp`, lines 7-11) on 32-bit `int`. -/
def ctorIntInt32 (numerator denominator : Int) : Result Fraction :=
  simplify32 ⟨numerator, denominator⟩

/-- Member `Fraction::comparison(const Fraction&, ComparisonOperator)`
(`Fraction.cpp`, lines 62-74) on 32-bit `int`. -/
def comparison32 (self f2 : Fraction) (operation : Int → Int → Bool) : Result Bool :=
  if self.denominator = f2.denominator then
    Result.ok (operation self.numerator f2.numerator)
  else
    (lcm32 self.denominator f2.denominator).bind fun lcm =>
    (idiv32 lcm self.denominator).bind fun q1 =>
    (idiv32 lcm f2.denominator).bind fun q2 =>
    Result.ok (operation (wrap (self.numerator * q1)) (wrap (f2.numerator * q2)))

/-- Operator `operator==(const Fraction&)` (lines 268-271) on 32-bit `int`. -/
def opEq32 (self fraction : Fraction) : Result Bool := comparison32 self fraction equal_to

/-- Unary `operator-()` (`Fraction.cpp`, lines 111-114) on 32-bit `int`. -/
def opNeg32 (self : Fraction) : Result Fraction :=
  ctorIntInt32 (wrap (-self.numerator)) self.denominator

/-- Operator `operator*(const Fraction&)` (lines 160-167) on 32-bit `int`. -/
def opMul32 (self fraction : Fraction) : Result Fraction :=
  (ctorIntInt32 (wrap (self.numerator * fraction.numerator))
    (wrap (self.denominator * fraction.denominator))).bind fun result => simplify32 result

/-- Operator `operator/(const Fraction&)` (lines 197-206) on 32-bit `int`. -/
def opDiv32 (self fraction : Fraction) : Result Fraction :=
  (checkDivisionByZero fraction.numerator).bind fun _ =>
  (ctorIntInt32 (wrap (self.numerator * fraction.denominator))
    (wrap (self.denominator * fraction.numerator))).bind fun result => simplify32 result

/-- Operator `operator/(const int&)` (lines 208-217) on 32-bit `int`. -/
def opDivInt32 (self : Fraction) (integer : Int) : Result Fraction :=
  (checkDivisionByZero integer).bind fun _ =>
  (ctorIntInt32 self.numerator (wrap (self.denominator * integer))).bind
    fun result => simplify32 result

/-- Operator `operator/=(const Fraction&)` (lines 219-229) on 32-bit `int`, for an
argument that is not the receiver itself. -/
def opDivAssign32 (self fraction : Fraction) : Fraction × Result Unit :=
  match checkDivisionByZero fraction.numerator with
  | Result.ok _ =>
    let s1 : Fraction := ⟨wrap (self.numerator * fraction.denominator), self.denominator⟩
    let s2 : Fraction := ⟨s1.numerator, wrap (s1.denominator * fraction.numerator)⟩
    commit s2 (simplify32 s2)
  | Result.divisionByZero => (self, Result.divisionByZero)
  | Result.undefined => (self, Result.undefined)

/-- Operator `operator/=(const int&)` (lines 231-240) on 32-bit `int`. -/
def opDivAssignInt32 (self : Fraction) (integer : Int) : Fraction × Result Unit :=
  match checkDivisionByZero integer with
  | Result.ok _ =>
    let s1 : Fraction := ⟨self.numerator, wrap (self.denominator * integer)⟩
    commit s1 (simplify32 s1)
  | Result.divisionByZero => (self, Result.divisionByZero)
  | Result.undefined => (self, Result.undefined)

/-- Conversion `(int) x` of a floating-point value to 32-bit `int`: truncation toward
zero, undefined when the truncated value is not an `int`. -/
def castInt32 (x : ℚ) : Result Int :=
  if IsInt (castInt x) then Result.ok (castInt x) else Result.undefined

/-- The expression `(int) division.getFloatValue()` of lines 248 and 261 on 32-bit `int`.
For a denominator 0 the `float` quotient is an infinity or a NaN, and its conversion to
`int` is undefined. -/
def floatValueToInt32 (division : Fraction) : Result Int :=
  if division.denominator = 0 then Result.undefined
  else castInt32 (getFloatValue division)

/-- Operator `operator%(const Fraction&)` (lines 242-253) on 32-bit `int`. -/
def opMod32 (self fraction : Fraction) : Result Int :=
  (checkDivisionByZero fraction.numerator).bind fun _ =>
  (opDiv32 self fraction).bind fun division =>
  (floatValueToInt32 division).bind fun integer =>
  let integer := wrap (division.denominator * integer)
  Result.ok (wrap (division.numerator - integer))

/-- Operator `operator%(const int&)` (lines 255-266) on 32-bit `int`. -/
def opModInt32 (self : Fraction) (integer : Int) : Result Int :=
  (checkDivisionByZero integer).bind fun _ =>
  (opDivInt32 self integer).bind fun division =>
  (floatValueToInt32 division).bind fun integerPart =>
  let integerPart := wrap (division.denominator * integerPart)
  Result.ok (wrap (division.numerator - integerPart))

/-- The integer and its negation are values of an `int`: |x| < 2^31. -/
def Fits (x : Int) : Prop := -2147483648 < x ∧ x < 2147483648

instance (x : Int) : Decidable (Fits x) := by
  unfold Fits; infer_instance

/-! ## Specification vocabulary -/

/-- Canonical form: positive denominator and lowest terms. -/
def Canonical (f : Fraction) : Prop :=
  0 < f.denominator ∧ Nat.gcd f.numerator.natAbs f.denominator.natAbs = 1

instance (f : Fraction) : Decidable (Canonical f) := by
  unfold Canonical; infer_instance

/-- The exact rational `numerator / denominator` denoted by a fraction. -/
def val (f : Fraction) : ℚ := (f.numerator : ℚ) / (f.denominator : ℚ)

/-- The fraction whose members are the numerator and denominator of a rational in lowest
terms. -/
def normal (q : ℚ) : Fraction := ⟨q.num, (q.den : Int)⟩

/-- Exact truncation of `numerator / denominator` toward zero: the integer that
`(int) getFloatValue()` yields when the members are small enough for the `float`
arithmetic not to change the integer part. -/
def truncTowardZero (f : Fraction) : Int := Int.tdiv f.numerator f.denominator

/-- A call returned a fraction whose denominator is not 0. -/
def ReturnsNonzeroDen (r : Result Fraction) : Prop :=
  ∃ f, r = Result.ok f ∧ f.denominator ≠ 0

/-- A mutating call returned normally and left a receiver whose denominator is not 0. -/
def LeavesNonzeroDen (m : Fraction × Result Unit) : Prop :=
  m.2 = Result.ok () ∧ m.1.denominator ≠ 0

/-- A call returned a fraction in canonical form. -/
def ReturnsCanonical (r : Result Fraction) : Prop :=
  ∃ f, r = Result.ok f ∧ 0 < f.denominator ∧
    Nat.gcd f.numerator.natAbs f.denominator.natAbs = 1

/-- A mutating call returned normally and left the receiver in canonical form. -/
def LeavesCanonical (m : Fraction × Result Unit) : Prop :=
  m.2 = Result.ok () ∧ 0 < m.1.denominator ∧
    Nat.gcd m.1.numerator.natAbs m.1.denominator.natAbs = 1

/-! ## The Euclidean loop -/

theorem natAbs_tmod (a b : Int) : (Int.tmod a b).natAbs = a.natAbs % b.natAbs := by
  cases a <;> cases b <;> simp [Int.tmod, Int.natAbs_ofNat, Int.natAbs_neg] <;> rfl

theorem gcd_natAbs (a b : Int) : (gcd a b).natAbs = Nat.gcd a.natAbs b.natAbs := by
  induction a, b using gcd.induct with
  | case1 b => rw [gcd]; simp
  | case2 a b ha b1 hb =>
    rw [gcd]; simp only [ha, if_false]
    have h0 : b.natAbs % a.natAbs = 0 := by
      rw [← natAbs_tmod]; simp [show Int.tmod b a = 0 from hb]
    have : (if Int.tmod b a = 0 then a else gcd (a.tmod (b.tmod a)) (b.tmod a)) = a := by
      rw [if_pos hb]
    simp only [this]
    exact (Nat.gcd_eq_left (Nat.dvd_of_mod_eq_zero h0)).symm
  | case3 a b ha b1 hb ih =>
    rw [gcd]; simp only [ha, if_false]
    have : (if Int.tmod b a = 0 then a else gcd (a.tmod (b.tmod a)) (b.tmod a))
        = gcd (a.tmod (b.tmod a)) (b.tmod a) := by
      rw [if_neg hb]
    simp only [this]
    rw [ih, natAbs_tmod, natAbs_tmod, ← Nat.gcd_rec, ← Nat.gcd_rec]

theorem gcd_nonneg {a b : Int} (ha : 0 ≤ a) (hb : 0 ≤ b) : 0 ≤ gcd a b := by
  induction a, b using gcd.induct with
  | case1 b => rw [gcd]; simpa using hb
  | case2 a b h0 b1 h1 =>
    rw [gcd]; simp only [h0, if_false]
    rw [if_pos h1]; exact ha
  | case3 a b h0 b1 h1 ih =>
    rw [gcd]; simp only [h0, if_false]
    rw [if_neg h1]
    exact ih (Int.tmod_nonneg _ ha) (Int.tmod_nonneg _ hb)

theorem gcd_eq_zero_iff (a b : Int) : gcd a b = 0 ↔ a = 0 ∧ b = 0 := by
  rw [← Int.natAbs_eq_zero, gcd_natAbs, Nat.gcd_eq_zero_iff]
  simp

theorem gcd_dvd_left (a b : Int) : gcd a b ∣ a := by
  rw [← Int.natAbs_dvd_natAbs, gcd_natAbs]; exact Nat.gcd_dvd_left _ _

theorem gcd_dvd_right (a b : Int) : gcd a b ∣ b := by
  rw [← Int.natAbs_dvd_natAbs, gcd_natAbs]; exact Nat.gcd_dvd_right _ _

theorem gcd_pos {a b : Int} (ha : 0 < a) (hb : 0 < b) : 0 < gcd a b := by
  have h1 := gcd_nonneg ha.le hb.le
  have h2 : gcd a b ≠ 0 := by
    rw [Ne, gcd_eq_zero_iff]; omega
  omega

/-! ## Canonical form and the reducer -/

theorem normal_div_of_coprime {a b : Int} (hb : 0 < b)
    (h : Nat.gcd a.natAbs b.natAbs = 1) : normal ((a : ℚ) / (b : ℚ)) = ⟨a, b⟩ := by
  unfold normal
  rw [Rat.num_div_eq_of_coprime hb h, Rat.den_div_eq_of_coprime hb h]

theorem normal_val {f : Fraction} (h : Canonical f) : normal (val f) = f := by
  unfold val
  rw [normal_div_of_coprime h.1 h.2]

theorem canonical_normal (q : ℚ) : Canonical (normal q) := by
  refine ⟨?_, ?_⟩
  · simp only [normal]; exact_mod_cast q.den_pos
  · simp only [normal, Int.natAbs_ofNat]; exact q.reduced

theorem val_normal (q : ℚ) : val (normal q) = q := by
  simp only [val, normal]; exact_mod_cast Rat.num_div_den q

theorem normal_den_pos (q : ℚ) : 0 < (normal q).denominator := (canonical_normal q).1

theorem simplify_ok (self : Fraction) (hd : self.denominator ≠ 0) :
    simplify self = Result.ok (normal (val self)) := by
  obtain ⟨n, d⟩ := self
  simp only at hd
  have hg0 : gcd n d ≠ 0 := by
    rw [Ne, gcd_eq_zero_iff]; tauto
  have hgabs : (gcd n d).natAbs = Int.gcd n d := by
    rw [gcd_natAbs, Int.gcd_eq_natAbs]
  obtain ⟨n1, hn1⟩ := gcd_dvd_left n d
  obtain ⟨d1, hd1⟩ := gcd_dvd_right n d
  simp only [simplify, idiv, hg0, if_false, Result.bind, val]
  generalize gcd n d = g at hg0 hgabs hn1 hd1 ⊢
  subst hn1 hd1
  have hndiv : Int.tdiv (g * n1) g = n1 := by
    rw [Int.tdiv_eq_ediv_of_dvd (Dvd.intro _ rfl)]
    exact Int.mul_ediv_cancel_left _ hg0
  have hddiv : Int.tdiv (g * d1) g = d1 := by
    rw [Int.tdiv_eq_ediv_of_dvd (Dvd.intro _ rfl)]
    exact Int.mul_ediv_cancel_left _ hg0
  have hd1ne : d1 ≠ 0 := by
    rintro rfl; apply hd; simp
  have hcop : Nat.gcd n1.natAbs d1.natAbs = 1 := by
    have h1 : Int.gcd (g * n1) (g * d1) = Int.gcd n1 d1 * g.natAbs := by
      rw [mul_comm g n1, mul_comm g d1]
      exact Int.gcd_mul_right _ _ _
    have h3 : 0 < g.natAbs := Int.natAbs_pos.mpr hg0
    rw [← hgabs] at h1
    rw [← Int.gcd_eq_natAbs]
    have h4 : 1 * g.natAbs = Int.gcd n1 d1 * g.natAbs := by
      rw [one_mul]; exact h1
    exact (Nat.eq_of_mul_eq_mul_right h3 h4).symm
  have hval : (((g * n1 : Int) : ℚ) / ((g * d1 : Int) : ℚ)) = (n1 : ℚ) / (d1 : ℚ) := by
    have hgq : (g : ℚ) ≠ 0 := by exact_mod_cast hg0
    have hdq : (d1 : ℚ) ≠ 0 := by exact_mod_cast hd1ne
    push_cast
    field_simp
    ring
  rw [hndiv, hddiv, hval]
  by_cases hneg : d1 < 0
  · rw [if_pos hneg]
    have hpos : 0 < -d1 := by omega
    have hcop2 : Nat.gcd (-n1).natAbs (-d1).natAbs = 1 := by
      simpa [Int.natAbs_neg] using hcop
    have := normal_div_of_coprime hpos hcop2
    rw [← this]
    congr 2
    push_cast
    rw [neg_div_neg_eq]
  · rw [if_neg hneg]
    have hpos : 0 < d1 := by omega
    rw [normal_div_of_coprime hpos hcop]

theorem simplify_normal (q : ℚ) : simplify (normal q) = Result.ok (normal q) := by
  rw [simplify_ok _ (normal_den_pos q).ne.symm, val_normal]

theorem ctorIntInt_ok (n d : Int) (hd : d ≠ 0) :
    ctorIntInt n d = Result.ok (normal ((n : ℚ) / (d : ℚ))) := by
  unfold ctorIntInt
  rw [simplify_ok _ hd]
  rfl

/-! ## Least common multiple of two positive denominators -/

theorem lcm_pos_facts {a b : Int} (ha : 0 < a) (hb : 0 < b) :
    0 < lcm a b ∧ Int.tdiv (lcm a b) a * a = lcm a b ∧ Int.tdiv (lcm a b) b * b = lcm a b := by
  have hg : 0 < gcd a b := gcd_pos ha hb
  obtain ⟨x, hx⟩ := gcd_dvd_left a b
  obtain ⟨y, hy⟩ := gcd_dvd_right a b
  have hl : lcm a b = Int.tdiv a (gcd a b) * b := by
    simp [lcm, hg.ne.symm]
  rw [hl]
  generalize gcd a b = g at hg hx hy ⊢
  subst hx hy
  have hx0 : 0 < x := by
    rcases lt_trichotomy x 0 with h | h | h
    · nlinarith
    · subst h; simp at ha
    · exact h
  have hy0 : 0 < y := by
    rcases lt_trichotomy y 0 with h | h | h
    · nlinarith
    · subst h; simp at hb
    · exact h
  have h1 : Int.tdiv (g * x) g = x := by
    rw [Int.tdiv_eq_ediv_of_dvd (Dvd.intro _ rfl)]
    exact Int.mul_ediv_cancel_left _ hg.ne.symm
  rw [h1]
  have h2 : Int.tdiv (x * (g * y)) (g * x) = y := by
    rw [Int.tdiv_eq_ediv_of_dvd (Dvd.intro y (by ring))]
    have : x * (g * y) = (g * x) * y := by ring
    rw [this]
    exact Int.mul_ediv_cancel_left _ ha.ne.symm
  have h3 : Int.tdiv (x * (g * y)) (g * y) = x := by
    rw [Int.tdiv_eq_ediv_of_dvd (Dvd.intro_left x rfl)]
    exact Int.mul_ediv_cancel _ hb.ne.symm
  rw [h2, h3]
  refine ⟨by positivity, by ring, rfl⟩

/-! ## The operators on fractions with positive denominators -/

theorem commonOperation_ok (a b : Fraction) (op : Int → Int → Int)
    (ha : 0 < a.denominator) (hb : 0 < b.denominator) :
    ∃ q1 q2 : Int, q1 * a.denominator = lcm a.denominator b.denominator ∧
      q2 * b.denominator = lcm a.denominator b.denominator ∧
      0 < lcm a.denominator b.denominator ∧
      commonOperation a b op = Result.ok (normal
        (((op (a.numerator * q1) (b.numerator * q2) : Int) : ℚ) /
          ((lcm a.denominator b.denominator : Int) : ℚ))) := by
  obtain ⟨hl, h1, h2⟩ := lcm_pos_facts ha hb
  refine ⟨_, _, h1, h2, hl, ?_⟩
  simp only [commonOperation, idiv, ha.ne.symm, hb.ne.symm, if_false, Result.bind]
  rw [ctorIntInt_ok _ _ hl.ne.symm]
  exact simplify_normal _

theorem opAdd_ok (a b : Fraction) (ha : 0 < a.denominator) (hb : 0 < b.denominator) :
    opAdd a b = Result.ok (normal (val a + val b)) := by
  obtain ⟨q1, q2, h1, h2, hl, h⟩ := commonOperation_ok a b plus ha hb
  rw [opAdd, h]
  congr 2
  have hq1 : (q1 : ℚ) * a.denominator = (lcm a.denominator b.denominator : Int) := by
    exact_mod_cast h1
  have hq2 : (q2 : ℚ) * b.denominator = (lcm a.denominator b.denominator : Int) := by
    exact_mod_cast h2
  have hlq : ((lcm a.denominator b.denominator : Int) : ℚ) ≠ 0 := by exact_mod_cast hl.ne.symm
  have haq : (a.denominator : ℚ) ≠ 0 := by exact_mod_cast ha.ne.symm
  have hbq : (b.denominator : ℚ) ≠ 0 := by exact_mod_cast hb.ne.symm
  simp only [plus, val]
  push_cast
  rw [div_add_div _ _ haq hbq, div_eq_div_iff hlq (mul_ne_zero haq hbq)]
  generalize ((lcm a.denominator b.denominator : Int) : ℚ) = L at hq1 hq2 hlq ⊢
  have e1 : (a.numerator : ℚ) * q1 * (a.denominator * b.denominator)
      = a.numerator * b.denominator * (q1 * a.denominator) := by ring
  have e2 : (b.numerator : ℚ) * q2 * (a.denominator * b.denominator)
      = a.denominator * b.numerator * (q2 * b.denominator) := by ring
  rw [add_mul, e1, e2, hq1, hq2]
  ring

theorem opSub_ok (a b : Fraction) (ha : 0 < a.denominator) (hb : 0 < b.denominator) :
    opSub a b = Result.ok (normal (val a - val b)) := by
  obtain ⟨q1, q2, h1, h2, hl, h⟩ := commonOperation_ok a b minus ha hb
  rw [opSub, h]
  congr 2
  have hq1 : (q1 : ℚ) * a.denominator = (lcm a.denominator b.denominator : Int) := by
    exact_mod_cast h1
  have hq2 : (q2 : ℚ) * b.denominator = (lcm a.denominator b.denominator : Int) := by
    exact_mod_cast h2
  have hlq : ((lcm a.denominator b.denominator : Int) : ℚ) ≠ 0 := by exact_mod_cast hl.ne.symm
  have haq : (a.denominator : ℚ) ≠ 0 := by exact_mod_cast ha.ne.symm
  have hbq : (b.denominator : ℚ) ≠ 0 := by exact_mod_cast hb.ne.symm
  simp only [minus, val]
  push_cast
  rw [div_sub_div _ _ haq hbq, div_eq_div_iff hlq (mul_ne_zero haq hbq)]
  generalize ((lcm a.denominator b.denominator : Int) : ℚ) = L at hq1 hq2 hlq ⊢
  have e1 : (a.numerator : ℚ) * q1 * (a.denominator * b.denominator)
      = a.numerator * b.denominator * (q1 * a.denominator) := by ring
  have e2 : (b.numerator : ℚ) * q2 * (a.denominator * b.denominator)
      = a.denominator * b.numerator * (q2 * b.denominator) := by ring
  rw [sub_mul, e1, e2, hq1, hq2]
  ring

theorem commonOperationInt_ok (a : Fraction) (i : Int) (op : Int → Int → Int)
    (ha : 0 < a.denominator) :
    commonOperationInt a i op = Result.ok (normal
      (((op a.numerator (i * a.denominator) : Int) : ℚ) / (a.denominator : ℚ))) := by
  simp only [commonOperationInt]
  rw [ctorIntInt_ok _ _ ha.ne.symm]
  exact simplify_normal _

theorem opAddInt_ok (a : Fraction) (i : Int) (ha : 0 < a.denominator) :
    opAddInt a i = Result.ok (normal (val a + (i : ℚ))) := by
  rw [opAddInt, commonOperationInt_ok a i plus ha]
  congr 2
  have haq : (a.denominator : ℚ) ≠ 0 := by exact_mod_cast ha.ne.symm
  simp only [plus, val]
  push_cast
  field_simp

theorem opSubInt_ok (a : Fraction) (i : Int) (ha : 0 < a.denominator) :
    opSubInt a i = Result.ok (normal (val a - (i : ℚ))) := by
  rw [opSubInt, commonOperationInt_ok a i minus ha]
  congr 2
  have haq : (a.denominator : ℚ) ≠ 0 := by exact_mod_cast ha.ne.symm
  simp only [minus, val]
  push_cast
  field_simp
  ring

theorem opNeg_ok (a : Fraction) (ha : 0 < a.denominator) :
    opNeg a = Result.ok (normal (-val a)) := by
  rw [opNeg, ctorIntInt_ok _ _ ha.ne.symm]
  congr 2
  simp only [val]
  push_cast
  ring

theorem opMul_ok (a b : Fraction) (ha : 0 < a.denominator) (hb : 0 < b.denominator) :
    opMul a b = Result.ok (normal (val a * val b)) := by
  have hab : a.denominator * b.denominator ≠ 0 := mul_ne_zero ha.ne.symm hb.ne.symm
  simp only [opMul]
  rw [ctorIntInt_ok _ _ hab]
  simp only [Result.bind]
  rw [simplify_normal]
  congr 2
  simp only [val]
  push_cast
  rw [div_mul_div_comm]

theorem opMulInt_ok (a : Fraction) (i : Int) (ha : 0 < a.denominator) :
    opMulInt a i = Result.ok (normal (val a * (i : ℚ))) := by
  simp only [opMulInt]
  rw [ctorIntInt_ok _ _ ha.ne.symm]
  simp only [Result.bind]
  rw [simplify_normal]
  congr 2
  simp only [val]
  push_cast
  ring

theorem opDiv_ok (a b : Fraction) (ha : a.denominator ≠ 0) (hb : b.numerator ≠ 0) :
    opDiv a b = Result.ok (normal (val a / val b)) := by
  have hab : a.denominator * b.numerator ≠ 0 := mul_ne_zero ha hb
  simp only [opDiv, checkDivisionByZero, hb, if_false, Result.bind]
  rw [ctorIntInt_ok _ _ hab]
  simp only []
  rw [simplify_normal]
  congr 2
  simp only [val]
  push_cast
  rw [div_div_div_eq]

theorem opDivInt_ok (a : Fraction) (i : Int) (ha : a.denominator ≠ 0) (hi : i ≠ 0) :
    opDivInt a i = Result.ok (normal (val a / (i : ℚ))) := by
  have hab : a.denominator * i ≠ 0 := mul_ne_zero ha hi
  simp only [opDivInt, checkDivisionByZero, hi, if_false, Result.bind]
  rw [ctorIntInt_ok _ _ hab]
  simp only []
  rw [simplify_normal]
  congr 2
  simp only [val]
  push_cast
  rw [div_div]

theorem opAddAssign_ok (a b : Fraction) (ha : 0 < a.denominator) (hb : 0 < b.denominator) :
    opAddAssign a b = (normal (val a + val b), Result.ok ()) := by
  have h := opAdd_ok a b ha hb
  unfold opAdd at h
  simp only [opAddAssign, h, commit]

theorem opSubAssign_ok (a b : Fraction) (ha : 0 < a.denominator) (hb : 0 < b.denominator) :
    opSubAssign a b = (normal (val a - val b), Result.ok ()) := by
  have h := opSub_ok a b ha hb
  unfold opSub at h
  simp only [opSubAssign, h, commit]

theorem opAddAssignInt_ok (a : Fraction) (i : Int) (ha : 0 < a.denominator) :
    opAddAssignInt a i = (normal (val a + (i : ℚ)), Result.ok ()) := by
  have h := opAddInt_ok a i ha
  unfold opAddInt at h
  simp only [opAddAssignInt, h, commit]

theorem opSubAssignInt_ok (a : Fraction) (i : Int) (ha : 0 < a.denominator) :
    opSubAssignInt a i = (normal (val a - (i : ℚ)), Result.ok ()) := by
  have h := opSubInt_ok a i ha
  unfold opSubInt at h
  simp only [opSubAssignInt, h, commit]

theorem opMulAssign_ok (a b : Fraction) (ha : 0 < a.denominator) (hb : 0 < b.denominator) :
    opMulAssign a b = (normal (val a * val b), Result.ok ()) := by
  have hab : a.denominator * b.denominator ≠ 0 := mul_ne_zero ha.ne.symm hb.ne.symm
  simp only [opMulAssign]
  rw [simplify_ok _ hab]
  simp only [commit, val]
  congr 2
  push_cast
  rw [div_mul_div_comm]

theorem opMulAssignInt_ok (a : Fraction) (i : Int) (ha : 0 < a.denominator) :
    opMulAssignInt a i = (normal (val a * (i : ℚ)), Result.ok ()) := by
  simp only [opMulAssignInt]
  rw [simplify_ok ⟨a.numerator * i, a.denominator⟩ ha.ne.symm]
  simp only [commit, val]
  congr 2
  push_cast
  ring

theorem opDivAssign_ok (a b : Fraction) (ha : a.denominator ≠ 0) (hb : b.numerator ≠ 0) :
    opDivAssign a b = (normal (val a / val b), Result.ok ()) := by
  have hab : a.denominator * b.numerator ≠ 0 := mul_ne_zero ha hb
  simp only [opDivAssign, checkDivisionByZero, hb, if_false]
  rw [simplify_ok _ hab]
  simp only [commit, val]
  congr 2
  push_cast
  rw [div_div_div_eq]

theorem opDivAssignInt_ok (a : Fraction) (i : Int) (ha : a.denominator ≠ 0) (hi : i ≠ 0) :
    opDivAssignInt a i = (normal (val a / (i : ℚ)), Result.ok ()) := by
  have hab : a.denominator * i ≠ 0 := mul_ne_zero ha hi
  simp only [opDivAssignInt, checkDivisionByZero, hi, if_false]
  rw [simplify_ok _ hab]
  simp only [commit, val]
  congr 2
  push_cast
  rw [div_div]

/-! ## Comparison -/

theorem comparison_ok (a b : Fraction) (ha : 0 < a.denominator) (hb : 0 < b.denominator) :
    ∃ (x y L : Int), 0 < L ∧ (x : ℚ) = val a * (L : ℚ) ∧ (y : ℚ) = val b * (L : ℚ) ∧
      ∀ op, comparison a b op = Result.ok (op x y) := by
  have haq : (a.denominator : ℚ) ≠ 0 := by exact_mod_cast ha.ne.symm
  have hbq : (b.denominator : ℚ) ≠ 0 := by exact_mod_cast hb.ne.symm
  by_cases h : a.denominator = b.denominator
  · refine ⟨a.numerator, b.numerator, a.denominator, ha, ?_, ?_, ?_⟩
    · simp only [val]; field_simp
    · simp only [val]; rw [h]; field_simp
    · intro op; simp only [comparison, h, if_true]
  · obtain ⟨hl, h1, h2⟩ := lcm_pos_facts ha hb
    refine ⟨a.numerator * Int.tdiv (lcm a.denominator b.denominator) a.denominator,
      b.numerator * Int.tdiv (lcm a.denominator b.denominator) b.denominator,
      lcm a.denominator b.denominator, hl, ?_, ?_, ?_⟩
    · simp only [val]
      have : ((Int.tdiv (lcm a.denominator b.denominator) a.denominator : Int) : ℚ)
          * a.denominator = (lcm a.denominator b.denominator : Int) := by exact_mod_cast h1
      rw [← this]; push_cast; field_simp; ring
    · simp only [val]
      have : ((Int.tdiv (lcm a.denominator b.denominator) b.denominator : Int) : ℚ)
          * b.denominator = (lcm a.denominator b.denominator : Int) := by exact_mod_cast h2
      rw [← this]; push_cast; field_simp; ring
    · intro op
      simp only [comparison, h, if_false, idiv, ha.ne.symm, hb.ne.symm, Result.bind]

theorem opEq_ok (a b : Fraction) (ha : 0 < a.denominator) (hb : 0 < b.denominator) :
    opEq a b = Result.ok (decide (val a = val b)) := by
  obtain ⟨x, y, L, hL, hx, hy, h⟩ := comparison_ok a b ha hb
  have hLq : (0 : ℚ) < (L : ℚ) := by exact_mod_cast hL
  rw [opEq, h, equal_to]
  congr 1
  rw [decide_eq_decide, ← @Int.cast_inj ℚ, hx, hy]
  exact mul_left_inj' hLq.ne.symm

theorem opNe_ok (a b : Fraction) (ha : 0 < a.denominator) (hb : 0 < b.denominator) :
    opNe a b = Result.ok (decide (val a ≠ val b)) := by
  obtain ⟨x, y, L, hL, hx, hy, h⟩ := comparison_ok a b ha hb
  have hLq : (0 : ℚ) < (L : ℚ) := by exact_mod_cast hL
  rw [opNe, h, not_equal_to]
  congr 1
  rw [decide_eq_decide, Ne, Ne, ← @Int.cast_inj ℚ, hx, hy]
  exact not_congr (mul_left_inj' hLq.ne.symm)

theorem opLt_ok (a b : Fraction) (ha : 0 < a.denominator) (hb : 0 < b.denominator) :
    opLt a b = Result.ok (decide (val a < val b)) := by
  obtain ⟨x, y, L, hL, hx, hy, h⟩ := comparison_ok a b ha hb
  have hLq : (0 : ℚ) < (L : ℚ) := by exact_mod_cast hL
  rw [opLt, h, less]
  congr 1
  rw [decide_eq_decide, ← @Int.cast_lt ℚ, hx, hy]
  exact mul_lt_mul_right hLq

theorem opGt_ok (a b : Fraction) (ha : 0 < a.denominator) (hb : 0 < b.denominator) :
    opGt a b = Result.ok (decide (val a > val b)) := by
  obtain ⟨x, y, L, hL, hx, hy, h⟩ := comparison_ok a b ha hb
  have hLq : (0 : ℚ) < (L : ℚ) := by exact_mod_cast hL
  rw [opGt, h, greater]
  congr 1
  rw [decide_eq_decide, gt_iff_lt, gt_iff_lt, ← @Int.cast_lt ℚ, hx, hy]
  exact mul_lt_mul_right hLq

theorem opLe_ok (a b : Fraction) (ha : 0 < a.denominator) (hb : 0 < b.denominator) :
    opLe a b = Result.ok (decide (val a ≤ val b)) := by
  obtain ⟨x, y, L, hL, hx, hy, h⟩ := comparison_ok a b ha hb
  have hLq : (0 : ℚ) < (L : ℚ) := by exact_mod_cast hL
  rw [opLe, h, less_equal]
  congr 1
  rw [decide_eq_decide, ← @Int.cast_le ℚ, hx, hy]
  exact mul_le_mul_right hLq

theorem opGe_ok (a b : Fraction) (ha : 0 < a.denominator) (hb : 0 < b.denominator) :
    opGe a b = Result.ok (decide (val a ≥ val b)) := by
  obtain ⟨x, y, L, hL, hx, hy, h⟩ := comparison_ok a b ha hb
  have hLq : (0 : ℚ) < (L : ℚ) := by exact_mod_cast hL
  rw [opGe, h, greater_equal]
  congr 1
  rw [decide_eq_decide, ge_iff_le, ge_iff_le, ← @Int.cast_le ℚ, hx, hy]
  exact mul_le_mul_right hLq

theorem val_injective {a b : Fraction} (ha : Canonical a) (hb : Canonical b)
    (h : val a = val b) : a = b := by
  rw [← normal_val ha, ← normal_val hb, h]

theorem returnsCanonical_normal (q : ℚ) : ReturnsCanonical (Result.ok (normal q)) :=
  ⟨normal q, rfl, (canonical_normal q).1, (canonical_normal q).2⟩

theorem leavesCanonical_normal (q : ℚ) : LeavesCanonical (normal q, Result.ok ()) :=
  ⟨rfl, (canonical_normal q).1, (canonical_normal q).2⟩

/-! ## Claims -/

/-- C1: for all integers n and d with d ≠ 0, `Fraction(n, d)` returns a fraction whose
denominator is > 0 and with gcd(|numerator|, denominator) = 1; when n = 0 the result is
exactly 0/1, also for negative d. -/
theorem ctorIntInt_canonical (n d : Int) (hd : d ≠ 0) :
    ∃ f, ctorIntInt n d = Result.ok f ∧ 0 < f.denominator ∧
      Nat.gcd f.numerator.natAbs f.denominator.natAbs = 1 ∧
      (n = 0 → f = ⟨0, 1⟩) := by
  refine ⟨_, ctorIntInt_ok n d hd, (canonical_normal _).1, (canonical_normal _).2, ?_⟩
  rintro rfl
  simp [normal]

/-- C1, witness: the statement at `Fraction(0, -7)`. -/
theorem ctorIntInt_canonical_witness :
    (-7 : Int) ≠ 0 ∧ ∃ f, ctorIntInt 0 (-7) = Result.ok f ∧ 0 < f.denominator ∧
      Nat.gcd f.numerator.natAbs f.denominator.natAbs = 1 ∧
      ((0 : Int) = 0 → f = ⟨0, 1⟩) :=
  ⟨by decide, ctorIntInt_canonical 0 (-7) (by decide)⟩

/-- C2: for all integers n and d with d ≠ 0, `Fraction(n, d)` returns a canonical fraction
denoting n/d (result.numerator * d = n * result.denominator), and it is the only canonical
pair that does; `Fraction(2, 4)` is 1/2. -/
theorem ctorIntInt_value :
    (∀ n d : Int, d ≠ 0 → ∃ f, ctorIntInt n d = Result.ok f ∧ Canonical f ∧
      f.numerator * d = n * f.denominator ∧ val f = (n : ℚ) / (d : ℚ) ∧
      ∀ g : Fraction, Canonical g → g.numerator * d = n * g.denominator → g = f) ∧
    ctorIntInt 2 4 = Result.ok ⟨1, 2⟩ := by
  have key : ∀ (n d : Int), d ≠ 0 → ∀ g : Fraction, 0 < g.denominator →
      (g.numerator * d = n * g.denominator ↔ val g = (n : ℚ) / (d : ℚ)) := by
    intro n d hd g hg
    have hdq : (d : ℚ) ≠ 0 := by exact_mod_cast hd
    have hgq : (g.denominator : ℚ) ≠ 0 := by exact_mod_cast hg.ne.symm
    unfold val
    rw [div_eq_div_iff hgq hdq]
    exact_mod_cast Iff.rfl
  constructor
  · intro n d hd
    refine ⟨_, ctorIntInt_ok n d hd, canonical_normal _, ?_, val_normal _, ?_⟩
    · exact (key n d hd _ (normal_den_pos _)).mpr (val_normal _)
    · intro g hg h
      have hv := (key n d hd g hg.1).mp h
      rw [← hv]
      exact (normal_val hg).symm
  · simp +decide [ctorIntInt, simplify, gcd, idiv, Result.bind]

/-- C2, witness: the statement at `Fraction(6, -4)`. -/
theorem ctorIntInt_value_witness :
    (-4 : Int) ≠ 0 ∧ ∃ f, ctorIntInt 6 (-4) = Result.ok f ∧ Canonical f ∧
      f.numerator * (-4) = 6 * f.denominator ∧ val f = ((6 : Int) : ℚ) / ((-4 : Int) : ℚ) ∧
      ∀ g : Fraction, Canonical g → g.numerator * (-4) = 6 * g.denominator → g = f :=
  ⟨by decide, ctorIntInt_value.1 6 (-4) (by decide)⟩

theorem simplify_ne_divisionByZero (f : Fraction) : simplify f ≠ Result.divisionByZero := by
  unfold simplify idiv
  by_cases hg : gcd f.numerator f.denominator = 0
  · simp [hg, Result.bind]
  · simp only [hg, if_false, Result.bind]
    split_ifs <;> simp

/-- C4: for canonical fractions a, b and every integer i, the results of a + b, a - b,
a * b, a / b (b non-zero), -a, a + i, a - i, a * i, a / i (i ≠ 0) are returned in canonical
form (denominator > 0, gcd(|numerator|, denominator) = 1), and a += b, a -= b, a *= b,
a /= b (and their integer overloads) return normally and leave the receiver in canonical
form. -/
theorem canonical_preserved (a b : Fraction) (i : Int) (ha : Canonical a) (hb : Canonical b) :
    ReturnsCanonical (opAdd a b) ∧ ReturnsCanonical (opSub a b) ∧
    ReturnsCanonical (opMul a b) ∧
    (b.numerator ≠ 0 → ReturnsCanonical (opDiv a b)) ∧
    ReturnsCanonical (opNeg a) ∧
    ReturnsCanonical (opAddInt a i) ∧ ReturnsCanonical (opSubInt a i) ∧
    ReturnsCanonical (opMulInt a i) ∧
    (i ≠ 0 → ReturnsCanonical (opDivInt a i)) ∧
    LeavesCanonical (opAddAssign a b) ∧ LeavesCanonical (opSubAssign a b) ∧
    LeavesCanonical (opMulAssign a b) ∧
    (b.numerator ≠ 0 → LeavesCanonical (opDivAssign a b)) ∧
    LeavesCanonical (opAddAssignInt a i) ∧ LeavesCanonical (opSubAssignInt a i) ∧
    LeavesCanonical (opMulAssignInt a i) ∧
    (i ≠ 0 → LeavesCanonical (opDivAssignInt a i)) := by
  have ha0 := ha.1
  have hb0 := hb.1
  refine ⟨?_, ?_, ?_, ?_, ?_, ?_, ?_, ?_, ?_, ?_, ?_, ?_, ?_, ?_, ?_, ?_, ?_⟩
  · rw [opAdd_ok a b ha0 hb0]; exact returnsCanonical_normal _
  · rw [opSub_ok a b ha0 hb0]; exact returnsCanonical_normal _
  · rw [opMul_ok a b ha0 hb0]; exact returnsCanonical_normal _
  · intro h; rw [opDiv_ok a b ha0.ne.symm h]; exact returnsCanonical_normal _
  · rw [opNeg_ok a ha0]; exact returnsCanonical_normal _
  · rw [opAddInt_ok a i ha0]; exact returnsCanonical_normal _
  · rw [opSubInt_ok a i ha0]; exact returnsCanonical_normal _
  · rw [opMulInt_ok a i ha0]; exact returnsCanonical_normal _
  · intro h; rw [opDivInt_ok a i ha0.ne.symm h]; exact returnsCanonical_normal _
  · rw [opAddAssign_ok a b ha0 hb0]; exact leavesCanonical_normal _
  · rw [opSubAssign_ok a b ha0 hb0]; exact leavesCanonical_normal _
  · rw [opMulAssign_ok a b ha0 hb0]; exact leavesCanonical_normal _
  · intro h; rw [opDivAssign_ok a b ha0.ne.symm h]; exact leavesCanonical_normal _
  · rw [opAddAssignInt_ok a i ha0]; exact leavesCanonical_normal _
  · rw [opSubAssignInt_ok a i ha0]; exact leavesCanonical_normal _
  · rw [opMulAssignInt_ok a i ha0]; exact leavesCanonical_normal _
  · intro h; rw [opDivAssignInt_ok a i ha0.ne.symm h]; exact leavesCanonical_normal _

/-- C4, witness: the statement at a = 3/4, b = -5/6 and i = -2, with the four division
results spelled out. -/
theorem canonical_preserved_witness :
    (Canonical ⟨3, 4⟩ ∧ Canonical ⟨-5, 6⟩ ∧ (-5 : Int) ≠ 0 ∧ (-2 : Int) ≠ 0) ∧
    ReturnsCanonical (opAdd ⟨3, 4⟩ ⟨-5, 6⟩) ∧
    ReturnsCanonical (opDiv ⟨3, 4⟩ ⟨-5, 6⟩) ∧
    ReturnsCanonical (opDivInt ⟨3, 4⟩ (-2)) ∧
    LeavesCanonical (opDivAssign ⟨3, 4⟩ ⟨-5, 6⟩) ∧
    LeavesCanonical (opDivAssignInt ⟨3, 4⟩ (-2)) := by
  obtain ⟨add, _, _, dv, _, _, _, _, dvi, _, _, _, dva, _, _, _, dvai⟩ :=
    canonical_preserved ⟨3, 4⟩ ⟨-5, 6⟩ (-2) (by decide) (by decide)
  exact ⟨⟨by decide, by decide, by decide, by decide⟩, add, dv (by decide), dvi (by decide),
    dva (by decide), dvai (by decide)⟩

/-- C5: for canonical fractions a and b, a + b, a - b and a * b return fractions whose
exact rational values are val a + val b, val a - val b and val a * val b;
`Fraction(1,2) + Fraction(1,3)` is 5/6. -/
theorem arithmetic_exact :
    (∀ a b : Fraction, Canonical a → Canonical b →
      (∃ r, opAdd a b = Result.ok r ∧ val r = val a + val b) ∧
      (∃ r, opSub a b = Result.ok r ∧ val r = val a - val b) ∧
      (∃ r, opMul a b = Result.ok r ∧ val r = val a * val b)) ∧
    ((ctorIntInt 1 2).bind fun x => (ctorIntInt 1 3).bind fun y => opAdd x y)
      = Result.ok ⟨5, 6⟩ := by
  constructor
  · intro a b ha hb
    exact ⟨⟨_, opAdd_ok a b ha.1 hb.1, val_normal _⟩, ⟨_, opSub_ok a b ha.1 hb.1, val_normal _⟩,
      ⟨_, opMul_ok a b ha.1 hb.1, val_normal _⟩⟩
  · have h1 : ctorIntInt 1 2 = Result.ok ⟨1, 2⟩ := by
      simp +decide [ctorIntInt, simplify, gcd, idiv, Result.bind]
    have h2 : ctorIntInt 1 3 = Result.ok ⟨1, 3⟩ := by
      simp +decide [ctorIntInt, simplify, gcd, idiv, Result.bind]
    have h3 : opAdd ⟨1, 2⟩ ⟨1, 3⟩ = Result.ok ⟨5, 6⟩ := by
      simp +decide [opAdd, commonOperation, lcm, plus, ctorIntInt, simplify, gcd, idiv,
        Result.bind]
    rw [h1, h2]
    exact h3

/-- C5, witness: the statement at a = 1/2 and b = 1/3. -/
theorem arithmetic_exact_witness :
    (Canonical ⟨1, 2⟩ ∧ Canonical ⟨1, 3⟩) ∧
    (∃ r, opAdd ⟨1, 2⟩ ⟨1, 3⟩ = Result.ok r ∧ val r = val ⟨1, 2⟩ + val ⟨1, 3⟩) ∧
    (∃ r, opSub ⟨1, 2⟩ ⟨1, 3⟩ = Result.ok r ∧ val r = val ⟨1, 2⟩ - val ⟨1, 3⟩) ∧
    (∃ r, opMul ⟨1, 2⟩ ⟨1, 3⟩ = Result.ok r ∧ val r = val ⟨1, 2⟩ * val ⟨1, 3⟩) :=
  ⟨⟨by decide, by decide⟩, arithmetic_exact.1 ⟨1, 2⟩ ⟨1, 3⟩ (by decide) (by decide)⟩

theorem bind_simplify_ne_divisionByZero (r : Result Fraction)
    (hr : r ≠ Result.divisionByZero) :
    (r.bind fun result => simplify result) ≠ Result.divisionByZero := by
  cases r with
  | ok f => simpa [Result.bind] using simplify_ne_divisionByZero f
  | divisionByZero => exact absurd rfl hr
  | undefined => simp [Result.bind]

theorem opDiv_ne_divisionByZero (a b : Fraction) (hb : b.numerator ≠ 0) :
    opDiv a b ≠ Result.divisionByZero := by
  simp only [opDiv, checkDivisionByZero, hb, if_false, Result.bind]
  exact bind_simplify_ne_divisionByZero _ (simplify_ne_divisionByZero _)

theorem opDivInt_ne_divisionByZero (a : Fraction) (i : Int) (hi : i ≠ 0) :
    opDivInt a i ≠ Result.divisionByZero := by
  simp only [opDivInt, checkDivisionByZero, hi, if_false, Result.bind]
  exact bind_simplify_ne_divisionByZero _ (simplify_ne_divisionByZero _)

theorem commit_snd_ne_divisionByZero (s : Fraction) (r : Result Fraction)
    (hr : r ≠ Result.divisionByZero) : (commit s r).2 ≠ Result.divisionByZero := by
  cases r with
  | ok f => simp [commit]
  | divisionByZero => exact absurd rfl hr
  | undefined => simp [commit]

/-- C7: for canonical fractions a and b with b.numerator ≠ 0, a / b returns a fraction q,
q * b returns a fraction p with exactly a's numerator and denominator, and p == a
evaluates to true. -/
theorem div_mul_roundtrip (a b : Fraction) (ha : Canonical a) (hb : Canonical b)
    (hb0 : b.numerator ≠ 0) :
    ∃ q p, opDiv a b = Result.ok q ∧ opMul q b = Result.ok p ∧
      p.numerator = a.numerator ∧ p.denominator = a.denominator ∧
      opEq p a = Result.ok true := by
  have hbv : val b ≠ 0 := by
    have hbq : (b.denominator : ℚ) ≠ 0 := by exact_mod_cast hb.1.ne.symm
    have hnq : (b.numerator : ℚ) ≠ 0 := by exact_mod_cast hb0
    exact div_ne_zero hnq hbq
  have hp : normal (val (normal (val a / val b)) * val b) = a := by
    rw [val_normal, div_mul_cancel₀ _ hbv, normal_val ha]
  refine ⟨normal (val a / val b), a, opDiv_ok a b ha.1.ne.symm hb0, ?_, rfl, rfl, ?_⟩
  · rw [opMul_ok _ b (normal_den_pos _) hb.1, hp]
  · rw [opEq_ok a a ha.1 ha.1]; simp

/-- C7, witness: the statement at a = 3/4 and b = -5/6. -/
theorem div_mul_roundtrip_witness :
    (Canonical ⟨3, 4⟩ ∧ Canonical ⟨-5, 6⟩ ∧ (-5 : Int) ≠ 0) ∧
    ∃ q p, opDiv ⟨3, 4⟩ ⟨-5, 6⟩ = Result.ok q ∧ opMul q ⟨-5, 6⟩ = Result.ok p ∧
      p.numerator = 3 ∧ p.denominator = 4 ∧ opEq p ⟨3, 4⟩ = Result.ok true :=
  ⟨⟨by decide, by decide, by decide⟩,
    div_mul_roundtrip ⟨3, 4⟩ ⟨-5, 6⟩ (by decide) (by decide) (by decide)⟩

/-- C8: for canonical fractions a and b each of ==, !=, <, >, <=, >= returns the truth
value of the same relation between the exact rationals val a and val b (whichever path
`comparison` takes); hence exactly one of a < b, a == b, a > b returns true, and a >= b
returns true iff a > b or a == b does. -/
theorem comparison_exact (a b : Fraction) (ha : Canonical a) (hb : Canonical b) :
    opEq a b = Result.ok (decide (val a = val b)) ∧
    opNe a b = Result.ok (decide (val a ≠ val b)) ∧
    opLt a b = Result.ok (decide (val a < val b)) ∧
    opGt a b = Result.ok (decide (val a > val b)) ∧
    opLe a b = Result.ok (decide (val a ≤ val b)) ∧
    opGe a b = Result.ok (decide (val a ≥ val b)) ∧
    ((opLt a b = Result.ok true ∧ opEq a b = Result.ok false ∧ opGt a b = Result.ok false) ∨
      (opLt a b = Result.ok false ∧ opEq a b = Result.ok true ∧ opGt a b = Result.ok false) ∨
      (opLt a b = Result.ok false ∧ opEq a b = Result.ok false ∧ opGt a b = Result.ok true)) ∧
    (opGe a b = Result.ok true ↔ (opGt a b = Result.ok true ∨ opEq a b = Result.ok true)) := by
  have e := opEq_ok a b ha.1 hb.1
  have l := opLt_ok a b ha.1 hb.1
  have g := opGt_ok a b ha.1 hb.1
  have ge := opGe_ok a b ha.1 hb.1
  refine ⟨e, opNe_ok a b ha.1 hb.1, l, g, opLe_ok a b ha.1 hb.1, ge, ?_, ?_⟩
  · rw [e, l, g]
    rcases lt_trichotomy (val a) (val b) with h | h | h
    · left
      simp [h, h.ne, h.le]
    · right; left
      simp [h]
    · right; right
      simp [h, h.ne.symm, h.le]
  · rw [e, g, ge]
    simp only [Result.ok.injEq, decide_eq_true_eq]
    exact ⟨fun h => (lt_or_eq_of_le h).imp id Eq.symm,
      fun h => h.elim le_of_lt (fun h => h.ge)⟩

/-- C8, witness: the statement at a = 1/2 and b = 2/3 (general path of `comparison`). -/
theorem comparison_exact_witness :
    (Canonical ⟨1, 2⟩ ∧ Canonical ⟨2, 3⟩) ∧
    opLt ⟨1, 2⟩ ⟨2, 3⟩ = Result.ok (decide (val ⟨1, 2⟩ < val ⟨2, 3⟩)) ∧
    (opGe ⟨1, 2⟩ ⟨2, 3⟩ = Result.ok true ↔
      (opGt ⟨1, 2⟩ ⟨2, 3⟩ = Result.ok true ∨ opEq ⟨1, 2⟩ ⟨2, 3⟩ = Result.ok true)) := by
  obtain ⟨_, _, l, _, _, _, _, h⟩ := comparison_exact ⟨1, 2⟩ ⟨2, 3⟩ (by decide) (by decide)
  exact ⟨⟨by decide, by decide⟩, l, h⟩

/-- C10: for canonical fractions a and b, a + b and b + a return fractions with identical
numerator and denominator and `==` on them returns true; the same holds for a * b and
b * a. -/
theorem add_mul_comm (a b : Fraction) (ha : Canonical a) (hb : Canonical b) :
    (∃ x y, opAdd a b = Result.ok x ∧ opAdd b a = Result.ok y ∧
      x.numerator = y.numerator ∧ x.denominator = y.denominator ∧
      opEq x y = Result.ok true) ∧
    (∃ x y, opMul a b = Result.ok x ∧ opMul b a = Result.ok y ∧
      x.numerator = y.numerator ∧ x.denominator = y.denominator ∧
      opEq x y = Result.ok true) := by
  have hself : ∀ q : ℚ, opEq (normal q) (normal q) = Result.ok true := by
    intro q
    rw [opEq_ok _ _ (normal_den_pos q) (normal_den_pos q)]; simp
  constructor
  · refine ⟨_, _, opAdd_ok a b ha.1 hb.1, opAdd_ok b a hb.1 ha.1, ?_, ?_, ?_⟩
    · rw [add_comm]
    · rw [add_comm]
    · rw [add_comm]; exact hself _
  · refine ⟨_, _, opMul_ok a b ha.1 hb.1, opMul_ok b a hb.1 ha.1, ?_, ?_, ?_⟩
    · rw [mul_comm]
    · rw [mul_comm]
    · rw [mul_comm]; exact hself _

/-- C10, witness: the statement at a = 3/4 and b = -5/6. -/
theorem add_mul_comm_witness :
    (Canonical ⟨3, 4⟩ ∧ Canonical ⟨-5, 6⟩) ∧
    (∃ x y, opAdd ⟨3, 4⟩ ⟨-5, 6⟩ = Result.ok x ∧ opAdd ⟨-5, 6⟩ ⟨3, 4⟩ = Result.ok y ∧
      x.numerator = y.numerator ∧ x.denominator = y.denominator ∧
      opEq x y = Result.ok true) ∧
    (∃ x y, opMul ⟨3, 4⟩ ⟨-5, 6⟩ = Result.ok x ∧ opMul ⟨-5, 6⟩ ⟨3, 4⟩ = Result.ok y ∧
      x.numerator = y.numerator ∧ x.denominator = y.denominator ∧
      opEq x y = Result.ok true) :=
  ⟨⟨by decide, by decide⟩, add_mul_comm ⟨3, 4⟩ ⟨-5, 6⟩ (by decide) (by decide)⟩

/-- C11: for canonical fractions a, b and c, (a + b) + c and a + (b + c) return fractions
with identical numerator and denominator and `==` on them returns true; the same holds
for (a * b) * c and a * (b * c). -/
theorem add_mul_assoc (a b c : Fraction) (ha : Canonical a) (hb : Canonical b)
    (hc : Canonical c) :
    (∃ ab l bc r, opAdd a b = Result.ok ab ∧ opAdd ab c = Result.ok l ∧
      opAdd b c = Result.ok bc ∧ opAdd a bc = Result.ok r ∧
      l.numerator = r.numerator ∧ l.denominator = r.denominator ∧
      opEq l r = Result.ok true) ∧
    (∃ ab l bc r, opMul a b = Result.ok ab ∧ opMul ab c = Result.ok l ∧
      opMul b c = Result.ok bc ∧ opMul a bc = Result.ok r ∧
      l.numerator = r.numerator ∧ l.denominator = r.denominator ∧
      opEq l r = Result.ok true) := by
  have hself : ∀ q : ℚ, opEq (normal q) (normal q) = Result.ok true := by
    intro q
    rw [opEq_ok _ _ (normal_den_pos q) (normal_den_pos q)]; simp
  constructor
  · refine ⟨_, _, _, _, opAdd_ok a b ha.1 hb.1, opAdd_ok _ c (normal_den_pos _) hc.1,
      opAdd_ok b c hb.1 hc.1, opAdd_ok a _ ha.1 (normal_den_pos _), ?_, ?_, ?_⟩
    · rw [val_normal, val_normal, add_assoc]
    · rw [val_normal, val_normal, add_assoc]
    · rw [val_normal, val_normal, add_assoc]; exact hself _
  · refine ⟨_, _, _, _, opMul_ok a b ha.1 hb.1, opMul_ok _ c (normal_den_pos _) hc.1,
      opMul_ok b c hb.1 hc.1, opMul_ok a _ ha.1 (normal_den_pos _), ?_, ?_, ?_⟩
    · rw [val_normal, val_normal, mul_assoc]
    · rw [val_normal, val_normal, mul_assoc]
    · rw [val_normal, val_normal, mul_assoc]; exact hself _

/-- C11, witness: the statement at a = 1/2, b = 1/3 and c = -5/6. -/
theorem add_mul_assoc_witness :
    (Canonical ⟨1, 2⟩ ∧ Canonical ⟨1, 3⟩ ∧ Canonical ⟨-5, 6⟩) ∧
    (∃ ab l bc r, opAdd ⟨1, 2⟩ ⟨1, 3⟩ = Result.ok ab ∧ opAdd ab ⟨-5, 6⟩ = Result.ok l ∧
      opAdd ⟨1, 3⟩ ⟨-5, 6⟩ = Result.ok bc ∧ opAdd ⟨1, 2⟩ bc = Result.ok r ∧
      l.numerator = r.numerator ∧ l.denominator = r.denominator ∧
      opEq l r = Result.ok true) ∧
    (∃ ab l bc r, opMul ⟨1, 2⟩ ⟨1, 3⟩ = Result.ok ab ∧ opMul ab ⟨-5, 6⟩ = Result.ok l ∧
      opMul ⟨1, 3⟩ ⟨-5, 6⟩ = Result.ok bc ∧ opMul ⟨1, 2⟩ bc = Result.ok r ∧
      l.numerator = r.numerator ∧ l.denominator = r.denominator ∧
      opEq l r = Result.ok true) :=
  ⟨⟨by decide, by decide, by decide⟩,
    add_mul_assoc ⟨1, 2⟩ ⟨1, 3⟩ ⟨-5, 6⟩ (by decide) (by decide) (by decide)⟩

theorem opNeg_canonical (a : Fraction) (ha : Canonical a) :
    opNeg a = Result.ok ⟨-a.numerator, a.denominator⟩ := by
  rw [opNeg, ctorIntInt_ok _ _ ha.1.ne.symm]
  congr 1
  have h : Nat.gcd (-a.numerator).natAbs a.denominator.natAbs = 1 := by
    rw [Int.natAbs_neg]; exact ha.2
  exact normal_div_of_coprime ha.1 h

theorem comparisonInt_ok (a : Fraction) (i : Int) (ha : 0 < a.denominator) :
    ∃ (x y L : Int), 0 < L ∧ (x : ℚ) = val a * (L : ℚ) ∧ (y : ℚ) = (i : ℚ) * (L : ℚ) ∧
      ∀ op, comparisonInt a i op = op x y := by
  have haq : (a.denominator : ℚ) ≠ 0 := by exact_mod_cast ha.ne.symm
  by_cases h : a.denominator = 1
  · refine ⟨a.numerator, i, 1, by decide, ?_, ?_, ?_⟩
    · simp [val, h]
    · simp
    · intro op; simp [comparisonInt, h]
  · refine ⟨a.numerator, i * a.denominator, a.denominator, ha, ?_, ?_, ?_⟩
    · simp only [val]; field_simp
    · push_cast; ring
    · intro op; simp [comparisonInt, h]

theorem val_ctorInt (i : Int) : val (ctorInt i) = (i : ℚ) := by
  simp [val, ctorInt]

/-- C15: for every canonical fraction a and every integer i, a + i, a - i, a * i, a / i and
a % i return the same result as a + Fraction(i), a - Fraction(i), a * Fraction(i),
a / Fraction(i) and a % Fraction(i) (for i = 0 both divisions and both remainders throw),
and each of a == i, a != i, a < i, a > i, a <= i, a >= i returns the boolean that the
comparison against Fraction(i) returns. The remainder operators are taken with an
arbitrary float-mediated conversion `floatToInt`. -/
theorem int_overloads (floatToInt : Fraction → Int) (a : Fraction) (i : Int)
    (ha : Canonical a) :
    opAddInt a i = opAdd a (ctorInt i) ∧ opSubInt a i = opSub a (ctorInt i) ∧
    opMulInt a i = opMul a (ctorInt i) ∧ opDivInt a i = opDiv a (ctorInt i) ∧
    opModInt floatToInt a i = opMod floatToInt a (ctorInt i) ∧
    opEq a (ctorInt i) = Result.ok (opEqInt a i) ∧
    opNe a (ctorInt i) = Result.ok (opNeInt a i) ∧
    opLt a (ctorInt i) = Result.ok (opLtInt a i) ∧
    opGt a (ctorInt i) = Result.ok (opGtInt a i) ∧
    opLe a (ctorInt i) = Result.ok (opLeInt a i) ∧
    opGe a (ctorInt i) = Result.ok (opGeInt a i) := by
  have h1 : (0 : Int) < (ctorInt i).denominator := by simp [ctorInt]
  have hdiv : opDivInt a i = opDiv a (ctorInt i) := by
    simp [opDivInt, opDiv, ctorInt]
  obtain ⟨x, y, L, hL, hx, hy, h⟩ := comparisonInt_ok a i ha.1
  have hLq : (0 : ℚ) < (L : ℚ) := by exact_mod_cast hL
  have heq : x = y ↔ val a = (i : ℚ) := by
    rw [← Int.cast_inj (α := ℚ), hx, hy]
    exact mul_left_inj' hLq.ne.symm
  have hlt : x < y ↔ val a < (i : ℚ) := by
    rw [← Int.cast_lt (R := ℚ), hx, hy]
    exact mul_lt_mul_right hLq
  have hgt : y < x ↔ (i : ℚ) < val a := by
    rw [← Int.cast_lt (R := ℚ), hx, hy]
    exact mul_lt_mul_right hLq
  have hle : x ≤ y ↔ val a ≤ (i : ℚ) := by
    rw [← Int.cast_le (R := ℚ), hx, hy]
    exact mul_le_mul_right hLq
  have hge : y ≤ x ↔ (i : ℚ) ≤ val a := by
    rw [← Int.cast_le (R := ℚ), hx, hy]
    exact mul_le_mul_right hLq
  refine ⟨?_, ?_, ?_, hdiv, ?_, ?_, ?_, ?_, ?_, ?_, ?_⟩
  · rw [opAddInt_ok a i ha.1, opAdd_ok a _ ha.1 h1, val_ctorInt]
  · rw [opSubInt_ok a i ha.1, opSub_ok a _ ha.1 h1, val_ctorInt]
  · rw [opMulInt_ok a i ha.1, opMul_ok a _ ha.1 h1, val_ctorInt]
  · simp only [opModInt, opMod, hdiv]
    simp [ctorInt]
  · rw [opEq_ok a _ ha.1 h1, val_ctorInt, opEqInt, h, equal_to]
    congr 1
    rw [decide_eq_decide]; exact heq.symm
  · rw [opNe_ok a _ ha.1 h1, val_ctorInt, opNeInt, h, not_equal_to]
    congr 1
    rw [decide_eq_decide]; exact (not_congr heq).symm
  · rw [opLt_ok a _ ha.1 h1, val_ctorInt, opLtInt, h, less]
    congr 1
    rw [decide_eq_decide]; exact hlt.symm
  · rw [opGt_ok a _ ha.1 h1, val_ctorInt, opGtInt, h, greater]
    congr 1
    rw [decide_eq_decide]; exact hgt.symm
  · rw [opLe_ok a _ ha.1 h1, val_ctorInt, opLeInt, h, less_equal]
    congr 1
    rw [decide_eq_decide]; exact hle.symm
  · rw [opGe_ok a _ ha.1 h1, val_ctorInt, opGeInt, h, greater_equal]
    congr 1
    rw [decide_eq_decide]; exact hge.symm

/-- C15, witness: the statement at a = 3/4 and i = -2, with the float-mediated
conversion `floatValueToInt`. -/
theorem int_overloads_witness :
    Canonical ⟨3, 4⟩ ∧
    opAddInt ⟨3, 4⟩ (-2) = opAdd ⟨3, 4⟩ (ctorInt (-2)) ∧
    opDivInt ⟨3, 4⟩ (-2) = opDiv ⟨3, 4⟩ (ctorInt (-2)) ∧
    opModInt floatValueToInt ⟨3, 4⟩ (-2) = opMod floatValueToInt ⟨3, 4⟩ (ctorInt (-2)) ∧
    opLt ⟨3, 4⟩ (ctorInt (-2)) = Result.ok (opLtInt ⟨3, 4⟩ (-2)) := by
  obtain ⟨add, _, _, dv, md, _, _, lt, _, _, _⟩ :=
    int_overloads floatValueToInt ⟨3, 4⟩ (-2) (by decide)
  exact ⟨by decide, add, dv, md, lt⟩

theorem gcd_eq_natGcd {a b : Int} (ha : 0 ≤ a) (hb : 0 ≤ b) :
    gcd a b = ((Nat.gcd a.natAbs b.natAbs : Nat) : Int) := by
  rw [← gcd_natAbs]
  exact (Int.natAbs_of_nonneg (gcd_nonneg ha hb)).symm

/-- C18: `Fraction::lcm(a, b)` returns a / gcd(a, b) * b when gcd(a, b) ≠ 0; for positive
a and b it is the least common multiple: positive, divisible by a and by b, and dividing
every common multiple; lcm(a, 0) = 0 and lcm(0, b) = 0 for all a and b, and
lcm(0, 0) = 0. -/
theorem lcm_correct :
    (∀ a b : Int, gcd a b ≠ 0 → lcm a b = Int.tdiv a (gcd a b) * b) ∧
    (∀ a b : Int, 0 < a → 0 < b →
      lcm a b = ((Nat.lcm a.natAbs b.natAbs : Nat) : Int) ∧ 0 < lcm a b ∧
      a ∣ lcm a b ∧ b ∣ lcm a b ∧
      (∀ m : Int, a ∣ m → b ∣ m → lcm a b ∣ m) ∧
      (∀ m : Int, 0 < m → a ∣ m → b ∣ m → lcm a b ≤ m)) ∧
    (∀ a b : Int, lcm a 0 = 0 ∧ lcm 0 b = 0) ∧
    lcm 0 0 = 0 := by
  have hz : ∀ a b : Int, lcm a 0 = 0 ∧ lcm 0 b = 0 := by
    intro a b
    constructor
    · simp [lcm]
    · simp only [lcm]
      split_ifs <;> simp
  refine ⟨?_, ?_, hz, (hz 0 0).1⟩
  · intro a b h
    simp [lcm, h]
  · intro a b ha hb
    have hg : 0 < gcd a b := gcd_pos ha hb
    have hl : lcm a b = ((Nat.lcm a.natAbs b.natAbs : Nat) : Int) := by
      have h1 : lcm a b = Int.tdiv a (gcd a b) * b := by simp [lcm, hg.ne.symm]
      rw [h1, Int.tdiv_eq_ediv_of_dvd (gcd_dvd_left a b), gcd_eq_natGcd ha.le hb.le]
      obtain ⟨x, rfl⟩ := Int.eq_ofNat_of_zero_le ha.le
      obtain ⟨y, rfl⟩ := Int.eq_ofNat_of_zero_le hb.le
      simp only [Int.natAbs_ofNat]
      rw [Nat.lcm, Nat.mul_comm x y, Nat.mul_div_assoc _ (Nat.gcd_dvd_left x y),
        Nat.mul_comm]
      push_cast
      rfl
    have hIl : ((Nat.lcm a.natAbs b.natAbs : Nat) : Int) = ((Int.lcm a b : Nat) : Int) := rfl
    obtain ⟨hpos, h1, h2⟩ := lcm_pos_facts ha hb
    have hda : a ∣ lcm a b := Dvd.intro_left _ h1
    have hdb : b ∣ lcm a b := Dvd.intro_left _ h2
    have hleast : ∀ m : Int, a ∣ m → b ∣ m → lcm a b ∣ m := by
      intro m hma hmb
      rw [hl, hIl]
      exact Int.lcm_dvd hma hmb
    refine ⟨hl, hpos, hda, hdb, hleast, ?_⟩
    intro m hm hma hmb
    exact Int.le_of_dvd hm (hleast m hma hmb)

/-- C18, witness: lcm(4, 6) = 12. -/
theorem lcm_correct_witness :
    ((0 : Int) < 4 ∧ (0 : Int) < 6) ∧
    lcm 4 6 = ((Nat.lcm 4 6 : Nat) : Int) ∧ 0 < lcm 4 6 ∧
      (4 : Int) ∣ lcm 4 6 ∧ (6 : Int) ∣ lcm 4 6 ∧
      (∀ m : Int, 4 ∣ m → 6 ∣ m → lcm 4 6 ∣ m) ∧
      (∀ m : Int, 0 < m → 4 ∣ m → 6 ∣ m → lcm 4 6 ≤ m) :=
  ⟨⟨by decide, by decide⟩, lcm_correct.2.1 4 6 (by decide) (by decide)⟩

/-- C20: for all integers a and b that are not both zero, `Fraction::gcd(a, b)` returns a
non-zero g with |g| = gcd(|a|, |b|) that divides a and b exactly (a % g = 0 and
b % g = 0); g is not normalised to be positive: gcd(-6, 4) = -2 and gcd(12, -18) = -6,
while gcd(6, -4) = 2. -/
theorem gcd_signed :
    (∀ a b : Int, ¬ (a = 0 ∧ b = 0) →
      gcd a b ≠ 0 ∧ (gcd a b).natAbs = Nat.gcd a.natAbs b.natAbs ∧
      gcd a b ∣ a ∧ gcd a b ∣ b ∧
      Int.tmod a (gcd a b) = 0 ∧ Int.tmod b (gcd a b) = 0) ∧
    gcd (-6) 4 = -2 ∧ gcd 12 (-18) = -6 ∧ gcd 6 (-4) = 2 := by
  refine ⟨?_, ?_, ?_, ?_⟩
  · intro a b h
    refine ⟨?_, gcd_natAbs a b, gcd_dvd_left a b, gcd_dvd_right a b,
      Int.tmod_eq_zero_of_dvd (gcd_dvd_left a b), Int.tmod_eq_zero_of_dvd (gcd_dvd_right a b)⟩
    rw [Ne, gcd_eq_zero_iff]; exact h
  · simp +decide [gcd]
  · simp +decide [gcd]
  · simp +decide [gcd]

/-- C20, witness: the statement at a = -6 and b = 4. -/
theorem gcd_signed_witness :
    ¬ ((-6 : Int) = 0 ∧ (4 : Int) = 0) ∧
    gcd (-6) 4 ≠ 0 ∧ (gcd (-6) 4).natAbs = Nat.gcd 6 4 ∧
      gcd (-6) 4 ∣ -6 ∧ gcd (-6) 4 ∣ 4 ∧
      Int.tmod (-6) (gcd (-6) 4) = 0 ∧ Int.tmod 4 (gcd (-6) 4) = 0 :=
  ⟨by decide, gcd_signed.1 (-6) 4 (by decide)⟩

/-! ## Rounding -/

theorem roundHalfEven_ge_floor (q : ℚ) : ⌊q⌋ ≤ roundHalfEven q := by
  unfold roundHalfEven
  simp only
  split_ifs <;> omega

theorem roundHalfEven_le_floor_succ (q : ℚ) : roundHalfEven q ≤ ⌊q⌋ + 1 := by
  unfold roundHalfEven
  simp only
  split_ifs <;> omega

theorem le_roundHalfEven {k : Int} {q : ℚ} (h : (k : ℚ) ≤ q) : k ≤ roundHalfEven q :=
  le_trans (Int.le_floor.mpr h) (roundHalfEven_ge_floor q)

theorem roundHalfEven_lt {k : Int} {q : ℚ} (h : q < (k : ℚ) - 1 / 2) :
    roundHalfEven q < k := by
  have hf : ⌊q⌋ < k := by
    rw [Int.floor_lt]
    linarith
  rcases lt_or_eq_of_le (Int.add_one_le_iff.mpr hf) with h1 | h1
  · have := roundHalfEven_le_floor_succ q
    omega
  · have hk : (k : ℚ) = (⌊q⌋ : ℚ) + 1 := by
      rw [← h1]; push_cast; ring
    have hlt : q - (⌊q⌋ : ℚ) < 1 / 2 := by
      rw [hk] at h; linarith
    unfold roundHalfEven
    simp only [hlt, if_true]
    exact hf

theorem roundHalfEven_intCast (k : Int) : roundHalfEven (k : ℚ) = k := by
  unfold roundHalfEven
  simp

theorem roundHalfEven_eq_of_near {M : Int} {q : ℚ} (h1 : (M : ℚ) - 1 / 2 < q)
    (h2 : q < (M : ℚ) + 1 / 2) : roundHalfEven q = M := by
  have hlt : roundHalfEven q < M + 1 := by
    apply roundHalfEven_lt
    push_cast; linarith
  have hf : M - 1 ≤ ⌊q⌋ := by
    rw [Int.le_floor]; push_cast; linarith
  rcases lt_or_eq_of_le hf with h | h
  · have := roundHalfEven_ge_floor q
    omega
  · have hgt : (1 : ℚ) / 2 < q - (⌊q⌋ : ℚ) := by
      rw [← h]; push_cast; linarith
    have hnlt : ¬ (q - (⌊q⌋ : ℚ) < 1 / 2) := not_lt.mpr hgt.le
    unfold roundHalfEven
    simp only [hnlt, hgt, if_true, if_false]
    omega

theorem log_two_eq {x : ℚ} {e : Int} (h1 : (2 : ℚ) ^ e ≤ x) (h2 : x < (2 : ℚ) ^ (e + 1)) :
    Int.log 2 x = e := by
  have hx : 0 < x := lt_of_lt_of_le (zpow_pos (by norm_num) e) h1
  have a : e ≤ Int.log 2 x := by
    rw [← Int.zpow_le_iff_le_log (by norm_num) hx]; exact_mod_cast h1
  have b : Int.log 2 x < e + 1 := by
    rw [← Int.lt_zpow_iff_log_lt (by norm_num) hx]; exact_mod_cast h2
  omega

theorem roundSig_neg (prec : Nat) (x : ℚ) : roundSig prec (-x) = -roundSig prec x := by
  unfold roundSig
  by_cases h0 : x = 0
  · simp [h0]
  · have h0n : -x ≠ 0 := neg_ne_zero.mpr h0
    simp only [h0, h0n, if_false, abs_neg]
    rcases lt_or_gt_of_ne h0 with h | h
    · have h1 : ¬ (-x < 0) := by linarith
      simp [h, h1]
    · have h1 : ¬ (x < 0) := by linarith
      have h2 : -x < 0 := by linarith
      simp [h1, h2]

theorem roundSig_pos_eq (prec : Nat) {x : ℚ} (hx : 0 < x) :
    roundSig prec x = (roundHalfEven (x / 2 ^ (Int.log 2 x + 1 - (prec : Int))) : ℚ)
      * 2 ^ (Int.log 2 x + 1 - (prec : Int)) := by
  unfold roundSig
  simp only [hx.ne.symm, if_false, abs_of_pos hx, not_lt.mpr hx.le]

/-- Evaluation of a rounding from explicit bounds. -/
theorem roundSig_eval (prec : Nat) {x : ℚ} (e M : Int) (h1 : (2 : ℚ) ^ e ≤ x)
    (h2 : x < (2 : ℚ) ^ (e + 1))
    (h3 : (M : ℚ) - 1 / 2 < x / 2 ^ (e + 1 - (prec : Int)))
    (h4 : x / 2 ^ (e + 1 - (prec : Int)) < (M : ℚ) + 1 / 2) :
    roundSig prec x = (M : ℚ) * 2 ^ (e + 1 - (prec : Int)) := by
  have hx : 0 < x := lt_of_lt_of_le (zpow_pos (by norm_num) e) h1
  rw [roundSig_pos_eq prec hx, log_two_eq h1 h2, roundHalfEven_eq_of_near h3 h4]

/-- A positive integer below 2^prec is representable. -/
theorem roundSig_natCast (prec : Nat) (k : Nat) (hk : k < 2 ^ prec) :
    roundSig prec (k : ℚ) = (k : ℚ) := by
  rcases Nat.eq_zero_or_pos k with h0 | hpos
  · subst h0; simp [roundSig]
  have hx : (0 : ℚ) < (k : ℚ) := by exact_mod_cast hpos
  rw [roundSig_pos_eq prec hx]
  have hlog : Int.log 2 (k : ℚ) < (prec : Int) := by
    rw [← Int.lt_zpow_iff_log_lt (by norm_num) hx]
    have : ((k : ℚ)) < ((2 : ℕ) : ℚ) ^ prec := by exact_mod_cast hk
    simpa using this
  obtain ⟨j, hj⟩ : ∃ j : Nat, (prec : Int) - (Int.log 2 (k : ℚ) + 1) = (j : Int) :=
    ⟨((prec : Int) - (Int.log 2 (k : ℚ) + 1)).toNat, by omega⟩
  have hu : (2 : ℚ) ^ (Int.log 2 (k : ℚ) + 1 - (prec : Int)) = ((2 : ℚ) ^ j)⁻¹ := by
    have : Int.log 2 (k : ℚ) + 1 - (prec : Int) = -(j : Int) := by omega
    rw [this, zpow_neg, zpow_natCast]
  rw [hu]
  have hp : (0 : ℚ) < (2 : ℚ) ^ j := by positivity
  have hq : (k : ℚ) / ((2 : ℚ) ^ j)⁻¹ = (((k * 2 ^ j : Nat) : Int) : ℚ) := by
    push_cast; field_simp
  rw [hq, roundHalfEven_intCast]
  push_cast
  field_simp

theorem roundSig_intCast (prec : Nat) (k : Int) (hk : k.natAbs < 2 ^ prec) :
    roundSig prec (k : ℚ) = (k : ℚ) := by
  obtain ⟨n, rfl | rfl⟩ := Int.eq_nat_or_neg k
  · simp only [Int.natAbs_ofNat] at hk
    simpa using roundSig_natCast prec n hk
  · simp only [Int.natAbs_neg, Int.natAbs_ofNat] at hk
    have := roundSig_natCast prec n hk
    push_cast
    rw [roundSig_neg, this]

/-- Rounding a quotient n / d of naturals with n < 2^prec does not change its integer
part. -/
theorem floor_roundSig_div (prec : Nat) (n d : Nat) (hn : 0 < n) (hd : 0 < d)
    (hlt : n < 2 ^ prec) :
    ⌊roundSig prec ((n : ℚ) / (d : ℚ))⌋ = ((n / d : Nat) : Int) := by
  have hnq : (0 : ℚ) < (n : ℚ) := by exact_mod_cast hn
  have hdq : (0 : ℚ) < (d : ℚ) := by exact_mod_cast hd
  have hx : (0 : ℚ) < (n : ℚ) / (d : ℚ) := div_pos hnq hdq
  have hxn : (n : ℚ) / (d : ℚ) ≤ (n : ℚ) := by
    apply div_le_self hnq.le
    exact_mod_cast hd
  have hpq : (n : ℚ) < (2 : ℚ) ^ prec := by exact_mod_cast hlt
  rw [roundSig_pos_eq prec hx]
  have hlo : ((2 : ℕ) : ℚ) ^ Int.log 2 ((n : ℚ) / (d : ℚ)) ≤ (n : ℚ) / (d : ℚ) :=
    Int.zpow_log_le_self (by norm_num) hx
  have hlog : Int.log 2 ((n : ℚ) / (d : ℚ)) < (prec : Int) := by
    rw [← Int.lt_zpow_iff_log_lt (by norm_num) hx]
    have : (n : ℚ) / (d : ℚ) < (2 : ℚ) ^ prec := lt_of_le_of_lt hxn hpq
    simpa using this
  generalize Int.log 2 ((n : ℚ) / (d : ℚ)) = e at hlo hlog ⊢
  obtain ⟨j, hj⟩ : ∃ j : Nat, (prec : Int) - (e + 1) = (j : Int) :=
    ⟨((prec : Int) - (e + 1)).toNat, by omega⟩
  have hu : (2 : ℚ) ^ (e + 1 - (prec : Int)) = ((2 : ℚ) ^ j)⁻¹ := by
    have : e + 1 - (prec : Int) = -(j : Int) := by omega
    rw [this, zpow_neg, zpow_natCast]
  have he : (2 : ℚ) ^ e = (2 : ℚ) ^ prec / (2 * (2 : ℚ) ^ j) := by
    have : e = (prec : Int) - ((j : Int) + 1) := by omega
    rw [this, zpow_sub₀ (by norm_num), zpow_add₀ (by norm_num)]
    simp only [zpow_natCast, zpow_one]
    ring
  rw [hu]
  set w : ℚ := (2 : ℚ) ^ j with hw
  have hwpos : (0 : ℚ) < w := by positivity
  have hwint : w = (((2 ^ j : Nat) : Int) : ℚ) := by simp [hw]
  have hd2w : (d : ℚ) < 2 * w := by
    have h1 : (2 : ℚ) ^ prec / (2 * w) ≤ (n : ℚ) / (d : ℚ) := by
      rw [← he]; simpa using hlo
    have h2 : (2 : ℚ) ^ prec / (2 * w) < (2 : ℚ) ^ prec / (d : ℚ) :=
      lt_of_le_of_lt h1 (div_lt_div_of_pos_right hpq hdq)
    have hp : (0 : ℚ) < (2 : ℚ) ^ prec := by positivity
    exact (div_lt_div_iff_of_pos_left hp (by positivity) hdq).mp h2
  set t : Nat := n / d with ht
  have htle : (t : ℚ) ≤ (n : ℚ) / (d : ℚ) := Nat.cast_div_le
  have hsucc : (n : ℚ) + 1 ≤ (d : ℚ) * ((t : ℚ) + 1) := by
    have := Nat.lt_mul_div_succ n hd
    have h' : n + 1 ≤ d * (t + 1) := this
    exact_mod_cast h'
  have hxle : (n : ℚ) / (d : ℚ) ≤ ((t : ℚ) + 1) - 1 / (d : ℚ) := by
    rw [div_le_iff₀ hdq]
    have : (((t : ℚ) + 1) - 1 / (d : ℚ)) * (d : ℚ) = (d : ℚ) * ((t : ℚ) + 1) - 1 := by
      field_simp
      ring
    rw [this]; linarith
  have hdiv : (n : ℚ) / (d : ℚ) / w⁻¹ = (n : ℚ) / (d : ℚ) * w := by
    rw [div_inv_eq_mul]
  rw [hdiv]
  set M : Int := roundHalfEven ((n : ℚ) / (d : ℚ) * w) with hM
  have hMlo : ((t * 2 ^ j : Nat) : Int) ≤ M := by
    apply le_roundHalfEven
    push_cast
    rw [← hw]
    exact mul_le_mul_of_nonneg_right htle hwpos.le
  have hMhi : M < (((t + 1) * 2 ^ j : Nat) : Int) := by
    apply roundHalfEven_lt
    push_cast
    rw [← hw]
    have h1 : (n : ℚ) / (d : ℚ) * w ≤ (((t : ℚ) + 1) - 1 / (d : ℚ)) * w :=
      mul_le_mul_of_nonneg_right hxle hwpos.le
    have h2 : (1 : ℚ) / 2 < 1 / (d : ℚ) * w := by
      rw [one_div_mul_eq_div, lt_div_iff₀ hdq]
      linarith
    have h3 : (((t : ℚ) + 1) - 1 / (d : ℚ)) * w = ((t : ℚ) + 1) * w - 1 / (d : ℚ) * w := by
      ring
    linarith
  rw [Int.floor_eq_iff]
  have hMloq : (t : ℚ) * w ≤ (M : ℚ) := by
    have : (((t * 2 ^ j : Nat) : Int) : ℚ) ≤ (M : ℚ) := by exact_mod_cast hMlo
    simpa [hw] using this
  have hMhiq : (M : ℚ) + 1 ≤ ((t : ℚ) + 1) * w := by
    have h' : M + 1 ≤ (((t + 1) * 2 ^ j : Nat) : Int) := hMhi
    have : ((M + 1 : Int) : ℚ) ≤ ((((t + 1) * 2 ^ j : Nat) : Int) : ℚ) := by exact_mod_cast h'
    simpa [hw] using this
  constructor
  · push_cast
    rw [le_mul_inv_iff₀ hwpos]
    exact hMloq
  · push_cast
    rw [mul_inv_lt_iff₀ hwpos]
    linarith

theorem roundSig_nonneg (prec : Nat) {x : ℚ} (hx : 0 ≤ x) : 0 ≤ roundSig prec x := by
  rcases eq_or_lt_of_le hx with h | h
  · rw [← h]; simp [roundSig]
  · rw [roundSig_pos_eq prec h]
    apply mul_nonneg
    · have h0 : (0 : ℚ) ≤ x / 2 ^ (Int.log 2 x + 1 - (prec : Int)) :=
        div_nonneg hx (zpow_pos (by norm_num) _).le
      have : (0 : Int) ≤ roundHalfEven (x / 2 ^ (Int.log 2 x + 1 - (prec : Int))) :=
        le_roundHalfEven (by exact_mod_cast h0)
      exact_mod_cast this
    · exact (zpow_pos (by norm_num) _).le

theorem castInt_of_nonneg {r : ℚ} (h : 0 ≤ r) : castInt r = ⌊r⌋ := by
  simp [castInt, h]

theorem castInt_neg_of_nonneg {r : ℚ} (h : 0 ≤ r) : castInt (-r) = -⌊r⌋ := by
  unfold castInt
  by_cases h0 : 0 ≤ -r
  · have : r = 0 := by linarith
    subst this
    simp
  · simp [h0]

/-- The float-mediated conversion is exact truncation when |numerator| < 2^24 and
0 < denominator < 2^24. -/
theorem floatValueToInt_exact (f : Fraction) (hn : f.numerator.natAbs < 2 ^ 24)
    (hd0 : 0 < f.denominator) (hd : f.denominator < 2 ^ 24) :
    floatValueToInt f = truncTowardZero f := by
  obtain ⟨n, d⟩ := f
  simp only at hn hd0 hd
  obtain ⟨k, rfl⟩ := Int.eq_ofNat_of_zero_le hd0.le
  have hk0 : 0 < k := by exact_mod_cast hd0
  have hk : k < 2 ^ 24 := by exact_mod_cast hd
  have hfd : toFloat (((k : Nat) : Int) : ℚ) = (k : ℚ) := by
    simpa [toFloat] using roundSig_natCast 24 k hk
  have hfn : toFloat ((n : Int) : ℚ) = (n : ℚ) := roundSig_intCast 24 n hn
  simp only [floatValueToInt, getFloatValue, truncTowardZero, hfd, hfn]
  obtain ⟨m, rfl | rfl⟩ := Int.eq_nat_or_neg n
  · simp only [Int.natAbs_ofNat] at hn
    have hnn : (0 : ℚ) ≤ (((m : Nat) : Int) : ℚ) / (k : ℚ) := by positivity
    unfold toFloat
    rw [castInt_of_nonneg (roundSig_nonneg 24 hnn)]
    rw [Int.tdiv_eq_ediv (Int.ofNat_nonneg m) (Int.ofNat_nonneg k)]
    rcases Nat.eq_zero_or_pos m with h0 | hm
    · subst h0; simp [roundSig]
    · have := floor_roundSig_div 24 m k hm hk0 hn
      simpa using this
  · simp only [Int.natAbs_neg, Int.natAbs_ofNat] at hn
    have hnn : (0 : ℚ) ≤ (m : ℚ) / (k : ℚ) := by positivity
    have hneg : ((-(m : Int) : Int) : ℚ) / (k : ℚ) = -((m : ℚ) / (k : ℚ)) := by
      push_cast; ring
    rw [hneg]
    unfold toFloat
    rw [roundSig_neg, castInt_neg_of_nonneg (roundSig_nonneg 24 hnn), Int.neg_tdiv,
      Int.tdiv_eq_ediv (Int.ofNat_nonneg m) (Int.ofNat_nonneg k)]
    congr 1
    rcases Nat.eq_zero_or_pos m with h0 | hm
    · subst h0; simp [roundSig]
    · exact floor_roundSig_div 24 m k hm hk0 hn

/-! ## Remainder -/

theorem opMod_exact (a b : Fraction) (ha : a.denominator ≠ 0) (hb0 : b.numerator ≠ 0)
    (hn : (normal (val a / val b)).numerator.natAbs < 2 ^ 24)
    (hd : (normal (val a / val b)).denominator < 2 ^ 24) :
    opMod floatValueToInt a b = Result.ok
      (Int.tmod (normal (val a / val b)).numerator (normal (val a / val b)).denominator) := by
  simp only [opMod, checkDivisionByZero, hb0, if_false, Result.bind, opDiv_ok a b ha hb0]
  rw [floatValueToInt_exact _ hn (normal_den_pos _) hd, truncTowardZero, Int.tmod_def]

theorem normal_div_bounds (x y : Int) (hy : y ≠ 0) (hx : x.natAbs < 2 ^ 24)
    (hyb : y.natAbs < 2 ^ 24) :
    (normal ((x : ℚ) / (y : ℚ))).numerator.natAbs < 2 ^ 24 ∧
    (normal ((x : ℚ) / (y : ℚ))).denominator < 2 ^ 24 := by
  simp only [normal]
  rw [← Rat.divInt_eq_div]
  constructor
  · rcases eq_or_ne x 0 with h0 | h0
    · subst h0; simp
    · have h1 : (Rat.divInt x y).num ∣ x := Rat.num_dvd x hy
      have h2 : (Rat.divInt x y).num.natAbs ∣ x.natAbs := Int.natAbs_dvd_natAbs.mpr h1
      have h3 := Nat.le_of_dvd (Int.natAbs_pos.mpr h0) h2
      omega
  · have h1 : ((Rat.divInt x y).den : Int) ∣ y := Rat.den_dvd x y
    have h2 : (Rat.divInt x y).den ∣ y.natAbs := by
      have := Int.natAbs_dvd_natAbs.mpr h1
      simpa using this
    have h3 := Nat.le_of_dvd (Int.natAbs_pos.mpr hy) h2
    have h4 : (Rat.divInt x y).den < 2 ^ 24 := lt_of_le_of_lt h3 hyb
    exact_mod_cast h4

/-- C12 (counterexample): `Fraction(6,1) % Fraction(4,1)` returns 1 although the
truncating remainder of 6 by 4 is 2, and `Fraction(7,1) % Fraction(-2,1)` returns -1
although the truncating remainder of 7 by -2 is 1. -/
theorem mod_not_integer_remainder :
    (((ctorIntInt 6 1).bind fun a => (ctorIntInt 4 1).bind fun b =>
      opMod floatValueToInt a b) = Result.ok 1 ∧ Int.tmod 6 4 = 2) ∧
    (((ctorIntInt 7 1).bind fun a => (ctorIntInt (-2) 1).bind fun b =>
      opMod floatValueToInt a b) = Result.ok (-1) ∧ Int.tmod 7 (-2) = 1) := by
  have c : ∀ x : Int, ctorIntInt x 1 = Result.ok ⟨x, 1⟩ := by
    intro x
    rw [ctorIntInt_ok x 1 (by decide)]
    congr 1
    simpa using normal_div_of_coprime (a := x) (b := 1) (by decide) (by simp)
  have d1 : opDiv ⟨6, 1⟩ ⟨4, 1⟩ = Result.ok ⟨3, 2⟩ := by
    simp +decide [opDiv, checkDivisionByZero, ctorIntInt, simplify, gcd, idiv, Result.bind]
  have d2 : opDiv ⟨7, 1⟩ ⟨-2, 1⟩ = Result.ok ⟨-7, 2⟩ := by
    simp +decide [opDiv, checkDivisionByZero, ctorIntInt, simplify, gcd, idiv, Result.bind]
  have e1 : floatValueToInt ⟨3, 2⟩ = 1 := by
    rw [floatValueToInt_exact _ (by decide) (by decide) (by decide)]; decide
  have e2 : floatValueToInt ⟨-7, 2⟩ = -3 := by
    rw [floatValueToInt_exact _ (by decide) (by decide) (by decide)]; decide
  refine ⟨⟨?_, by decide⟩, ⟨?_, by decide⟩⟩
  · rw [c 6, c 4]
    simp only [Result.bind, opMod, checkDivisionByZero, d1]
    simp [e1]
  · rw [c 7, c (-2)]
    simp only [Result.bind, opMod, checkDivisionByZero, d2]
    simp [e2]

/-- C12 (amended): for integers x and y ≠ 0 with |x|, |y| < 2^24,
`Fraction(x,1) % Fraction(y,1)` returns the truncating remainder of q.numerator by
q.denominator, where q is the canonical form of x/y returned by the division; when y > 0
and gcd(|x|, y) = 1 this is the truncating remainder of x by y;
`Fraction(7,1) % Fraction(2,1)` is 1 and `Fraction(-7,1) % Fraction(2,1)` is -1. -/
theorem mod_integers :
    (∀ x y : Int, y ≠ 0 → x.natAbs < 2 ^ 24 → y.natAbs < 2 ^ 24 →
      ctorIntInt x 1 = Result.ok ⟨x, 1⟩ ∧ ctorIntInt y 1 = Result.ok ⟨y, 1⟩ ∧
      (∃ q, opDiv ⟨x, 1⟩ ⟨y, 1⟩ = Result.ok q ∧ Canonical q ∧
        q.numerator * y = x * q.denominator ∧
        opMod floatValueToInt ⟨x, 1⟩ ⟨y, 1⟩ =
          Result.ok (Int.tmod q.numerator q.denominator)) ∧
      (0 < y → Nat.gcd x.natAbs y.natAbs = 1 →
        opMod floatValueToInt ⟨x, 1⟩ ⟨y, 1⟩ = Result.ok (Int.tmod x y))) ∧
    opMod floatValueToInt ⟨7, 1⟩ ⟨2, 1⟩ = Result.ok 1 ∧
    opMod floatValueToInt ⟨-7, 1⟩ ⟨2, 1⟩ = Result.ok (-1) := by
  have c : ∀ x : Int, ctorIntInt x 1 = Result.ok ⟨x, 1⟩ := by
    intro x
    rw [ctorIntInt_ok x 1 (by decide)]
    congr 1
    simpa using normal_div_of_coprime (a := x) (b := 1) (by decide) (by simp)
  have hv : ∀ x y : Int, val ⟨x, 1⟩ / val ⟨y, 1⟩ = (x : ℚ) / (y : ℚ) := by
    intro x y; simp [val]
  have main : ∀ x y : Int, y ≠ 0 → x.natAbs < 2 ^ 24 → y.natAbs < 2 ^ 24 →
      opMod floatValueToInt ⟨x, 1⟩ ⟨y, 1⟩ = Result.ok
        (Int.tmod (normal ((x : ℚ) / (y : ℚ))).numerator
          (normal ((x : ℚ) / (y : ℚ))).denominator) := by
    intro x y hy hx hyb
    obtain ⟨b1, b2⟩ := normal_div_bounds x y hy hx hyb
    have := opMod_exact ⟨x, 1⟩ ⟨y, 1⟩ (by simp) hy (by rw [hv]; exact b1) (by rw [hv]; exact b2)
    rw [hv] at this
    exact this
  have cop : ∀ x y : Int, y ≠ 0 → x.natAbs < 2 ^ 24 → y.natAbs < 2 ^ 24 → 0 < y →
      Nat.gcd x.natAbs y.natAbs = 1 →
      opMod floatValueToInt ⟨x, 1⟩ ⟨y, 1⟩ = Result.ok (Int.tmod x y) := by
    intro x y hy hx hyb hpos hg
    rw [main x y hy hx hyb, normal_div_of_coprime hpos hg]
  refine ⟨?_, ?_, ?_⟩
  · intro x y hy hx hyb
    refine ⟨c x, c y, ⟨normal ((x : ℚ) / (y : ℚ)), ?_, canonical_normal _, ?_, main x y hy hx hyb⟩,
      cop x y hy hx hyb⟩
    · rw [opDiv_ok ⟨x, 1⟩ ⟨y, 1⟩ (by simp) hy, hv]
    · have hyq : (y : ℚ) ≠ 0 := by exact_mod_cast hy
      have hdq : (((normal ((x : ℚ) / (y : ℚ))).denominator : Int) : ℚ) ≠ 0 := by
        exact_mod_cast (normal_den_pos _).ne.symm
      have h := val_normal ((x : ℚ) / (y : ℚ))
      unfold val at h
      rw [div_eq_div_iff hdq hyq] at h
      exact_mod_cast h
  · rw [cop 7 2 (by decide) (by decide) (by decide) (by decide) (by decide)]; decide
  · rw [cop (-7) 2 (by decide) (by decide) (by decide) (by decide) (by decide)]; decide

/-- C12 (amended), witness: the statement at x = 6, y = 4 (general part) and at x = -7,
y = 2 (coprime part). -/
theorem mod_integers_witness :
    ((4 : Int) ≠ 0 ∧ (6 : Int).natAbs < 2 ^ 24 ∧ (4 : Int).natAbs < 2 ^ 24) ∧
    (∃ q, opDiv ⟨6, 1⟩ ⟨4, 1⟩ = Result.ok q ∧ Canonical q ∧
      q.numerator * 4 = 6 * q.denominator ∧
      opMod floatValueToInt ⟨6, 1⟩ ⟨4, 1⟩ = Result.ok (Int.tmod q.numerator q.denominator)) ∧
    ((2 : Int) ≠ 0 ∧ (-7 : Int).natAbs < 2 ^ 24 ∧ (2 : Int).natAbs < 2 ^ 24 ∧ (0 : Int) < 2 ∧
      Nat.gcd (-7 : Int).natAbs (2 : Int).natAbs = 1) ∧
    opMod floatValueToInt ⟨-7, 1⟩ ⟨2, 1⟩ = Result.ok (Int.tmod (-7) 2) :=
  ⟨⟨by decide, by decide, by decide⟩,
    (mod_integers.1 6 4 (by decide) (by decide) (by decide)).2.2.1,
    ⟨by decide, by decide, by decide, by decide, by decide⟩,
    (mod_integers.1 (-7) 2 (by decide) (by decide) (by decide)).2.2.2 (by decide) (by decide)⟩

theorem toFloat_natCast (k : Nat) (hk : k < 2 ^ 24) : toFloat (k : ℚ) = (k : ℚ) :=
  roundSig_natCast 24 k hk

theorem toDouble_natCast (k : Nat) (hk : k < 2 ^ 53) : toDouble (k : ℚ) = (k : ℚ) :=
  roundSig_natCast 53 k hk

theorem frexp_two_pow_neg22 : frexp (1 / 4194304) = (1 / 2, -21) := by
  have hl : Int.log 2 |(1 / 4194304 : ℚ)| = -22 := by
    rw [abs_of_pos (by norm_num)]
    apply log_two_eq <;> norm_num
  simp only [frexp, hl]
  norm_num

theorem mantissaToInteger_half (k : Nat) :
    mantissaToInteger (k + 2) (1 / 2) 0 = some (5, 1) := by
  have c0 : castInt (1 / 2 : ℚ) = 0 := by
    rw [castInt_of_nonneg (by norm_num)]
    rw [Int.floor_eq_iff]; norm_num
  have c5 : castInt (5 : ℚ) = 5 := by
    rw [castInt_of_nonneg (by norm_num)]
    exact_mod_cast Int.floor_intCast (5 : Int)
  have f0 : toFloat ((0 : Int) : ℚ) = 0 := by simp [toFloat, roundSig]
  have f5 : toFloat (5 : ℚ) = 5 := by exact_mod_cast toFloat_natCast 5 (by norm_num)
  have f5' : toFloat ((5 : Int) : ℚ) = 5 := by exact_mod_cast f5
  have m10 : (1 / 2 : ℚ) * 10 = 5 := by norm_num
  rw [mantissaToInteger]
  rw [c0, f0, if_pos (by norm_num), m10, f5]
  rw [mantissaToInteger]
  rw [c5, f5', if_neg (by norm_num)]
  rfl

theorem pow_five_neg21 :
    pow 5 (-21) = (5316911983139663 : ℚ) * (2 : ℚ) ^ (-101 : Int) := by
  unfold pow toDouble
  have h := roundSig_eval 53 (x := (5 : ℚ) ^ (-21 : Int)) (-49) 5316911983139663
    (by norm_num) (by norm_num) (by norm_num) (by norm_num)
  rw [h]
  norm_num

theorem pow_ten_22 : pow 10 22 = (10 : ℚ) ^ (22 : Nat) := by
  unfold pow toDouble
  have h := roundSig_eval 53 (x := (10 : ℚ) ^ (22 : Int)) 73 4768371582031250
    (by norm_num) (by norm_num) (by norm_num) (by norm_num)
  rw [h]
  norm_num

theorem pow_two_zero : pow 2 0 = 1 := by
  unfold pow
  simpa using toDouble_natCast 1 (by norm_num)

theorem denominator_two_pow_neg22 :
    castInt (toDouble (pow 5 (-21) * pow 10 22)) = 20971519 := by
  rw [pow_five_neg21, pow_ten_22]
  unfold toDouble
  have h := roundSig_eval 53
    (x := (5316911983139663 : ℚ) * (2 : ℚ) ^ (-101 : Int) * (10 : ℚ) ^ (22 : Nat))
    24 5629499534213119 (by norm_num) (by norm_num) (by norm_num) (by norm_num)
  rw [h, castInt_of_nonneg (by norm_num), Int.floor_eq_iff]
  norm_num

theorem numerator_two_pow_neg22 : castInt (toDouble (((5 : Int) : ℚ) * pow 2 0)) = 5 := by
  rw [pow_two_zero]
  have h : toDouble (((5 : Int) : ℚ) * 1) = 5 := by
    simpa using toDouble_natCast 5 (by norm_num)
  rw [h, castInt_of_nonneg (by norm_num)]
  exact_mod_cast Int.floor_intCast (5 : Int)

theorem ctorFloat_two_pow_neg22 (k : Nat) :
    ctorFloat (k + 2) (1 / 4194304) = Result.ok ⟨5, 20971519⟩ := by
  rw [ctorFloat, frexp_two_pow_neg22]
  simp only []
  rw [mantissaToInteger_half]
  simp only [importNumerator, importDenominator]
  have hs : importShift 1 (-21) = -21 := by decide
  have e1 : (-21 : Int) - (-21) = 0 := by decide
  have e2 : (1 : Int) - (-21) = 22 := by decide
  rw [hs, e1, e2, numerator_two_pow_neg22, denominator_two_pow_neg22]
  have hc : Canonical ⟨5, 20971519⟩ := ⟨by norm_num, by norm_num⟩
  rw [simplify_ok _ hc.1.ne.symm, normal_val hc]

theorem frexp_half : frexp (1 / 2) = (1 / 2, 0) := by
  have hl : Int.log 2 |(1 / 2 : ℚ)| = -1 := by
    rw [abs_of_pos (by norm_num)]
    apply log_two_eq <;> norm_num
  simp only [frexp, hl]
  norm_num

theorem frexp_quarter : frexp (1 / 4) = (1 / 2, -1) := by
  have hl : Int.log 2 |(1 / 4 : ℚ)| = -2 := by
    rw [abs_of_pos (by norm_num)]
    apply log_two_eq <;> norm_num
  simp only [frexp, hl]
  norm_num

theorem frexp_three : frexp 3 = (3 / 4, 2) := by
  have hl : Int.log 2 |(3 : ℚ)| = 1 := by
    rw [abs_of_pos (by norm_num)]
    apply log_two_eq <;> norm_num
  simp only [frexp, hl]
  norm_num

theorem mantissaToInteger_three_quarters (k : Nat) :
    mantissaToInteger (k + 3) (3 / 4) 0 = some (75, 2) := by
  have c0 : castInt (3 / 4 : ℚ) = 0 := by
    rw [castInt_of_nonneg (by norm_num), Int.floor_eq_iff]; norm_num
  have c7 : castInt (15 / 2 : ℚ) = 7 := by
    rw [castInt_of_nonneg (by norm_num), Int.floor_eq_iff]; norm_num
  have c75 : castInt (75 : ℚ) = 75 := by
    rw [castInt_of_nonneg (by norm_num)]
    exact_mod_cast Int.floor_intCast (75 : Int)
  have f0 : toFloat ((0 : Int) : ℚ) = 0 := by simp [toFloat, roundSig]
  have f7 : toFloat ((7 : Int) : ℚ) = 7 := by
    exact_mod_cast toFloat_natCast 7 (by norm_num)
  have f75 : toFloat (75 : ℚ) = 75 := by exact_mod_cast toFloat_natCast 75 (by norm_num)
  have f75' : toFloat ((75 : Int) : ℚ) = 75 := by exact_mod_cast f75
  have f15 : toFloat (15 / 2 : ℚ) = 15 / 2 := by
    unfold toFloat
    have h := roundSig_eval 24 (x := (15 / 2 : ℚ)) 2 15728640
      (by norm_num) (by norm_num) (by norm_num) (by norm_num)
    rw [h]; norm_num
  have m1 : (3 / 4 : ℚ) * 10 = 15 / 2 := by norm_num
  have m2 : (15 / 2 : ℚ) * 10 = 75 := by norm_num
  rw [mantissaToInteger]
  rw [c0, f0, if_pos (by norm_num), m1, f15]
  rw [mantissaToInteger]
  rw [c7, f7, if_pos (by norm_num), m2, f75]
  rw [mantissaToInteger]
  rw [c75, f75', if_neg (by norm_num)]
  rfl

theorem castInt_toDouble_natCast (k : Nat) (hk : k < 2 ^ 53) :
    castInt (toDouble (k : ℚ)) = (k : Int) := by
  rw [toDouble_natCast k hk, castInt_of_nonneg (by positivity)]
  exact_mod_cast Int.floor_intCast (k : Int)

theorem pow_natCast (x n : Nat) (h : x ^ n < 2 ^ 53) :
    pow (x : ℚ) (n : Int) = ((x ^ n : Nat) : ℚ) := by
  unfold pow
  rw [zpow_natCast]
  exact_mod_cast toDouble_natCast (x ^ n) h

theorem pow_five_neg1 :
    pow 5 (-1) = (7205759403792794 : ℚ) * (2 : ℚ) ^ (-55 : Int) := by
  unfold pow toDouble
  have h := roundSig_eval 53 (x := (5 : ℚ) ^ (-1 : Int)) (-3) 7205759403792794
    (by norm_num) (by norm_num) (by norm_num) (by norm_num)
  rw [h]
  norm_num

theorem ctorFloat_half (k : Nat) : ctorFloat (k + 2) (1 / 2) = Result.ok ⟨1, 2⟩ := by
  rw [ctorFloat, frexp_half]
  simp only []
  rw [mantissaToInteger_half]
  simp only [importNumerator, importDenominator]
  have hs : importShift 1 0 = 0 := by decide
  have e1 : (0 : Int) - 0 = 0 := by decide
  have e2 : (1 : Int) - 0 = 1 := by decide
  have p0 : pow 2 0 = 1 := by simpa using pow_natCast 2 0 (by norm_num)
  have p1 : pow 5 0 = 1 := by simpa using pow_natCast 5 0 (by norm_num)
  have p2 : pow 10 1 = 10 := by simpa using pow_natCast 10 1 (by norm_num)
  have n1 : castInt (toDouble (((5 : Int) : ℚ) * 1)) = 5 := by
    simpa using castInt_toDouble_natCast 5 (by norm_num)
  have d1 : castInt (toDouble ((1 : ℚ) * 10)) = 10 := by
    simpa using castInt_toDouble_natCast 10 (by norm_num)
  rw [hs, e1, e2, p0, p1, p2, n1, d1]
  simp +decide [simplify, gcd, idiv, Result.bind]

theorem ctorFloat_quarter (k : Nat) : ctorFloat (k + 2) (1 / 4) = Result.ok ⟨1, 4⟩ := by
  rw [ctorFloat, frexp_quarter]
  simp only []
  rw [mantissaToInteger_half]
  simp only [importNumerator, importDenominator]
  have hs : importShift 1 (-1) = -1 := by decide
  have e1 : (-1 : Int) - (-1) = 0 := by decide
  have e2 : (1 : Int) - (-1) = 2 := by decide
  have p0 : pow 2 0 = 1 := by simpa using pow_natCast 2 0 (by norm_num)
  have p2 : pow 10 2 = 100 := by simpa using pow_natCast 10 2 (by norm_num)
  have n1 : castInt (toDouble (((5 : Int) : ℚ) * 1)) = 5 := by
    simpa using castInt_toDouble_natCast 5 (by norm_num)
  have d1 : castInt (toDouble (pow 5 (-1) * 100)) = 20 := by
    rw [pow_five_neg1]
    unfold toDouble
    have h := roundSig_eval 53
      (x := (7205759403792794 : ℚ) * (2 : ℚ) ^ (-55 : Int) * 100)
      4 5629499534213120 (by norm_num) (by norm_num) (by norm_num) (by norm_num)
    rw [h, castInt_of_nonneg (by norm_num), Int.floor_eq_iff]
    norm_num
  rw [hs, e1, e2, p0, p2, n1, d1]
  simp +decide [simplify, gcd, idiv, Result.bind]

theorem ctorFloat_three (k : Nat) : ctorFloat (k + 3) 3 = Result.ok ⟨3, 1⟩ := by
  rw [ctorFloat, frexp_three]
  simp only []
  rw [mantissaToInteger_three_quarters]
  simp only [importNumerator, importDenominator]
  have hs : importShift 2 2 = 2 := by decide
  have e1 : (2 : Int) - 2 = 0 := by decide
  have p0 : pow 2 0 = 1 := by simpa using pow_natCast 2 0 (by norm_num)
  have p1 : pow 5 2 = 25 := by simpa using pow_natCast 5 2 (by norm_num)
  have p2 : pow 10 0 = 1 := by simpa using pow_natCast 10 0 (by norm_num)
  have n1 : castInt (toDouble (((75 : Int) : ℚ) * 1)) = 75 := by
    simpa using castInt_toDouble_natCast 75 (by norm_num)
  have d1 : castInt (toDouble ((25 : ℚ) * 1)) = 25 := by
    simpa using castInt_toDouble_natCast 25 (by norm_num)
  rw [hs, e1, p0, p1, p2, n1, d1]
  simp +decide [simplify, gcd, idiv, Result.bind]

/-- C16 (the code at the failing input): 2^-22 is a `float`; `frexp` gives mantissa 1/2
and exponent -21, `mantissaToInteger` returns 5 with one decimal shift (1/2 * 10 = 5, no
rounding), and the exact denominator 5^-21 * 10^22 is 20971520; but `Fraction(2^-22)`
returns 5/20971519, because `pow(5, -21) * pow(10, 22)` evaluates to a `double` just
below 20971520 and the conversion to `int` truncates it. The value of the result is not
2^-22. The three imports named by the claim return 1/2, 1/4 and 3/1. -/
theorem float_import_two_pow_neg22 :
    toFloat (1 / 4194304) = 1 / 4194304 ∧
    frexp (1 / 4194304) = (1 / 2, -21) ∧
    toFloat ((1 / 2 : ℚ) * 10) = (1 / 2 : ℚ) * 10 ∧
    (∀ k : Nat, mantissaToInteger (k + 2) (1 / 2) 0 = some (5, 1)) ∧
    scaledNumerator 5 1 (-21) = 5 ∧ scaledDenominator 1 (-21) = 20971520 ∧
    (∀ k : Nat, ctorFloat (k + 2) (1 / 4194304) = Result.ok ⟨5, 20971519⟩) ∧
    val ⟨5, 20971519⟩ ≠ 1 / 4194304 ∧
    normal (1 / 4194304) = ⟨1, 4194304⟩ ∧
    (∀ k : Nat, ctorFloat (k + 2) (1 / 2) = Result.ok ⟨1, 2⟩) ∧
    (∀ k : Nat, ctorFloat (k + 2) (1 / 4) = Result.ok ⟨1, 4⟩) ∧
    (∀ k : Nat, ctorFloat (k + 3) 3 = Result.ok ⟨3, 1⟩) := by
  have hs : importShift 1 (-21) = -21 := by decide
  refine ⟨?_, frexp_two_pow_neg22, ?_, mantissaToInteger_half, ?_, ?_,
    ctorFloat_two_pow_neg22, ?_, ?_, ctorFloat_half, ctorFloat_quarter, ctorFloat_three⟩
  · unfold toFloat
    have h := roundSig_eval 24 (x := (1 / 4194304 : ℚ)) (-22) 8388608
      (by norm_num) (by norm_num) (by norm_num) (by norm_num)
    rw [h]; norm_num
  · have : (1 / 2 : ℚ) * 10 = ((5 : Nat) : ℚ) := by norm_num
    rw [this]
    exact toFloat_natCast 5 (by norm_num)
  · simp only [scaledNumerator, hs]; norm_num
  · simp only [scaledDenominator, hs]; norm_num
  · unfold val; norm_num
  · have h := normal_div_of_coprime (a := 1) (b := 4194304) (by norm_num) (by norm_num)
    rw [← h]
    norm_num

/-! ## Fixed-width arithmetic -/

theorem wrap_eq {x : Int} (h : IsInt x) : wrap x = x := by
  unfold IsInt INT_MIN INT_MAX at h
  unfold wrap
  omega

theorem isInt_wrap (x : Int) : IsInt (wrap x) := by
  unfold IsInt INT_MIN INT_MAX wrap
  omega

theorem Fits.isInt {x : Int} (h : Fits x) : IsInt x := by
  unfold Fits at h
  unfold IsInt INT_MIN INT_MAX
  omega

theorem Fits.neg {x : Int} (h : Fits x) : Fits (-x) := by
  unfold Fits at *
  omega

theorem Fits.ne_min {x : Int} (h : Fits x) : x ≠ INT_MIN := by
  unfold Fits at h
  unfold INT_MIN
  omega

theorem fits_iff_natAbs (x : Int) : Fits x ↔ x.natAbs < 2147483648 := by
  unfold Fits
  omega

theorem fits_of_natAbs_le {x y : Int} (h : x.natAbs ≤ y.natAbs) (hy : Fits y) : Fits x := by
  rw [fits_iff_natAbs] at *
  omega

theorem fits_tmod_left (x y : Int) (hx : Fits x) : Fits (Int.tmod x y) := by
  apply fits_of_natAbs_le _ hx
  rw [natAbs_tmod]
  rcases Nat.eq_zero_or_pos y.natAbs with h | h
  · rw [h]; simp
  · exact Nat.mod_le _ _

theorem fits_tdiv (x y : Int) (hx : Fits x) : Fits (Int.tdiv x y) := by
  apply fits_of_natAbs_le _ hx
  rw [Int.natAbs_tdiv]
  exact Nat.div_le_self _ _

theorem not_traps_of_fits {x y : Int} (hx : Fits x) (hy : y ≠ 0) : ¬ Traps x y := by
  unfold Traps
  have := hx.ne_min
  tauto

theorem idiv32_eq {x y : Int} (hx : Fits x) : idiv32 x y = idiv x y := by
  unfold idiv32 idiv Traps
  have := hx.ne_min
  by_cases hy : y = 0
  · simp [hy]
  · simp [hy, this]

/-- Whenever the 32-bit loop returns, it returns what the loop on unbounded integers
returns. -/
theorem gcd32_ok (a b : Int) : ∀ g, gcd32 a b = Result.ok g → g = gcd a b := by
  induction a, b using gcd.induct with
  | case1 b => intro g h; rw [gcd32] at h; rw [gcd]; simpa using h.symm
  | case2 a b ha b1 hb =>
    intro g h
    rw [gcd32] at h; rw [gcd]
    simp only [ha, if_false] at h ⊢
    have hb' : Int.tmod b a = 0 := hb
    by_cases ht : Traps b a
    · simp [ht] at h
    · simp only [ht, if_false, hb', if_true] at h ⊢
      exact (Result.ok.inj h).symm
  | case3 a b ha b1 hb ih =>
    intro g h
    rw [gcd32] at h; rw [gcd]
    simp only [ha, if_false] at h ⊢
    have hb' : ¬ Int.tmod b a = 0 := hb
    by_cases ht : Traps b a
    · simp [ht] at h
    · simp only [ht, if_false, hb'] at h ⊢
      by_cases ht2 : Traps a (Int.tmod b a)
      · simp [ht2] at h
      · simp only [ht2, if_false] at h
        exact ih g h

theorem gcd32_eq_of_fits (a b : Int) : Fits a → Fits b → gcd32 a b = Result.ok (gcd a b) := by
  induction a, b using gcd.induct with
  | case1 b => intro _ _; rw [gcd32, gcd]; simp
  | case2 a b ha b1 hb =>
    intro _ hfb
    have hb' : Int.tmod b a = 0 := hb
    rw [gcd32, gcd]
    simp [ha, hb', not_traps_of_fits hfb ha]
  | case3 a b ha b1 hb ih =>
    intro hfa hfb
    have hb' : ¬ Int.tmod b a = 0 := hb
    rw [gcd32, gcd]
    simp only [ha, if_false, hb', not_traps_of_fits hfb ha, not_traps_of_fits hfa hb']
    exact ih (fits_tmod_left _ _ hfa) (fits_tmod_left _ _ hfb)

theorem gcd32Iter_eq (n : Nat) :
    ∀ a b : Int, a.natAbs < n → gcd32Iter n a b = some (gcd32 a b) := by
  induction n with
  | zero => intro a b h; omega
  | succ n ih =>
    intro a b h
    rw [gcd32]
    simp only [gcd32Iter]
    by_cases ha : a = 0
    · simp [ha]
    · simp only [ha, if_false]
      by_cases ht : Traps b a
      · simp [ht]
      · simp only [ht, if_false]
        by_cases hb : Int.tmod b a = 0
        · simp [hb]
        · simp only [hb, if_false]
          by_cases ht2 : Traps a (Int.tmod b a)
          · simp [ht2]
          · simp only [ht2, if_false]
            apply ih
            rw [natAbs_tmod]
            have h1 : (Int.tmod b a).natAbs < a.natAbs := by
              rw [natAbs_tmod]; exact Nat.mod_lt _ (Int.natAbs_pos.mpr ha)
            have h2 := Nat.mod_lt a.natAbs (Int.natAbs_pos.mpr hb)
            omega

/-- The 32-bit loop returns for all `int` operands other than (INT_MIN, -1) and
(-1, INT_MIN). -/
theorem gcd32_eq (a b : Int) (ha : IsInt a) (hb : IsInt b)
    (h1 : ¬ (a = INT_MIN ∧ b = -1)) (h2 : ¬ (a = -1 ∧ b = INT_MIN)) :
    gcd32 a b = Result.ok (gcd a b) := by
  rw [gcd32, gcd]
  by_cases ha0 : a = 0
  · simp [ha0]
  simp only [ha0, if_false]
  have ht : ¬ Traps b a := by
    unfold Traps; tauto
  simp only [ht, if_false]
  by_cases hb0 : Int.tmod b a = 0
  · simp [hb0]
  simp only [hb0, if_false]
  have hna : a.natAbs ≤ 2147483648 := by
    unfold IsInt INT_MIN INT_MAX at ha; omega
  have hlt : (Int.tmod b a).natAbs < a.natAbs := by
    rw [natAbs_tmod]; exact Nat.mod_lt _ (Int.natAbs_pos.mpr ha0)
  have hf1 : Fits (Int.tmod b a) := by
    rw [fits_iff_natAbs]; omega
  have hf2 : Fits (Int.tmod a (Int.tmod b a)) := by
    rw [fits_iff_natAbs, natAbs_tmod]
    have := Nat.mod_lt a.natAbs (Int.natAbs_pos.mpr hb0)
    omega
  have ht2 : ¬ Traps a (Int.tmod b a) := by
    unfold Traps
    rintro (h | ⟨h, h'⟩)
    · exact hb0 h
    · -- a = INT_MIN and b % a = -1 force b = -1
      apply h1
      refine ⟨h, ?_⟩
      have hbn : b.natAbs % 2147483648 = 1 := by
        have := natAbs_tmod b a
        rw [h', h] at this
        simpa [INT_MIN] using this.symm
      have hbr : b.natAbs ≤ 2147483648 := by
        unfold IsInt INT_MIN INT_MAX at hb; omega
      have hb1 : b = 1 ∨ b = -1 := by omega
      rcases hb1 with hb2 | hb2
      · rw [hb2, h] at h'
        exact absurd h' (by decide)
      · exact hb2
  simp only [ht2, if_false]
  exact gcd32_eq_of_fits _ _ hf2 hf1

theorem gcd32_ne_divisionByZero (a b : Int) : gcd32 a b ≠ Result.divisionByZero := by
  induction a, b using gcd32.induct with
  | case1 b => rw [gcd32]; simp
  | case2 a b ha ht => rw [gcd32]; simp [ha, ht]
  | case3 a b ha ht b1 hb =>
    have hb' : Int.tmod b a = 0 := hb
    rw [gcd32]; simp [ha, ht, hb']
  | case4 a b ha ht b1 hb ht2 =>
    have hb' : ¬ Int.tmod b a = 0 := hb
    have ht2' : Traps a (Int.tmod b a) := ht2
    rw [gcd32]; simp [ha, ht, hb', ht2']
  | case5 a b ha ht b1 hb ht2 ih =>
    have hb' : ¬ Int.tmod b a = 0 := hb
    have ht2' : ¬ Traps a (Int.tmod b a) := ht2
    rw [gcd32]; simp only [ha, ht, hb', ht2', if_false]
    exact ih

theorem idiv32_ne_divisionByZero (a b : Int) : idiv32 a b ≠ Result.divisionByZero := by
  unfold idiv32; split_ifs <;> simp

theorem simplify32_ne_divisionByZero (f : Fraction) :
    simplify32 f ≠ Result.divisionByZero := by
  unfold simplify32
  cases hg : gcd32 f.numerator f.denominator with
  | ok g =>
    simp only [Result.bind]
    cases hn : idiv32 f.numerator g with
    | ok n =>
      simp only []
      cases hd : idiv32 f.denominator g with
      | ok d => simp only []; split_ifs <;> simp
      | divisionByZero => exact absurd hd (idiv32_ne_divisionByZero _ _)
      | undefined => simp
    | divisionByZero => exact absurd hn (idiv32_ne_divisionByZero _ _)
    | undefined => simp
  | divisionByZero => exact absurd hg (gcd32_ne_divisionByZero _ _)
  | undefined => simp [Result.bind]

theorem simplify32_eq (f : Fraction) (hn : Fits f.numerator) (hd : Fits f.denominator) :
    simplify32 f = simplify f := by
  unfold simplify32 simplify
  rw [gcd32_eq_of_fits _ _ hn hd]
  simp only [Result.bind]
  rw [idiv32_eq hn, idiv32_eq hd]
  cases h1 : idiv f.numerator (gcd f.numerator f.denominator) with
  | ok n =>
    simp only []
    cases h2 : idiv f.denominator (gcd f.numerator f.denominator) with
    | ok d =>
      simp only []
      have hn' : n = Int.tdiv f.numerator (gcd f.numerator f.denominator) := by
        unfold idiv at h1; split_ifs at h1; exact (Result.ok.inj h1).symm
      have hd' : d = Int.tdiv f.denominator (gcd f.numerator f.denominator) := by
        unfold idiv at h2; split_ifs at h2; exact (Result.ok.inj h2).symm
      have fn : Fits n := hn' ▸ fits_tdiv _ _ hn
      have fd : Fits d := hd' ▸ fits_tdiv _ _ hd
      rw [wrap_eq fn.neg.isInt, wrap_eq fd.neg.isInt]
    | divisionByZero => rfl
    | undefined => rfl
  | divisionByZero => rfl
  | undefined => rfl

theorem simplify_fits (f r : Fraction) (hn : Fits f.numerator) (hd : Fits f.denominator)
    (h : simplify f = Result.ok r) : Fits r.numerator ∧ Fits r.denominator := by
  unfold simplify idiv at h
  by_cases hg : gcd f.numerator f.denominator = 0
  · simp [hg, Result.bind] at h
  · simp only [hg, if_false, Result.bind] at h
    split_ifs at h
    · have := Result.ok.inj h
      subst this
      exact ⟨(fits_tdiv _ _ hn).neg, (fits_tdiv _ _ hd).neg⟩
    · have := Result.ok.inj h
      subst this
      exact ⟨fits_tdiv _ _ hn, fits_tdiv _ _ hd⟩

theorem ctorIntInt32_eq (n d : Int) (hn : Fits n) (hd : Fits d) :
    ctorIntInt32 n d = ctorIntInt n d :=
  simplify32_eq ⟨n, d⟩ hn hd

theorem fits_of_pos_isInt {d : Int} (h0 : 0 < d) (h : IsInt d) : Fits d := by
  unfold IsInt INT_MIN INT_MAX at h
  unfold Fits
  omega

theorem lcm32_eq {a b : Int} (ha : 0 < a) (hb : 0 < b) (hia : IsInt a) (hib : IsInt b)
    (hl : IsInt (lcm a b)) : lcm32 a b = Result.ok (lcm a b) := by
  have hg : 0 < gcd a b := gcd_pos ha hb
  have hfa := fits_of_pos_isInt ha hia
  have hfb := fits_of_pos_isInt hb hib
  have hdef : lcm a b = Int.tdiv a (gcd a b) * b := by simp [lcm, hg.ne.symm]
  unfold lcm32
  rw [gcd32_eq_of_fits a b hfa hfb]
  simp only [Result.bind, ne_eq, hg.ne.symm, not_false_eq_true, if_true]
  rw [idiv32_eq hfa]
  simp only [idiv, hg.ne.symm, if_false]
  rw [← hdef, wrap_eq hl]

theorem comparison32_eq (a b : Fraction) (op : Int → Int → Bool)
    (ha : 0 < a.denominator) (hb : 0 < b.denominator)
    (hia : IsInt a.denominator) (hib : IsInt b.denominator)
    (h : a.denominator = b.denominator ∨
      (IsInt (lcm a.denominator b.denominator) ∧
        IsInt (a.numerator * Int.tdiv (lcm a.denominator b.denominator) a.denominator) ∧
        IsInt (b.numerator * Int.tdiv (lcm a.denominator b.denominator) b.denominator))) :
    comparison32 a b op = comparison a b op := by
  unfold comparison32 comparison
  by_cases heq : a.denominator = b.denominator
  · simp [heq]
  · rcases h with h | ⟨hl, h1, h2⟩
    · exact absurd h heq
    · simp only [heq, if_false]
      rw [lcm32_eq ha hb hia hib hl]
      have hlpos := (lcm_pos_facts ha hb).1
      have hfl : Fits (lcm a.denominator b.denominator) := fits_of_pos_isInt hlpos hl
      simp only [Result.bind]
      rw [idiv32_eq hfl, idiv32_eq hfl]
      simp only [idiv, ha.ne.symm, hb.ne.symm, if_false]
      rw [wrap_eq h1, wrap_eq h2]

theorem wrap_eval (x r : Int) (h1 : IsInt r) (h2 : (4294967296 : Int) ∣ x - r) : wrap x = r := by
  unfold wrap
  unfold IsInt INT_MIN INT_MAX at h1
  obtain ⟨k, hk⟩ := h2
  have : x + 2147483648 = (r + 2147483648) + 4294967296 * k := by omega
  rw [this, Int.add_mul_emod_self_left, Int.emod_eq_of_lt (by omega) (by omega)]
  omega

theorem gcd32_zero_left (b : Int) : gcd32 0 b = Result.ok b := by
  rw [gcd32]; simp

theorem gcd32_stop (a b : Int) (ha : a ≠ 0) (h1 : ¬ Traps b a) (h2 : Int.tmod b a = 0) :
    gcd32 a b = Result.ok a := by
  rw [gcd32]; simp [ha, h1, h2]

theorem gcd32_step (a b : Int) (ha : a ≠ 0) (h1 : ¬ Traps b a) (h2 : Int.tmod b a ≠ 0)
    (h3 : ¬ Traps a (Int.tmod b a)) :
    gcd32 a b = gcd32 (Int.tmod a (Int.tmod b a)) (Int.tmod b a) := by
  rw [gcd32]; simp [ha, h1, h2, h3]

theorem gcd32_trap (a b : Int) (ha : a ≠ 0) (h1 : ¬ Traps b a) (h2 : Int.tmod b a ≠ 0)
    (h3 : Traps a (Int.tmod b a)) :
    gcd32 a b = Result.undefined := by
  rw [gcd32]; simp [ha, h1, h2, h3]

theorem bind_ok {α β : Type} (x : α) (f : α → Result β) : (Result.ok x).bind f = f x := rfl

theorem bind_undefined {α β : Type} (f : α → Result β) :
    (Result.undefined : Result α).bind f = Result.undefined := rfl

theorem idiv32_one (a : Int) : idiv32 a 1 = Result.ok a := by
  unfold idiv32
  rw [if_neg (by unfold Traps; omega)]
  exact congrArg Result.ok (Int.tdiv_one _)

theorem gcd32_int_min_one : gcd32 INT_MIN 1 = Result.ok 1 := by
  rw [gcd32_step _ _ (by decide) (by decide) (by decide) (by decide)]
  have e1 : Int.tmod 1 INT_MIN = 1 := by decide
  have e2 : Int.tmod INT_MIN 1 = 0 := by decide
  rw [e1, e2, gcd32_zero_left]

theorem opNeg32_int_min : opNeg32 ⟨INT_MIN, 1⟩ = Result.ok ⟨INT_MIN, 1⟩ := by
  have hw : wrap (-INT_MIN) = INT_MIN := wrap_eval _ _ (by decide) (by decide)
  rw [opNeg32, ctorIntInt32, simplify32]
  simp only []
  rw [hw, gcd32_int_min_one, bind_ok, idiv32_one, bind_ok, idiv32_one, bind_ok,
    if_neg (by decide)]

theorem gcd32_131072_32769 : gcd32 131072 32769 = Result.ok 1 := by
  rw [gcd32_eq_of_fits _ _ (by decide) (by decide), gcd_eq_natGcd (by decide) (by decide)]
  have : Nat.gcd (131072 : Int).natAbs (32769 : Int).natAbs = 1 := by
    norm_num
  rw [this]
  rfl

theorem lcm32_131072_32769 : lcm32 131072 32769 = Result.ok 131072 := by
  have hw : wrap (131072 * 32769) = 131072 := wrap_eval _ _ (by decide) (by decide)
  rw [lcm32, gcd32_131072_32769, bind_ok, if_pos (by decide), idiv32_one, bind_ok, hw]

theorem opEq32_wrapped : opEq32 ⟨3, 131072⟩ ⟨1, 32769⟩ = Result.ok true := by
  have h1 : idiv32 131072 131072 = Result.ok 1 := by decide
  have h2 : idiv32 131072 32769 = Result.ok 3 := by decide
  have h3 : wrap (3 * 1) = 3 := wrap_eq (by decide)
  have h4 : wrap (1 * 3) = 3 := wrap_eq (by decide)
  rw [opEq32, comparison32]
  simp only []
  rw [if_neg (by decide), lcm32_131072_32769, bind_ok, h1, bind_ok, h2, bind_ok, h3, h4]
  rfl

theorem opDivInt32_int_min : opDivInt32 ⟨INT_MIN, 1⟩ (-1) = Result.undefined := by
  have hw : wrap (1 * -1) = -1 := wrap_eq (by decide)
  have hg : gcd32 INT_MIN (-1) = Result.undefined :=
    gcd32_trap _ _ (by decide) (by decide) (by decide) (by decide)
  have hc : checkDivisionByZero (-1) = Result.ok () := by decide
  rw [opDivInt32, hc, bind_ok, ctorIntInt32, simplify32]
  simp only []
  rw [hw, hg]
  rfl

theorem opMul32_wrapped : opMul32 ⟨1, 65536⟩ ⟨1, 65536⟩ = Result.ok ⟨1, 0⟩ := by
  have hw : wrap (65536 * 65536) = 0 := wrap_eval _ _ (by decide) (by decide)
  have hw1 : wrap (1 * 1) = 1 := wrap_eq (by decide)
  have hg : gcd32 1 0 = Result.ok 1 := gcd32_stop _ _ (by decide) (by decide) (by decide)
  have hs : simplify32 ⟨1, 0⟩ = Result.ok ⟨1, 0⟩ := by
    rw [simplify32]
    simp only []
    rw [hg, bind_ok, idiv32_one, bind_ok, idiv32_one, bind_ok, if_neg (by decide)]
  rw [opMul32, ctorIntInt32]
  simp only []
  rw [hw, hw1, hs, bind_ok, hs]

theorem opDiv_zero_denominators : opDiv ⟨1, 0⟩ ⟨1, 0⟩ = Result.undefined := by
  simp +decide [opDiv, checkDivisionByZero, ctorIntInt, simplify, gcd, idiv, Result.bind]

theorem opDiv32_zero_denominators : opDiv32 ⟨1, 0⟩ ⟨1, 0⟩ = Result.undefined := by
  have hc : checkDivisionByZero 1 = Result.ok () := by decide
  have hw : wrap (1 * 0) = 0 := wrap_eq (by decide)
  have hw2 : wrap (0 * 1) = 0 := wrap_eq (by decide)
  rw [opDiv32]
  simp only []
  rw [hc, bind_ok, hw, hw2, ctorIntInt32, simplify32]
  simp only []
  rw [gcd32_zero_left, bind_ok]
  rfl

/-! ## The float import ends and its denominator is positive -/

/-- Shape of a rounding of a positive number: a significand between 2^(prec-1) and
2^prec times the unit in the last place. -/
theorem roundSig_shape (prec : Nat) (hp : 1 ≤ prec) {x : ℚ} (hx : 0 < x) :
    ∃ M : Int, (2 : Int) ^ (prec - 1) ≤ M ∧ M ≤ (2 : Int) ^ prec ∧
      roundSig prec x = (M : ℚ) * 2 ^ (Int.log 2 x + 1 - (prec : Int)) := by
  have h1 : (2 : ℚ) ^ Int.log 2 x ≤ x := by
    exact_mod_cast Int.zpow_log_le_self (b := 2) (by norm_num) hx
  have h2 : x < (2 : ℚ) ^ (Int.log 2 x + 1) := by
    exact_mod_cast Int.lt_zpow_succ_log_self (b := 2) (by norm_num) x
  have hu : (0 : ℚ) < 2 ^ (Int.log 2 x + 1 - (prec : Int)) := zpow_pos (by norm_num) _
  have e1 : (2 : ℚ) ^ Int.log 2 x
      = ((2 : Int) ^ (prec - 1) : Int) * 2 ^ (Int.log 2 x + 1 - (prec : Int)) := by
    push_cast
    rw [← zpow_natCast, ← zpow_add₀ (by norm_num)]
    congr 1
    have : ((prec - 1 : Nat) : Int) = (prec : Int) - 1 := by omega
    rw [this]; ring
  have e2 : (2 : ℚ) ^ (Int.log 2 x + 1)
      = ((2 : Int) ^ prec : Int) * 2 ^ (Int.log 2 x + 1 - (prec : Int)) := by
    push_cast
    rw [← zpow_natCast, ← zpow_add₀ (by norm_num)]
    congr 1
    ring
  refine ⟨roundHalfEven (x / 2 ^ (Int.log 2 x + 1 - (prec : Int))), ?_, ?_,
    roundSig_pos_eq prec hx⟩
  · apply le_roundHalfEven
    rw [le_div_iff₀ hu, ← e1]
    exact h1
  · have hq : x / 2 ^ (Int.log 2 x + 1 - (prec : Int)) < (((2 : Int) ^ prec : Int) : ℚ) := by
      rw [div_lt_iff₀ hu, ← e2]
      exact h2
    have hf : ⌊x / 2 ^ (Int.log 2 x + 1 - (prec : Int))⌋ < (2 : Int) ^ prec :=
      Int.floor_lt.mpr hq
    have := roundHalfEven_le_floor_succ (x / 2 ^ (Int.log 2 x + 1 - (prec : Int)))
    omega

/-- A rounding is not below a power of two that the argument is not below. -/
theorem le_roundSig (prec : Nat) (hp : 1 ≤ prec) {x : ℚ} (k : Int) (h : (2 : ℚ) ^ k ≤ x) :
    (2 : ℚ) ^ k ≤ roundSig prec x := by
  have hx : 0 < x := lt_of_lt_of_le (zpow_pos (by norm_num) k) h
  obtain ⟨M, hM1, _, hM⟩ := roundSig_shape prec hp hx
  have hk : k ≤ Int.log 2 x := by
    rw [← Int.zpow_le_iff_le_log (by norm_num) hx]; exact_mod_cast h
  have hu : (0 : ℚ) < 2 ^ (Int.log 2 x + 1 - (prec : Int)) := zpow_pos (by norm_num) _
  have e1 : (2 : ℚ) ^ Int.log 2 x
      = ((2 : Int) ^ (prec - 1) : Int) * 2 ^ (Int.log 2 x + 1 - (prec : Int)) := by
    push_cast
    rw [← zpow_natCast, ← zpow_add₀ (by norm_num)]
    congr 1
    have : ((prec - 1 : Nat) : Int) = (prec : Int) - 1 := by omega
    rw [this]; ring
  calc (2 : ℚ) ^ k ≤ (2 : ℚ) ^ Int.log 2 x := zpow_le_zpow_right₀ (by norm_num) hk
    _ = ((2 : Int) ^ (prec - 1) : Int) * 2 ^ (Int.log 2 x + 1 - (prec : Int)) := e1
    _ ≤ (M : ℚ) * 2 ^ (Int.log 2 x + 1 - (prec : Int)) := by
        apply mul_le_mul_of_nonneg_right _ hu.le
        exact_mod_cast hM1
    _ = roundSig prec x := hM.symm

/-- Rounding a rounded positive number changes nothing. -/
theorem roundSig_idem_pos (prec : Nat) (hp : 1 ≤ prec) {x : ℚ} (hx : 0 < x) :
    roundSig prec (roundSig prec x) = roundSig prec x := by
  obtain ⟨M, hM1, hM2, hM⟩ := roundSig_shape prec hp hx
  have hu : (0 : ℚ) < 2 ^ (Int.log 2 x + 1 - (prec : Int)) := zpow_pos (by norm_num) _
  have e1 : (2 : ℚ) ^ Int.log 2 x
      = ((2 : Int) ^ (prec - 1) : Int) * 2 ^ (Int.log 2 x + 1 - (prec : Int)) := by
    push_cast
    rw [← zpow_natCast, ← zpow_add₀ (by norm_num)]
    congr 1
    have : ((prec - 1 : Nat) : Int) = (prec : Int) - 1 := by omega
    rw [this]; ring
  have e2 : (2 : ℚ) ^ (Int.log 2 x + 1)
      = ((2 : Int) ^ prec : Int) * 2 ^ (Int.log 2 x + 1 - (prec : Int)) := by
    push_cast
    rw [← zpow_natCast, ← zpow_add₀ (by norm_num)]
    congr 1
    ring
  rw [hM]
  rcases lt_or_eq_of_le hM2 with hlt | heq
  · have b1 : (2 : ℚ) ^ Int.log 2 x ≤ (M : ℚ) * 2 ^ (Int.log 2 x + 1 - (prec : Int)) := by
      rw [e1]
      apply mul_le_mul_of_nonneg_right _ hu.le
      exact_mod_cast hM1
    have b2 : (M : ℚ) * 2 ^ (Int.log 2 x + 1 - (prec : Int))
        < (2 : ℚ) ^ (Int.log 2 x + 1) := by
      rw [e2]
      apply mul_lt_mul_of_pos_right _ hu
      exact_mod_cast hlt
    have q : (M : ℚ) * 2 ^ (Int.log 2 x + 1 - (prec : Int))
        / 2 ^ (Int.log 2 x + 1 - (prec : Int)) = (M : ℚ) := by
      field_simp
    exact roundSig_eval prec (Int.log 2 x) M b1 b2 (by rw [q]; linarith) (by rw [q]; linarith)
  · have hy : (M : ℚ) * 2 ^ (Int.log 2 x + 1 - (prec : Int))
        = (2 : ℚ) ^ (Int.log 2 x + 1) := by
      rw [e2, heq]
    rw [hy]
    have e3 : (2 : ℚ) ^ (Int.log 2 x + 1)
        = ((2 : Int) ^ (prec - 1) : Int) * 2 ^ (Int.log 2 x + 1 + 1 - (prec : Int)) := by
      push_cast
      rw [← zpow_natCast, ← zpow_add₀ (by norm_num)]
      congr 1
      have : ((prec - 1 : Nat) : Int) = (prec : Int) - 1 := by omega
      rw [this]; ring
    have hu2 : (0 : ℚ) < 2 ^ (Int.log 2 x + 1 + 1 - (prec : Int)) := zpow_pos (by norm_num) _
    have q : (2 : ℚ) ^ (Int.log 2 x + 1) / 2 ^ (Int.log 2 x + 1 + 1 - (prec : Int))
        = (((2 : Int) ^ (prec - 1) : Int) : ℚ) := by
      rw [div_eq_iff hu2.ne.symm]
      exact e3
    have h := roundSig_eval prec (x := (2 : ℚ) ^ (Int.log 2 x + 1)) (Int.log 2 x + 1)
      ((2 : Int) ^ (prec - 1)) le_rfl
      (zpow_lt_zpow_right₀ (by norm_num) (by omega))
      (by rw [q]; linarith) (by rw [q]; linarith)
    rw [h, ← e3]

/-- Rounding a rounded number changes nothing. -/
theorem roundSig_idem (prec : Nat) (hp : 1 ≤ prec) (x : ℚ) :
    roundSig prec (roundSig prec x) = roundSig prec x := by
  rcases lt_trichotomy x 0 with h | h | h
  · have hn : 0 < -x := by linarith
    have := roundSig_idem_pos prec hp hn
    rw [roundSig_neg, roundSig_neg, neg_inj] at this
    exact this
  · subst h
    simp [roundSig]
  · exact roundSig_idem_pos prec hp h

/-- A `float` of magnitude at least 2^23 is an integer. -/
theorem toFloat_integer {v : ℚ} (hf : toFloat v = v) (h : (2 : ℚ) ^ (23 : Int) ≤ |v|) :
    ∃ z : Int, v = (z : ℚ) := by
  have key : ∀ w : ℚ, (2 : ℚ) ^ (23 : Int) ≤ w → ∃ z : Int, toFloat w = (z : ℚ) := by
    intro w hw
    have hx : 0 < w := lt_of_lt_of_le (zpow_pos (by norm_num) _) hw
    obtain ⟨M, _, _, hM⟩ := roundSig_shape 24 (by norm_num) hx
    have hk : (23 : Int) ≤ Int.log 2 w := by
      rw [← Int.zpow_le_iff_le_log (by norm_num) hx]; exact_mod_cast hw
    obtain ⟨n, hn⟩ := Int.eq_ofNat_of_zero_le
      (show 0 ≤ Int.log 2 w + 1 - ((24 : Nat) : Int) by push_cast; omega)
    refine ⟨M * 2 ^ n, ?_⟩
    unfold toFloat
    rw [hM, hn]
    push_cast
    rw [zpow_natCast]
  rcases le_or_lt 0 v with hv | hv
  · rw [abs_of_nonneg hv] at h
    obtain ⟨z, hz⟩ := key v h
    exact ⟨z, by rw [← hf, hz]⟩
  · rw [abs_of_neg hv] at h
    obtain ⟨z, hz⟩ := key (-v) h
    refine ⟨-z, ?_⟩
    have : toFloat (-v) = -v := by
      unfold toFloat at hf ⊢
      rw [roundSig_neg, hf]
    rw [this] at hz
    push_cast
    linarith

theorem castInt_intCast (z : Int) : castInt (z : ℚ) = z := by
  unfold castInt
  split_ifs with h
  · exact Int.floor_intCast z
  · have : -(z : ℚ) = ((-z : Int) : ℚ) := by push_cast; rfl
    rw [this, Int.floor_intCast]
    omega

theorem abs_toFloat_ge (k : Int) {v : ℚ} (h : (2 : ℚ) ^ k ≤ |v|) :
    (2 : ℚ) ^ k ≤ |toFloat v| := by
  unfold toFloat
  rcases le_or_lt 0 v with hv | hv
  · rw [abs_of_nonneg hv] at h
    have := le_roundSig 24 (by norm_num) k h
    exact le_trans this (le_abs_self _)
  · rw [abs_of_neg hv] at h
    have := le_roundSig 24 (by norm_num) k h
    rw [roundSig_neg] at this
    exact le_trans this (neg_le_abs _)

/-- The loop of `mantissaToInteger` ends at a `float` of magnitude at least 2^23. -/
theorem mantissaToInteger_stop (fuel : Nat) {v : ℚ} (n : Int) (hf : toFloat v = v)
    (h : (2 : ℚ) ^ (23 : Int) ≤ |v|) :
    mantissaToInteger (fuel + 1) v n = some (castInt v, n) := by
  obtain ⟨z, hz⟩ := toFloat_integer hf h
  rw [mantissaToInteger]
  have : ¬ (v ≠ toFloat ((castInt v : Int) : ℚ)) := by
    rw [hz, castInt_intCast, ← hz, hf]
    simp
  rw [if_neg this]

/-- The loop of `mantissaToInteger` started on a `float` of magnitude at least
2^(23 - 3 j) ends within j + 1 tests, and the count of shifts it returns is not below the
count it started with. -/
theorem mantissaToInteger_ends (j : Nat) : ∀ (k : Nat) (v : ℚ) (n : Int), toFloat v = v →
    (2 : ℚ) ^ (23 - 3 * (j : Int)) ≤ |v| →
    ∃ N m, mantissaToInteger (j + 1 + k) v n = some (N, m) ∧ n ≤ m := by
  induction j with
  | zero =>
    intro k v n hf h
    refine ⟨castInt v, n, ?_, le_rfl⟩
    have := mantissaToInteger_stop k n hf (by simpa using h)
    rw [show 0 + 1 + k = k + 1 by omega]
    exact this
  | succ j ih =>
    intro k v n hf h
    rw [show j + 1 + 1 + k = (j + 1 + k) + 1 by omega, mantissaToInteger]
    split_ifs with ht
    · have h10 : (2 : ℚ) ^ (23 - 3 * (j : Int)) ≤ |v * 10| := by
        have e : (2 : ℚ) ^ (23 - 3 * (j : Int))
            = (2 : ℚ) ^ (23 - 3 * ((j + 1 : Nat) : Int)) * 8 := by
          have : (8 : ℚ) = (2 : ℚ) ^ (3 : Int) := by norm_num
          rw [this, ← zpow_add₀ (by norm_num)]
          congr 1
          push_cast; ring
        rw [e, abs_mul]
        have h8 : (8 : ℚ) ≤ |(10 : ℚ)| := by norm_num
        exact mul_le_mul h h8 (by norm_num) (abs_nonneg _)
      have hf2 : toFloat (toFloat (v * 10)) = toFloat (v * 10) :=
        roundSig_idem 24 (by norm_num) _
      obtain ⟨N, m, hm, hnm⟩ := ih k (toFloat (v * 10)) (n + 1) hf2 (abs_toFloat_ge _ h10)
      exact ⟨N, m, hm, by omega⟩
    · exact ⟨_, _, rfl, le_rfl⟩

theorem frexp_mantissa (x : ℚ) :
    (frexp x).1 = 0 ∨ (2 : ℚ) ^ (-1 : Int) ≤ |(frexp x).1| := by
  unfold frexp
  by_cases h : x = 0
  · left; simp [h]
  · right
    simp only [h, if_false]
    have hx : 0 < |x| := abs_pos.mpr h
    have h1 : (2 : ℚ) ^ Int.log 2 |x| ≤ |x| := by
      exact_mod_cast Int.zpow_log_le_self (b := 2) (by norm_num) hx
    have hp : (0 : ℚ) < 2 ^ (Int.log 2 |x| + 1) := zpow_pos (by norm_num) _
    rw [abs_div, abs_of_pos hp, le_div_iff₀ hp, ← zpow_add₀ (by norm_num)]
    have : (-1 : Int) + (Int.log 2 |x| + 1) = Int.log 2 |x| := by ring
    rw [this]
    exact h1

/-- The loop of `mantissaToInteger` on the mantissa of any number ends within 9 tests,
with a count of shifts that is not negative. -/
theorem mantissaToInteger_frexp (k : Nat) (x : ℚ) :
    ∃ N m, mantissaToInteger (k + 9) (frexp x).1 0 = some (N, m) ∧ 0 ≤ m := by
  rw [show k + 9 = (k + 8) + 1 by omega, mantissaToInteger]
  split_ifs with ht
  · rcases frexp_mantissa x with h0 | h
    · exfalso
      apply ht
      rw [h0]
      simp [castInt, toFloat, roundSig]
    · have h10 : (2 : ℚ) ^ (23 - 3 * ((7 : Nat) : Int)) ≤ |(frexp x).1 * 10| := by
        have e : (2 : ℚ) ^ (23 - 3 * ((7 : Nat) : Int)) = (2 : ℚ) ^ (-1 : Int) * 8 := by
          norm_num
        rw [e, abs_mul]
        have h8 : (8 : ℚ) ≤ |(10 : ℚ)| := by norm_num
        exact mul_le_mul h h8 (by norm_num) (abs_nonneg _)
      have hf2 : toFloat (toFloat ((frexp x).1 * 10)) = toFloat ((frexp x).1 * 10) :=
        roundSig_idem 24 (by norm_num) _
      obtain ⟨N, m, hm, hnm⟩ := mantissaToInteger_ends 7 k (toFloat ((frexp x).1 * 10)) (0 + 1)
        hf2 (abs_toFloat_ge _ h10)
      rw [show 7 + 1 + k = k + 8 by omega] at hm
      exact ⟨N, m, hm, by omega⟩
  · exact ⟨_, _, rfl, le_rfl⟩

theorem one_le_toDouble {y : ℚ} (h : 1 ≤ y) : 1 ≤ toDouble y := by
  have := le_roundSig 53 (by norm_num) 0 (x := y) (by simpa using h)
  simpa using this

/-- The denominator stored by line 51 is positive for every count of shifts that is not
negative. -/
theorem importDenominator_pos (m e : Int) (hm : 0 ≤ m) : 0 < importDenominator m e := by
  unfold importDenominator
  simp only []
  have hh : importShift m e ≤ m := min_le_left _ _
  obtain ⟨c, hc⟩ := Int.eq_ofNat_of_zero_le (show 0 ≤ m - importShift m e by omega)
  have key : (1 : ℚ) ≤ pow 5 (importShift m e) * pow 10 (m - importShift m e) := by
    unfold pow
    rcases le_or_lt 0 (importShift m e) with h0 | h0
    · obtain ⟨a, ha⟩ := Int.eq_ofNat_of_zero_le h0
      have p1 : (1 : ℚ) ≤ toDouble ((5 : ℚ) ^ importShift m e) := by
        apply one_le_toDouble
        rw [ha, zpow_natCast]
        exact one_le_pow₀ (by norm_num)
      have p2 : (1 : ℚ) ≤ toDouble ((10 : ℚ) ^ (m - importShift m e)) := by
        apply one_le_toDouble
        rw [hc, zpow_natCast]
        exact one_le_pow₀ (by norm_num)
      calc (1 : ℚ) = 1 * 1 := by norm_num
        _ ≤ _ := mul_le_mul p1 p2 (by norm_num) (le_trans (by norm_num) p1)
    · obtain ⟨a, ha⟩ := Int.eq_ofNat_of_zero_le (show 0 ≤ -importShift m e by omega)
      have hs : importShift m e = -(a : Int) := by omega
      have p1 : (2 : ℚ) ^ (-(3 * (a : Int))) ≤ toDouble ((5 : ℚ) ^ importShift m e) := by
        apply le_roundSig 53 (by norm_num)
        rw [hs, zpow_neg, zpow_neg, zpow_natCast]
        have : (2 : ℚ) ^ (3 * (a : Int)) = (8 : ℚ) ^ a := by
          rw [show (3 * (a : Int)) = ((3 * a : Nat) : Int) by push_cast; ring, zpow_natCast,
            pow_mul]
          norm_num
        rw [this]
        apply inv_anti₀ (by positivity)
        exact pow_le_pow_left₀ (by norm_num) (by norm_num) a
      have p2 : (2 : ℚ) ^ (3 * (c : Int)) ≤ toDouble ((10 : ℚ) ^ (m - importShift m e)) := by
        apply le_roundSig 53 (by norm_num)
        rw [hc, zpow_natCast]
        have : (2 : ℚ) ^ (3 * (c : Int)) = (8 : ℚ) ^ c := by
          rw [show (3 * (c : Int)) = ((3 * c : Nat) : Int) by push_cast; ring, zpow_natCast,
            pow_mul]
          norm_num
        rw [this]
        exact pow_le_pow_left₀ (by norm_num) (by norm_num) c
      have p0 : (0 : ℚ) < (2 : ℚ) ^ (-(3 * (a : Int))) := zpow_pos (by norm_num) _
      have p3 : (0 : ℚ) ≤ (2 : ℚ) ^ (3 * (c : Int)) := (zpow_pos (by norm_num) _).le
      have hac : (a : Int) ≤ c := by omega
      calc (1 : ℚ) = (2 : ℚ) ^ (0 : Int) := by norm_num
        _ ≤ (2 : ℚ) ^ (-(3 * (a : Int)) + 3 * (c : Int)) :=
            zpow_le_zpow_right₀ (by norm_num) (by omega)
        _ = (2 : ℚ) ^ (-(3 * (a : Int))) * (2 : ℚ) ^ (3 * (c : Int)) :=
            zpow_add₀ (by norm_num) _ _
        _ ≤ _ := mul_le_mul p1 p2 p3 (le_trans p0.le p1)
  have h1 := one_le_toDouble key
  rw [castInt_of_nonneg (by linarith)]
  have : (1 : Int) ≤ ⌊toDouble (pow 5 (importShift m e) * pow 10 (m - importShift m e))⌋ :=
    Int.le_floor.mpr (by exact_mod_cast h1)
  omega

/-- Constructor `Fraction(float)` returns for every number, with the loop of
`mantissaToInteger` given 9 tests or more, a fraction whose denominator is positive. -/
theorem ctorFloat_den_pos (k : Nat) (x : ℚ) :
    ∃ f, ctorFloat (k + 9) x = Result.ok f ∧ 0 < f.denominator := by
  obtain ⟨N, m, hm, hm0⟩ := mantissaToInteger_frexp k x
  have hd := importDenominator_pos m (frexp x).2 hm0
  refine ⟨normal (val ⟨importNumerator N m (frexp x).2, importDenominator m (frexp x).2⟩),
    ?_, normal_den_pos _⟩
  rw [ctorFloat]
  have : frexp x = ((frexp x).1, (frexp x).2) := rfl
  rw [this]
  simp only []
  rw [hm]
  simp only []
  exact simplify_ok _ hd.ne.symm

/-! ## Claims with 32-bit int -/

theorem wrap_neg_ne_zero {c : Int} (h1 : c ≠ 0) (h2 : c.natAbs ≤ 2147483648) :
    wrap (-c) ≠ 0 := by
  unfold wrap
  omega

/-- On 32-bit `int`, `simplify` of a pair of `int` values with a denominator that is not 0
leaves, when it returns, a denominator that is not 0. -/
theorem simplify32_den_ne_zero (n d : Int) (hd : d ≠ 0) (hi : IsInt d) (f : Fraction)
    (h : simplify32 ⟨n, d⟩ = Result.ok f) : f.denominator ≠ 0 := by
  unfold simplify32 at h
  cases hg : gcd32 n d with
  | divisionByZero => rw [hg] at h; exact absurd h (by simp [Result.bind])
  | undefined => rw [hg] at h; exact absurd h (by simp [Result.bind])
  | ok g =>
    rw [hg] at h
    simp only [Result.bind, idiv32] at h
    have hgv : g = gcd n d := gcd32_ok n d g hg
    have hg0 : g ≠ 0 := by
      rw [hgv]
      intro h0
      exact hd ((gcd_eq_zero_iff n d).mp h0).2
    obtain ⟨c, hc⟩ : g ∣ d := hgv ▸ gcd_dvd_right n d
    have hq : Int.tdiv d g = c := by
      rw [hc]; exact Int.mul_tdiv_cancel_left c hg0
    have hc0 : c ≠ 0 := by
      rintro rfl
      exact hd (by simpa using hc)
    have hcb : c.natAbs ≤ 2147483648 := by
      have h1 : d.natAbs = g.natAbs * c.natAbs := by rw [hc, Int.natAbs_mul]
      have h2 : c.natAbs ≤ d.natAbs := by
        rw [h1]
        exact Nat.le_mul_of_pos_left _ (Int.natAbs_pos.mpr hg0)
      have h3 : d.natAbs ≤ 2147483648 := by
        unfold IsInt INT_MIN INT_MAX at hi
        omega
      omega
    by_cases t1 : Traps n g
    · simp [t1] at h
    · by_cases t2 : Traps d g
      · simp [t1, t2] at h
      · simp only [t1, t2, if_false, hq] at h
        split_ifs at h with hneg
        · have := Result.ok.inj h
          rw [← this]
          exact wrap_neg_ne_zero hc0 hcb
        · have := Result.ok.inj h
          rw [← this]
          exact hc0

/-- C3 (counterexample): `Fraction(5, 0)` returns normally and its value is 1/0, so it is
not true that `Fraction(n, d)` never returns a value whose denominator is 0; and for the
canonical fraction 1/65536 the product 1/65536 * 1/65536 returns 1/0, because the product
65536 * 65536 of the denominators wraps to 0. -/
theorem ctorIntInt_zero_denominator :
    ctorIntInt 5 0 = Result.ok ⟨1, 0⟩ ∧
    ctorIntInt32 5 0 = Result.ok ⟨1, 0⟩ ∧
    ¬ (∀ (n d : Int) (f : Fraction), ctorIntInt n d = Result.ok f → f.denominator ≠ 0) ∧
    (Canonical ⟨1, 65536⟩ ∧ IsInts ⟨1, 65536⟩) ∧
    opMul32 ⟨1, 65536⟩ ⟨1, 65536⟩ = Result.ok ⟨1, 0⟩ := by
  have h : ctorIntInt 5 0 = Result.ok ⟨1, 0⟩ := by
    simp +decide [ctorIntInt, simplify, gcd, idiv, Result.bind]
  have h32 : ctorIntInt32 5 0 = Result.ok ⟨1, 0⟩ := by
    rw [ctorIntInt32_eq _ _ (by decide) (by decide)]
    exact h
  exact ⟨h, h32, fun hall => hall 5 0 ⟨1, 0⟩ h rfl, ⟨by decide, by decide⟩, opMul32_wrapped⟩

/-- C3 (amended): when no `int` operation overflows (`int` taken as the integers):
`Fraction()`, `Fraction(n)`, for d ≠ 0 `Fraction(n, d)`, and `Fraction(float)` for every
finite number (the loop of `mantissaToInteger` ends within 9 tests) return a fraction
whose denominator is not 0; for canonical operands unary minus, `+`, `-`, `*` (with a
fraction or an integer) return, and `+=`, `-=`, `*=` leave in the receiver, a fraction
whose denominator is not 0; `/` and `/=` do so when the divisor is not zero, and when the
divisor is zero they throw the division-by-zero exception instead of forming a zero
denominator. On 32-bit `int`, for all `int` values n and d ≠ 0, a fraction that
`Fraction(n, d)` returns has a denominator that is not 0. -/
theorem denominator_ne_zero (n d : Int) (hd : d ≠ 0) (a b : Fraction) (i : Int)
    (ha : Canonical a) (hb : Canonical b) (x : ℚ) (k : Nat) :
    ctor.denominator ≠ 0 ∧ (ctorInt n).denominator ≠ 0 ∧
    ReturnsNonzeroDen (ctorIntInt n d) ∧
    ReturnsNonzeroDen (ctorFloat (k + 9) x) ∧
    ReturnsNonzeroDen (opNeg a) ∧
    ReturnsNonzeroDen (opAdd a b) ∧ ReturnsNonzeroDen (opSub a b) ∧
    ReturnsNonzeroDen (opMul a b) ∧
    ReturnsNonzeroDen (opAddInt a i) ∧ ReturnsNonzeroDen (opSubInt a i) ∧
    ReturnsNonzeroDen (opMulInt a i) ∧
    LeavesNonzeroDen (opAddAssign a b) ∧ LeavesNonzeroDen (opSubAssign a b) ∧
    LeavesNonzeroDen (opMulAssign a b) ∧
    LeavesNonzeroDen (opAddAssignInt a i) ∧ LeavesNonzeroDen (opSubAssignInt a i) ∧
    LeavesNonzeroDen (opMulAssignInt a i) ∧
    (b.numerator ≠ 0 → ReturnsNonzeroDen (opDiv a b) ∧ LeavesNonzeroDen (opDivAssign a b)) ∧
    (i ≠ 0 → ReturnsNonzeroDen (opDivInt a i) ∧ LeavesNonzeroDen (opDivAssignInt a i)) ∧
    (b.numerator = 0 → opDiv a b = Result.divisionByZero ∧
      opDivAssign a b = (a, Result.divisionByZero)) ∧
    (i = 0 → opDivInt a i = Result.divisionByZero ∧
      opDivAssignInt a i = (a, Result.divisionByZero)) ∧
    (IsInt n → IsInt d → ∀ f, ctorIntInt32 n d = Result.ok f → f.denominator ≠ 0) := by
  have R : ∀ q : ℚ, ReturnsNonzeroDen (Result.ok (normal q)) :=
    fun q => ⟨_, rfl, (normal_den_pos q).ne.symm⟩
  have M : ∀ q : ℚ, LeavesNonzeroDen (normal q, Result.ok ()) :=
    fun q => ⟨rfl, (normal_den_pos q).ne.symm⟩
  have ha0 := ha.1
  have hb0 := hb.1
  refine ⟨by decide, by simp [ctorInt], ?_, ?_, ?_, ?_, ?_, ?_, ?_, ?_, ?_, ?_, ?_, ?_, ?_, ?_,
    ?_, ?_, ?_, ?_, ?_, ?_⟩
  · rw [ctorIntInt_ok n d hd]; exact R _
  · obtain ⟨f, hf, hpos⟩ := ctorFloat_den_pos k x
    exact ⟨f, hf, hpos.ne.symm⟩
  · rw [opNeg_ok a ha0]; exact R _
  · rw [opAdd_ok a b ha0 hb0]; exact R _
  · rw [opSub_ok a b ha0 hb0]; exact R _
  · rw [opMul_ok a b ha0 hb0]; exact R _
  · rw [opAddInt_ok a i ha0]; exact R _
  · rw [opSubInt_ok a i ha0]; exact R _
  · rw [opMulInt_ok a i ha0]; exact R _
  · rw [opAddAssign_ok a b ha0 hb0]; exact M _
  · rw [opSubAssign_ok a b ha0 hb0]; exact M _
  · rw [opMulAssign_ok a b ha0 hb0]; exact M _
  · rw [opAddAssignInt_ok a i ha0]; exact M _
  · rw [opSubAssignInt_ok a i ha0]; exact M _
  · rw [opMulAssignInt_ok a i ha0]; exact M _
  · intro h
    rw [opDiv_ok a b ha0.ne.symm h, opDivAssign_ok a b ha0.ne.symm h]; exact ⟨R _, M _⟩
  · intro h
    rw [opDivInt_ok a i ha0.ne.symm h, opDivAssignInt_ok a i ha0.ne.symm h]; exact ⟨R _, M _⟩
  · intro h
    simp [opDiv, opDivAssign, checkDivisionByZero, h, Result.bind]
  · intro h
    simp [opDivInt, opDivAssignInt, checkDivisionByZero, h, Result.bind]
  · intro _ hid f hf
    exact simplify32_den_ne_zero n d hd hid f hf

/-- C3 (amended), witness: the statement at `Fraction(6, -4)`, `Fraction(0.1f)`,
a = 1/2, b = 0/1 and i = 0, where both divisions throw, and at b = -1/3, i = 2, where
they return. -/
theorem denominator_ne_zero_witness :
    ((-4 : Int) ≠ 0 ∧ Canonical ⟨1, 2⟩ ∧ Canonical ⟨0, 1⟩ ∧ Canonical ⟨-1, 3⟩ ∧
      IsInt 6 ∧ IsInt (-4)) ∧
    ReturnsNonzeroDen (ctorIntInt 6 (-4)) ∧
    ReturnsNonzeroDen (ctorFloat 9 (toFloat (1 / 10))) ∧
    ReturnsNonzeroDen (opAdd ⟨1, 2⟩ ⟨0, 1⟩) ∧
    opDiv ⟨1, 2⟩ ⟨0, 1⟩ = Result.divisionByZero ∧
    opDivAssignInt ⟨1, 2⟩ 0 = (⟨1, 2⟩, Result.divisionByZero) ∧
    ReturnsNonzeroDen (opDiv ⟨1, 2⟩ ⟨-1, 3⟩) ∧
    LeavesNonzeroDen (opDivAssignInt ⟨1, 2⟩ 2) ∧
    (∀ f, ctorIntInt32 6 (-4) = Result.ok f → f.denominator ≠ 0) := by
  have h1 := denominator_ne_zero 6 (-4) (by decide) ⟨1, 2⟩ ⟨0, 1⟩ 0 (by decide) (by decide)
    (toFloat (1 / 10)) 0
  have h2 := denominator_ne_zero 6 (-4) (by decide) ⟨1, 2⟩ ⟨-1, 3⟩ 2 (by decide) (by decide)
    (toFloat (1 / 10)) 0
  obtain ⟨_, _, c, fl, _, add, _, _, _, _, _, _, _, _, _, _, _, _, _, dz, diz, c32⟩ := h1
  obtain ⟨_, _, _, _, _, _, _, _, _, _, _, _, _, _, _, _, _, dv, dvi, _, _, _⟩ := h2
  exact ⟨⟨by decide, by decide, by decide, by decide, by decide, by decide⟩, c, fl, add,
    (dz rfl).1, (diz rfl).2, (dv (by decide)).1, (dvi (by decide)).2,
    c32 (by decide) (by decide)⟩

theorem simplify32_normal (x y : Int) (hx : Fits x) (hy : Fits y) (hy0 : y ≠ 0) :
    simplify32 ⟨x, y⟩ = Result.ok (normal ((x : ℚ) / (y : ℚ))) ∧
    simplify32 (normal ((x : ℚ) / (y : ℚ))) = Result.ok (normal ((x : ℚ) / (y : ℚ))) := by
  have h1 : simplify ⟨x, y⟩ = Result.ok (normal ((x : ℚ) / (y : ℚ))) := simplify_ok ⟨x, y⟩ hy0
  have hf := simplify_fits ⟨x, y⟩ _ hx hy h1
  refine ⟨by rw [simplify32_eq ⟨x, y⟩ hx hy]; exact h1, ?_⟩
  rw [simplify32_eq _ hf.1 hf.2]
  exact simplify_normal _

theorem opDiv32_ok (a b : Fraction) (ha : a.denominator ≠ 0) (hb : b.numerator ≠ 0)
    (hx : Fits (a.numerator * b.denominator)) (hy : Fits (a.denominator * b.numerator)) :
    opDiv32 a b
      = Result.ok (normal (((a.numerator * b.denominator : Int) : ℚ)
          / ((a.denominator * b.numerator : Int) : ℚ))) := by
  have hy0 : a.denominator * b.numerator ≠ 0 := mul_ne_zero ha hb
  obtain ⟨s1, s2⟩ := simplify32_normal _ _ hx hy hy0
  have hc : checkDivisionByZero b.numerator = Result.ok () := by
    simp [checkDivisionByZero, hb]
  rw [opDiv32, hc, bind_ok, wrap_eq hx.isInt, wrap_eq hy.isInt, ctorIntInt32, s1, bind_ok, s2]

theorem opDivInt32_ok (a : Fraction) (i : Int) (ha : a.denominator ≠ 0) (hi : i ≠ 0)
    (hx : Fits a.numerator) (hy : Fits (a.denominator * i)) :
    opDivInt32 a i
      = Result.ok (normal ((a.numerator : ℚ) / ((a.denominator * i : Int) : ℚ))) := by
  have hy0 : a.denominator * i ≠ 0 := mul_ne_zero ha hi
  obtain ⟨s1, s2⟩ := simplify32_normal _ _ hx hy hy0
  have hc : checkDivisionByZero i = Result.ok () := by
    simp [checkDivisionByZero, hi]
  rw [opDivInt32, hc, bind_ok, wrap_eq hy.isInt, ctorIntInt32, s1, bind_ok, s2]

theorem opDivAssign32_ok (a b : Fraction) (ha : a.denominator ≠ 0) (hb : b.numerator ≠ 0)
    (hx : Fits (a.numerator * b.denominator)) (hy : Fits (a.denominator * b.numerator)) :
    opDivAssign32 a b
      = (normal (((a.numerator * b.denominator : Int) : ℚ)
          / ((a.denominator * b.numerator : Int) : ℚ)), Result.ok ()) := by
  have hy0 : a.denominator * b.numerator ≠ 0 := mul_ne_zero ha hb
  obtain ⟨s1, _⟩ := simplify32_normal _ _ hx hy hy0
  have hc : checkDivisionByZero b.numerator = Result.ok () := by
    simp [checkDivisionByZero, hb]
  rw [opDivAssign32, hc]
  simp only []
  rw [wrap_eq hx.isInt, wrap_eq hy.isInt, s1]
  rfl

theorem opDivAssignInt32_ok (a : Fraction) (i : Int) (ha : a.denominator ≠ 0) (hi : i ≠ 0)
    (hx : Fits a.numerator) (hy : Fits (a.denominator * i)) :
    opDivAssignInt32 a i
      = (normal ((a.numerator : ℚ) / ((a.denominator * i : Int) : ℚ)), Result.ok ()) := by
  have hy0 : a.denominator * i ≠ 0 := mul_ne_zero ha hi
  obtain ⟨s1, _⟩ := simplify32_normal _ _ hx hy hy0
  have hc : checkDivisionByZero i = Result.ok () := by
    simp [checkDivisionByZero, hi]
  rw [opDivAssignInt32, hc]
  simp only []
  rw [wrap_eq hy.isInt, s1]
  rfl

theorem fits_of_lt_two_pow_24 {x : Int} (h : x.natAbs < 2 ^ 24) : Fits x := by
  unfold Fits
  have : (2 : Nat) ^ 24 = 16777216 := by norm_num
  omega

/-- The conversion `(int) division.getFloatValue()` of a quotient of two integers below
2^24 in magnitude is defined. -/
theorem floatValueToInt32_normal (x y : Int) (hy : y ≠ 0) (hx : x.natAbs < 2 ^ 24)
    (hyb : y.natAbs < 2 ^ 24) :
    ∃ k, floatValueToInt32 (normal ((x : ℚ) / (y : ℚ))) = Result.ok k := by
  obtain ⟨b1, b2⟩ := normal_div_bounds x y hy hx hyb
  have hpos := normal_den_pos ((x : ℚ) / (y : ℚ))
  unfold floatValueToInt32
  rw [if_neg hpos.ne.symm]
  have he := floatValueToInt_exact _ b1 hpos b2
  unfold floatValueToInt truncTowardZero at he
  have hf : Fits (normal ((x : ℚ) / (y : ℚ))).numerator := fits_of_lt_two_pow_24 b1
  have hi : IsInt (castInt (getFloatValue (normal ((x : ℚ) / (y : ℚ))))) := by
    rw [he]
    exact (fits_tdiv _ _ hf).isInt
  unfold castInt32
  rw [if_pos hi]
  exact ⟨_, rfl⟩

theorem opMod32_ok (a b : Fraction) (ha : a.denominator ≠ 0) (hb : b.numerator ≠ 0)
    (hx : (a.numerator * b.denominator).natAbs < 2 ^ 24)
    (hy : (a.denominator * b.numerator).natAbs < 2 ^ 24) :
    ∃ k, opMod32 a b = Result.ok k := by
  have hy0 : a.denominator * b.numerator ≠ 0 := mul_ne_zero ha hb
  have hc : checkDivisionByZero b.numerator = Result.ok () := by
    simp [checkDivisionByZero, hb]
  obtain ⟨k, hk⟩ := floatValueToInt32_normal _ _ hy0 hx hy
  rw [opMod32, hc, bind_ok,
    opDiv32_ok a b ha hb (fits_of_lt_two_pow_24 hx) (fits_of_lt_two_pow_24 hy), bind_ok, hk,
    bind_ok]
  exact ⟨_, rfl⟩

theorem opModInt32_ok (a : Fraction) (i : Int) (ha : a.denominator ≠ 0) (hi : i ≠ 0)
    (hx : a.numerator.natAbs < 2 ^ 24) (hy : (a.denominator * i).natAbs < 2 ^ 24) :
    ∃ k, opModInt32 a i = Result.ok k := by
  have hy0 : a.denominator * i ≠ 0 := mul_ne_zero ha hi
  have hc : checkDivisionByZero i = Result.ok () := by
    simp [checkDivisionByZero, hi]
  obtain ⟨k, hk⟩ := floatValueToInt32_normal _ _ hy0 hx hy
  rw [opModInt32, hc, bind_ok,
    opDivInt32_ok a i ha hi (fits_of_lt_two_pow_24 hx) (fits_of_lt_two_pow_24 hy), bind_ok, hk,
    bind_ok]
  exact ⟨_, rfl⟩

theorem bind_simplify32_ne_divisionByZero (r : Result Fraction)
    (hr : r ≠ Result.divisionByZero) :
    (r.bind fun result => simplify32 result) ≠ Result.divisionByZero := by
  cases r with
  | ok f => simpa [Result.bind] using simplify32_ne_divisionByZero f
  | divisionByZero => exact absurd rfl hr
  | undefined => simp [Result.bind]

theorem opDiv32_ne_divisionByZero (a b : Fraction) (hb : b.numerator ≠ 0) :
    opDiv32 a b ≠ Result.divisionByZero := by
  simp only [opDiv32, checkDivisionByZero, hb, if_false, Result.bind]
  exact bind_simplify32_ne_divisionByZero _ (simplify32_ne_divisionByZero _)

theorem opDivInt32_ne_divisionByZero (a : Fraction) (i : Int) (hi : i ≠ 0) :
    opDivInt32 a i ≠ Result.divisionByZero := by
  simp only [opDivInt32, checkDivisionByZero, hi, if_false, Result.bind]
  exact bind_simplify32_ne_divisionByZero _ (simplify32_ne_divisionByZero _)

theorem floatValueToInt32_bind_ne_divisionByZero (q : Fraction) (f : Int → Int) :
    ((floatValueToInt32 q).bind fun k => Result.ok (f k)) ≠ Result.divisionByZero := by
  unfold floatValueToInt32 castInt32
  split_ifs <;> simp [Result.bind]

theorem opMod32_ne_divisionByZero (a b : Fraction) (hb : b.numerator ≠ 0) :
    opMod32 a b ≠ Result.divisionByZero := by
  intro h
  simp only [opMod32, checkDivisionByZero, hb, if_false, Result.bind] at h
  have h2 := opDiv32_ne_divisionByZero a b hb
  cases hq : opDiv32 a b with
  | ok q =>
    rw [hq] at h
    exact floatValueToInt32_bind_ne_divisionByZero q
      (fun k => wrap (q.numerator - wrap (q.denominator * k))) h
  | divisionByZero => exact h2 hq
  | undefined => rw [hq] at h; simp at h

theorem opModInt32_ne_divisionByZero (a : Fraction) (i : Int) (hi : i ≠ 0) :
    opModInt32 a i ≠ Result.divisionByZero := by
  intro h
  simp only [opModInt32, checkDivisionByZero, hi, if_false, Result.bind] at h
  have h2 := opDivInt32_ne_divisionByZero a i hi
  cases hq : opDivInt32 a i with
  | ok q =>
    rw [hq] at h
    exact floatValueToInt32_bind_ne_divisionByZero q
      (fun k => wrap (q.numerator - wrap (q.denominator * k))) h
  | divisionByZero => exact h2 hq
  | undefined => rw [hq] at h; simp at h

/-- C6 (counterexample): `MIN_VALUE / -1` (the fraction INT_MIN/1 divided by the integer
-1, a divisor that is not zero) does not return: `gcd` executes INT_MIN % -1; and for the
fractions 1/0 that `Fraction(5, 0)` and `Fraction(7, 0)` return, the division forms 0/0
and `simplify` divides by the gcd 0. Neither call succeeds, although the divisor is not
zero. -/
theorem division_not_total :
    (IsInts ⟨INT_MIN, 1⟩ ∧ IsInt (-1) ∧ (-1 : Int) ≠ 0) ∧
    opDivInt32 ⟨INT_MIN, 1⟩ (-1) = Result.undefined ∧
    (ctorIntInt32 5 0 = Result.ok ⟨1, 0⟩ ∧ ctorIntInt32 7 0 = Result.ok ⟨1, 0⟩ ∧
      (1 : Int) ≠ 0) ∧
    opDiv32 ⟨1, 0⟩ ⟨1, 0⟩ = Result.undefined ∧
    opDiv ⟨1, 0⟩ ⟨1, 0⟩ = Result.undefined := by
  have h5 : ctorIntInt32 5 0 = Result.ok ⟨1, 0⟩ := by
    rw [ctorIntInt32_eq _ _ (by decide) (by decide)]
    simp +decide [ctorIntInt, simplify, gcd, idiv, Result.bind]
  have h7 : ctorIntInt32 7 0 = Result.ok ⟨1, 0⟩ := by
    rw [ctorIntInt32_eq _ _ (by decide) (by decide)]
    simp +decide [ctorIntInt, simplify, gcd, idiv, Result.bind]
  exact ⟨⟨by decide, by decide, by decide⟩, opDivInt32_int_min, ⟨h5, h7, by decide⟩,
    opDiv32_zero_denominators, opDiv_zero_denominators⟩

/-- C6 (amended): on 32-bit `int`, for every fraction a and every divisor b (a fraction
or a plain integer i), a / b, a /= b and a % b end with the division-by-zero exception
exactly when the divisor is zero (b.numerator = 0, or i = 0), and `/=` then leaves the
receiver unchanged. When the divisor is not zero, the denominator of a is not 0 and the
two products that the division forms are smaller than 2^31 in magnitude, a / b and
a /= b return; when the two products are smaller than 2^24 in magnitude, a % b returns. -/
theorem division_by_zero32 (a b : Fraction) (i : Int) :
    (opDiv32 a b = Result.divisionByZero ↔ b.numerator = 0) ∧
    ((opDivAssign32 a b).2 = Result.divisionByZero ↔ b.numerator = 0) ∧
    (opMod32 a b = Result.divisionByZero ↔ b.numerator = 0) ∧
    (opDivInt32 a i = Result.divisionByZero ↔ i = 0) ∧
    ((opDivAssignInt32 a i).2 = Result.divisionByZero ↔ i = 0) ∧
    (opModInt32 a i = Result.divisionByZero ↔ i = 0) ∧
    (b.numerator = 0 → (opDivAssign32 a b).1 = a) ∧
    (i = 0 → (opDivAssignInt32 a i).1 = a) ∧
    (a.denominator ≠ 0 → b.numerator ≠ 0 →
      Fits (a.numerator * b.denominator) → Fits (a.denominator * b.numerator) →
      (∃ r, opDiv32 a b = Result.ok r) ∧ (∃ r, opDivAssign32 a b = (r, Result.ok ()))) ∧
    (a.denominator ≠ 0 → b.numerator ≠ 0 →
      (a.numerator * b.denominator).natAbs < 2 ^ 24 →
      (a.denominator * b.numerator).natAbs < 2 ^ 24 →
      ∃ k, opMod32 a b = Result.ok k) ∧
    (a.denominator ≠ 0 → i ≠ 0 → Fits a.numerator → Fits (a.denominator * i) →
      (∃ r, opDivInt32 a i = Result.ok r) ∧
      (∃ r, opDivAssignInt32 a i = (r, Result.ok ()))) ∧
    (a.denominator ≠ 0 → i ≠ 0 → a.numerator.natAbs < 2 ^ 24 →
      (a.denominator * i).natAbs < 2 ^ 24 →
      ∃ k, opModInt32 a i = Result.ok k) := by
  refine ⟨?_, ?_, ?_, ?_, ?_, ?_, ?_, ?_, ?_, ?_, ?_, ?_⟩
  · constructor
    · intro h; by_contra hb; exact opDiv32_ne_divisionByZero a b hb h
    · intro h; simp [opDiv32, checkDivisionByZero, h, Result.bind]
  · constructor
    · intro h; by_contra hb
      simp only [opDivAssign32, checkDivisionByZero, hb, if_false] at h
      exact commit_snd_ne_divisionByZero _ _ (simplify32_ne_divisionByZero _) h
    · intro h; simp [opDivAssign32, checkDivisionByZero, h]
  · constructor
    · intro h; by_contra hb; exact opMod32_ne_divisionByZero a b hb h
    · intro h; simp [opMod32, checkDivisionByZero, h, Result.bind]
  · constructor
    · intro h; by_contra hi; exact opDivInt32_ne_divisionByZero a i hi h
    · intro h; simp [opDivInt32, checkDivisionByZero, h, Result.bind]
  · constructor
    · intro h; by_contra hi
      simp only [opDivAssignInt32, checkDivisionByZero, hi, if_false] at h
      exact commit_snd_ne_divisionByZero _ _ (simplify32_ne_divisionByZero _) h
    · intro h; simp [opDivAssignInt32, checkDivisionByZero, h]
  · constructor
    · intro h; by_contra hi; exact opModInt32_ne_divisionByZero a i hi h
    · intro h; simp [opModInt32, checkDivisionByZero, h, Result.bind]
  · intro h; simp [opDivAssign32, checkDivisionByZero, h]
  · intro h; simp [opDivAssignInt32, checkDivisionByZero, h]
  · intro ha hb hx hy
    exact ⟨⟨_, opDiv32_ok a b ha hb hx hy⟩, ⟨_, opDivAssign32_ok a b ha hb hx hy⟩⟩
  · intro ha hb hx hy
    exact opMod32_ok a b ha hb hx hy
  · intro ha hi hx hy
    exact ⟨⟨_, opDivInt32_ok a i ha hi hx hy⟩, ⟨_, opDivAssignInt32_ok a i ha hi hx hy⟩⟩
  · intro ha hi hx hy
    exact opModInt32_ok a i ha hi hx hy

/-- C6 (amended), witness: `Fraction(1,1) / Fraction(0,1)`, `Fraction(1,1) / 0`, the
corresponding `/=` and `%` all throw and the dividend is still 1/1; with the divisors 2/1
and 2 they return. -/
theorem division_by_zero32_witness :
    (opDiv32 ⟨1, 1⟩ ⟨0, 1⟩ = Result.divisionByZero ∧
      opDivInt32 ⟨1, 1⟩ 0 = Result.divisionByZero ∧
      opDivAssign32 ⟨1, 1⟩ ⟨0, 1⟩ = (⟨1, 1⟩, Result.divisionByZero) ∧
      opDivAssignInt32 ⟨1, 1⟩ 0 = (⟨1, 1⟩, Result.divisionByZero) ∧
      opMod32 ⟨1, 1⟩ ⟨0, 1⟩ = Result.divisionByZero ∧
      opModInt32 ⟨1, 1⟩ 0 = Result.divisionByZero) ∧
    ((1 : Int) ≠ 0 ∧ (2 : Int) ≠ 0 ∧ Fits (1 * 1) ∧ Fits (1 * 2) ∧ Fits 1 ∧
      ((1 : Int) * 1).natAbs < 2 ^ 24 ∧ ((1 : Int) * 2).natAbs < 2 ^ 24 ∧
      (1 : Int).natAbs < 2 ^ 24) ∧
    ((∃ r, opDiv32 ⟨1, 1⟩ ⟨2, 1⟩ = Result.ok r) ∧
      (∃ r, opDivAssign32 ⟨1, 1⟩ ⟨2, 1⟩ = (r, Result.ok ()))) ∧
    (∃ k, opMod32 ⟨1, 1⟩ ⟨2, 1⟩ = Result.ok k) ∧
    ((∃ r, opDivInt32 ⟨1, 1⟩ 2 = Result.ok r) ∧
      (∃ r, opDivAssignInt32 ⟨1, 1⟩ 2 = (r, Result.ok ()))) ∧
    (∃ k, opModInt32 ⟨1, 1⟩ 2 = Result.ok k) := by
  obtain ⟨d, da, m, di, dai, mi, ra, rai, _, _, _, _⟩ :=
    division_by_zero32 ⟨1, 1⟩ ⟨0, 1⟩ 0
  obtain ⟨_, _, _, _, _, _, _, _, s, sm, si, smi⟩ := division_by_zero32 ⟨1, 1⟩ ⟨2, 1⟩ 2
  exact ⟨⟨d.mpr rfl, di.mpr rfl, Prod.ext (ra rfl) (da.mpr rfl), Prod.ext (rai rfl) (dai.mpr rfl),
    m.mpr rfl, mi.mpr rfl⟩,
    ⟨by decide, by decide, by decide, by decide, by decide, by decide, by decide, by decide⟩,
    s (by decide) (by decide) (by decide) (by decide),
    sm (by decide) (by decide) (by decide) (by decide),
    si (by decide) (by decide) (by decide) (by decide),
    smi (by decide) (by decide) (by decide) (by decide)⟩

/-- C9 (counterexample): for the canonical fractions 3/131072 and 1/32769 the product
131072 * 32769 of `Fraction::lcm` wraps to 131072, the scale factors become 1 and 3, and
`==` returns true although the numerators, the denominators and the cross products
differ. -/
theorem opEq_wrapped_lcm :
    (Canonical ⟨3, 131072⟩ ∧ Canonical ⟨1, 32769⟩ ∧ IsInts ⟨3, 131072⟩ ∧
      IsInts ⟨1, 32769⟩) ∧
    lcm32 131072 32769 = Result.ok 131072 ∧
    opEq32 ⟨3, 131072⟩ ⟨1, 32769⟩ = Result.ok true ∧
    ¬ ((3 : Int) = 1 ∧ (131072 : Int) = 32769) ∧
    (3 : Int) * 32769 ≠ 1 * 131072 := by
  refine ⟨⟨by decide, by decide, by decide, by decide⟩, ?_, ?_, by decide, by decide⟩
  · exact lcm32_131072_32769
  · exact opEq32_wrapped

/-- C9 (amended): for canonical fractions a and b with `int` members for which the
comparison does not overflow (the denominators are equal, or the least common multiple L
of the denominators and the scaled numerators a.numerator * (L / a.denominator) and
b.numerator * (L / b.denominator) are `int` values), a == b returns, and it returns true
iff a.numerator = b.numerator and a.denominator = b.denominator, which holds iff
a.numerator * b.denominator = b.numerator * a.denominator. -/
theorem opEq32_iff (a b : Fraction) (ha : Canonical a) (hb : Canonical b)
    (hia : IsInts a) (hib : IsInts b)
    (h : a.denominator = b.denominator ∨
      (IsInt (lcm a.denominator b.denominator) ∧
        IsInt (a.numerator * Int.tdiv (lcm a.denominator b.denominator) a.denominator) ∧
        IsInt (b.numerator * Int.tdiv (lcm a.denominator b.denominator) b.denominator))) :
    (∃ r, opEq32 a b = Result.ok r) ∧
    (opEq32 a b = Result.ok true ↔
      (a.numerator = b.numerator ∧ a.denominator = b.denominator)) ∧
    ((a.numerator = b.numerator ∧ a.denominator = b.denominator) ↔
      a.numerator * b.denominator = b.numerator * a.denominator) := by
  have haq : (a.denominator : ℚ) ≠ 0 := by exact_mod_cast ha.1.ne.symm
  have hbq : (b.denominator : ℚ) ≠ 0 := by exact_mod_cast hb.1.ne.symm
  have hcross : val a = val b ↔
      a.numerator * b.denominator = b.numerator * a.denominator := by
    unfold val
    rw [div_eq_div_iff haq hbq]
    exact_mod_cast Iff.rfl
  have hpair : val a = val b ↔
      (a.numerator = b.numerator ∧ a.denominator = b.denominator) := by
    constructor
    · intro h
      have := val_injective ha hb h
      subst this
      exact ⟨rfl, rfl⟩
    · rintro ⟨h1, h2⟩
      unfold val
      rw [h1, h2]
  have he : opEq32 a b = Result.ok (decide (val a = val b)) := by
    unfold opEq32
    rw [comparison32_eq a b equal_to ha.1 hb.1 hia.2 hib.2 h]
    exact opEq_ok a b ha.1 hb.1
  refine ⟨⟨_, he⟩, ?_, ?_⟩
  · rw [he]
    simp only [Result.ok.injEq, decide_eq_true_eq]
    exact hpair
  · rw [← hpair, hcross]

/-- C9 (amended), witness: a = 1/2 and b = 2/3, where L = 6 and the scaled numerators
are 3 and 4. -/
theorem opEq32_iff_witness :
    (Canonical ⟨1, 2⟩ ∧ Canonical ⟨2, 3⟩ ∧ IsInts ⟨1, 2⟩ ∧ IsInts ⟨2, 3⟩ ∧
      IsInt (lcm 2 3) ∧ IsInt (1 * Int.tdiv (lcm 2 3) 2) ∧
      IsInt (2 * Int.tdiv (lcm 2 3) 3)) ∧
    (∃ r, opEq32 ⟨1, 2⟩ ⟨2, 3⟩ = Result.ok r) ∧
    (opEq32 ⟨1, 2⟩ ⟨2, 3⟩ = Result.ok true ↔ ((1 : Int) = 2 ∧ (2 : Int) = 3)) ∧
    (((1 : Int) = 2 ∧ (2 : Int) = 3) ↔ (1 : Int) * 3 = 2 * 2) := by
  have hl : lcm 2 3 = 6 := by simp +decide [lcm, gcd]
  have h1 : IsInt (lcm 2 3) := by rw [hl]; decide
  have h2 : IsInt (1 * Int.tdiv (lcm 2 3) 2) := by rw [hl]; decide
  have h3 : IsInt (2 * Int.tdiv (lcm 2 3) 3) := by rw [hl]; decide
  exact ⟨⟨by decide, by decide, by decide, by decide, h1, h2, h3⟩,
    opEq32_iff ⟨1, 2⟩ ⟨2, 3⟩ (by decide) (by decide) (by decide) (by decide)
      (Or.inr ⟨h1, h2, h3⟩)⟩

/-- C14 (counterexample): for the canonical fraction INT_MIN/1 (the library's
`MIN_VALUE`) unary minus returns INT_MIN/1 again: the numerator is not negated, and no
`int` equals -INT_MIN. -/
theorem negation_int_min :
    (Canonical ⟨INT_MIN, 1⟩ ∧ IsInts ⟨INT_MIN, 1⟩) ∧
    opNeg32 ⟨INT_MIN, 1⟩ = Result.ok ⟨INT_MIN, 1⟩ ∧
    INT_MIN ≠ -INT_MIN ∧
    ¬ ∃ f : Fraction, IsInts f ∧ f.numerator = -INT_MIN := by
  refine ⟨⟨by decide, by decide⟩, ?_, by decide, ?_⟩
  · exact opNeg32_int_min
  · rintro ⟨f, ⟨h1, _⟩, h2⟩
    unfold IsInt INT_MIN INT_MAX at h1
    unfold INT_MIN at h2
    omega

theorem opNeg32_canonical (a : Fraction) (ha : Canonical a) (hi : IsInts a)
    (hmin : a.numerator ≠ INT_MIN) :
    opNeg32 a = Result.ok ⟨-a.numerator, a.denominator⟩ := by
  have hn : Fits a.numerator := by
    have := hi.1
    unfold IsInt INT_MIN INT_MAX at this
    unfold INT_MIN at hmin
    unfold Fits
    omega
  have hd : Fits a.denominator := fits_of_pos_isInt ha.1 hi.2
  unfold opNeg32
  rw [wrap_eq hn.neg.isInt, ctorIntInt32_eq _ _ hn.neg hd]
  exact opNeg_canonical a ha

/-- C14 (amended): for every canonical fraction a with `int` members whose numerator is
not INT_MIN, -a returns the fraction with numerator -a.numerator and the denominator of
a; -(-a) returns a fraction with exactly a's numerator and denominator, for which
`-(-a) == a` returns true; `-Fraction(3,4) == Fraction(-3,4)` returns true. -/
theorem negation32 :
    (∀ a : Fraction, Canonical a → IsInts a → a.numerator ≠ INT_MIN →
      opNeg32 a = Result.ok ⟨-a.numerator, a.denominator⟩ ∧
      (∃ r, (opNeg32 a).bind opNeg32 = Result.ok r ∧ r.numerator = a.numerator ∧
        r.denominator = a.denominator ∧ opEq32 r a = Result.ok true)) ∧
    ((ctorIntInt32 3 4).bind fun x => (opNeg32 x).bind fun l =>
      (ctorIntInt32 (-3) 4).bind fun r => opEq32 l r) = Result.ok true := by
  constructor
  · intro a ha hi hmin
    have hcn : Canonical ⟨-a.numerator, a.denominator⟩ :=
      ⟨ha.1, by simpa [Int.natAbs_neg] using ha.2⟩
    have hin : IsInts ⟨-a.numerator, a.denominator⟩ := by
      refine ⟨?_, hi.2⟩
      have := hi.1
      unfold IsInt INT_MIN INT_MAX at *
      simp only
      omega
    have hmin2 : (⟨-a.numerator, a.denominator⟩ : Fraction).numerator ≠ INT_MIN := by
      have := hi.1
      unfold IsInt INT_MIN INT_MAX at this
      unfold INT_MIN
      simp only
      omega
    refine ⟨opNeg32_canonical a ha hi hmin, a, ?_, rfl, rfl, ?_⟩
    · rw [opNeg32_canonical a ha hi hmin]
      simp only [Result.bind]
      rw [opNeg32_canonical _ hcn hin hmin2]
      simp
    · simp [opEq32, comparison32, equal_to]
  · have h1 : ctorIntInt32 3 4 = Result.ok ⟨3, 4⟩ := by
      rw [ctorIntInt32_eq _ _ (by decide) (by decide)]
      simp +decide [ctorIntInt, simplify, gcd, idiv, Result.bind]
    have h2 : ctorIntInt32 (-3) 4 = Result.ok ⟨-3, 4⟩ := by
      rw [ctorIntInt32_eq _ _ (by decide) (by decide)]
      simp +decide [ctorIntInt, simplify, gcd, idiv, Result.bind]
    have h3 : opNeg32 ⟨3, 4⟩ = Result.ok ⟨-3, 4⟩ :=
      opNeg32_canonical ⟨3, 4⟩ (by decide) (by decide) (by decide)
    rw [h1]
    simp only [Result.bind]
    rw [h3, h2]
    simp [opEq32, comparison32, equal_to]

/-- C14 (amended), witness: the statement at a = -5/6. -/
theorem negation32_witness :
    (Canonical ⟨-5, 6⟩ ∧ IsInts ⟨-5, 6⟩ ∧ (-5 : Int) ≠ INT_MIN) ∧
    opNeg32 ⟨-5, 6⟩ = Result.ok ⟨-(-5), 6⟩ ∧
    (∃ r, (opNeg32 ⟨-5, 6⟩).bind opNeg32 = Result.ok r ∧ r.numerator = -5 ∧
      r.denominator = 6 ∧ opEq32 r ⟨-5, 6⟩ = Result.ok true) :=
  ⟨⟨by decide, by decide, by decide⟩,
    negation32.1 ⟨-5, 6⟩ (by decide) (by decide) (by decide)⟩

/-- C17 (counterexample): on the `int` operands (INT_MIN, -1) the loop does not return a
value: `b %= a` leaves -1 and `a %= b` is then INT_MIN % -1, which is undefined (the
process is killed). -/
theorem gcd_int_min_neg_one :
    (IsInt INT_MIN ∧ IsInt (-1)) ∧
    gcd32 INT_MIN (-1) = Result.undefined ∧
    gcd32Iter 2 INT_MIN (-1) = some Result.undefined ∧
    ¬ ∃ g, gcd32 INT_MIN (-1) = Result.ok g := by
  have h : gcd32 INT_MIN (-1) = Result.undefined :=
    gcd32_trap _ _ (by decide) (by decide) (by decide) (by decide)
  refine ⟨⟨by decide, by decide⟩, h, ?_, ?_⟩
  · simp +decide [gcd32Iter, Traps, INT_MIN]
  · rintro ⟨g, hg⟩
    rw [h] at hg
    exact absurd hg (by simp)

/-- C17 (amended): the loop of `Fraction::gcd` ends for all operands, within |a| + 1
iterations; for `int` operands other than (INT_MIN, -1) and (-1, INT_MIN) it returns a
value, and on those two pairs it executes INT_MIN % -1; for all non-negative `int` a and
b the value returned is the greatest common divisor of a and b (it divides both and every
common divisor divides it); gcd(0, d) = d and gcd(d, 0) = d. -/
theorem gcd32_correct :
    (∀ a b : Int, gcd32Iter (a.natAbs + 1) a b = some (gcd32 a b)) ∧
    (∀ a b : Int, IsInt a → IsInt b → ¬ (a = INT_MIN ∧ b = -1) → ¬ (a = -1 ∧ b = INT_MIN) →
      ∃ g, gcd32 a b = Result.ok g) ∧
    (gcd32 INT_MIN (-1) = Result.undefined ∧ gcd32 (-1) INT_MIN = Result.undefined) ∧
    (∀ a b : Int, IsInt a → IsInt b → 0 ≤ a → 0 ≤ b →
      ∃ g, gcd32 a b = Result.ok g ∧ g = ((Nat.gcd a.natAbs b.natAbs : Nat) : Int) ∧
        g ∣ a ∧ g ∣ b ∧ (∀ c : Int, c ∣ a → c ∣ b → c ∣ g)) ∧
    (∀ d : Int, gcd32 0 d = Result.ok d ∧ gcd32 d 0 = Result.ok d) := by
  refine ⟨fun a b => gcd32Iter_eq _ a b (Nat.lt_succ_self _), ?_, ⟨?_, ?_⟩, ?_, ?_⟩
  · intro a b ha hb h1 h2
    exact ⟨_, gcd32_eq a b ha hb h1 h2⟩
  · exact gcd32_trap _ _ (by decide) (by decide) (by decide) (by decide)
  · rw [gcd32]
    simp +decide [Traps]
  · intro a b ha hb ha0 hb0
    have h1 : ¬ (a = INT_MIN ∧ b = -1) := by
      rintro ⟨_, h⟩; omega
    have h2 : ¬ (a = -1 ∧ b = INT_MIN) := by
      rintro ⟨h, _⟩; omega
    refine ⟨gcd a b, gcd32_eq a b ha hb h1 h2, gcd_eq_natGcd ha0 hb0, gcd_dvd_left a b,
      gcd_dvd_right a b, ?_⟩
    intro c hca hcb
    rw [gcd_eq_natGcd ha0 hb0, ← Int.gcd_eq_natAbs]
    exact Int.dvd_gcd hca hcb
  · intro d
    constructor
    · rw [gcd32]; simp
    · rw [gcd32]
      by_cases hd : d = 0
      · simp [hd]
      · have : ¬ Traps 0 d := by
          unfold Traps INT_MIN; omega
        simp [hd, this]

/-- C17 (amended), witness: gcd(12, 18): the loop ends within 13 iterations and returns
the greatest common divisor. -/
theorem gcd32_correct_witness :
    (IsInt 12 ∧ IsInt 18 ∧ (0 : Int) ≤ 12 ∧ (0 : Int) ≤ 18 ∧ ¬ ((12 : Int) = INT_MIN ∧
      (18 : Int) = -1) ∧ ¬ ((12 : Int) = -1 ∧ (18 : Int) = INT_MIN)) ∧
    gcd32Iter 13 12 18 = some (gcd32 12 18) ∧
    (∃ g, gcd32 12 18 = Result.ok g) ∧
    (∃ g, gcd32 12 18 = Result.ok g ∧ g = ((Nat.gcd 12 18 : Nat) : Int) ∧
      g ∣ 12 ∧ g ∣ 18 ∧ (∀ c : Int, c ∣ 12 → c ∣ 18 → c ∣ g)) :=
  ⟨⟨by decide, by decide, by decide, by decide, by decide, by decide⟩,
    gcd32_correct.1 12 18,
    gcd32_correct.2.1 12 18 (by decide) (by decide) (by decide) (by decide),
    gcd32_correct.2.2.2.1 12 18 (by decide) (by decide) (by decide) (by decide)⟩

/-- The formulas of the specification are value-preserving: for every integer mt, decimal
shift m ≥ 0 and binary exponent e, with h = min(m, e): e - h ≥ 0, the exact value of
5^h * 10^(m-h) is a positive integer (also when h < 0), and
(mt * 2^(e-h)) / (5^h * 10^(m-h)) = mt * 2^e / 10^m as rationals. -/
theorem scaled_value_exact (mt m e : Int) (hm : 0 ≤ m) :
    importShift m e = min e m ∧
    0 ≤ e - importShift m e ∧
    (∃ N : Nat, 0 < N ∧ scaledDenominator m e = (N : ℚ)) ∧
    scaledNumerator mt m e / scaledDenominator m e
      = (mt : ℚ) * (2 : ℚ) ^ e / (10 : ℚ) ^ m := by
  have hh1 : importShift m e ≤ m := min_le_left _ _
  have hh2 : importShift m e ≤ e := min_le_right _ _
  have h10 : ∀ k : Int, (10 : ℚ) ^ k = (2 : ℚ) ^ k * (5 : ℚ) ^ k := by
    intro k
    rw [← mul_zpow]; norm_num
  have hden : scaledDenominator m e
      = (5 : ℚ) ^ m * (2 : ℚ) ^ (m - importShift m e) := by
    unfold scaledDenominator
    rw [h10]
    have : (5 : ℚ) ^ m = (5 : ℚ) ^ importShift m e * (5 : ℚ) ^ (m - importShift m e) := by
      rw [← zpow_add₀ (by norm_num)]
      congr 1; ring
    rw [this]; ring
  refine ⟨min_comm _ _, by omega, ?_, ?_⟩
  · obtain ⟨a, ha⟩ := Int.eq_ofNat_of_zero_le hm
    obtain ⟨c, hc⟩ := Int.eq_ofNat_of_zero_le (show 0 ≤ m - importShift m e by omega)
    refine ⟨5 ^ a * 2 ^ c, by positivity, ?_⟩
    rw [hden, hc]
    conv_lhs => rw [ha]
    push_cast
    simp only [zpow_natCast]
  · rw [hden]
    unfold scaledNumerator
    rw [h10 m]
    have h2 : (2 : ℚ) ^ e
        = (2 : ℚ) ^ (e - importShift m e) * (2 : ℚ) ^ importShift m e := by
      rw [← zpow_add₀ (by norm_num)]
      congr 1; ring
    have h3 : (2 : ℚ) ^ m
        = (2 : ℚ) ^ (m - importShift m e) * (2 : ℚ) ^ importShift m e := by
      rw [← zpow_add₀ (by norm_num)]
      congr 1; ring
    have p1 : (2 : ℚ) ^ importShift m e ≠ 0 := zpow_ne_zero _ (by norm_num)
    have p2 : (2 : ℚ) ^ (m - importShift m e) ≠ 0 := zpow_ne_zero _ (by norm_num)
    have p3 : (5 : ℚ) ^ m ≠ 0 := zpow_ne_zero _ (by norm_num)
    rw [h2, h3]
    field_simp
    ring

theorem importNumerator_two_pow_neg22 : importNumerator 5 1 (-21) = 5 := by
  have hs : importShift 1 (-21) = -21 := by decide
  have e1 : (-21 : Int) - (-21) = 0 := by decide
  unfold importNumerator
  simp only []
  rw [hs, e1]
  exact numerator_two_pow_neg22

theorem importDenominator_two_pow_neg22 : importDenominator 1 (-21) = 20971519 := by
  have hs : importShift 1 (-21) = -21 := by decide
  have e2 : (1 : Int) - (-21) = 22 := by decide
  unfold importDenominator
  simp only []
  rw [hs, e2]
  exact denominator_two_pow_neg22

/-- C19 (the code at the failing input): h = min(e, m) and e - h ≥ 0 hold for all m and
e; for mt = 5, decimal shift m = 1 and binary exponent e = -21 (the decomposition of the
`float` 2^-22), h = -21, the exact quantity 5^h * 10^(m-h) is the positive integer
20971520 and the exact quotient (mt * 2^(e-h)) / (5^h * 10^(m-h)) equals
mt * 2^e / 10^m; but line 51 stores the denominator 20971519 (the `double` product
`pow(5, -21) * pow(10, 22)` is just below 20971520 and the conversion to `int` truncates
it), line 50 stores the numerator 5, and the quotient of the two stored members is not
mt * 2^e / 10^m. -/
theorem import_scaling_not_exact :
    (∀ m e : Int, importShift m e = min e m ∧ 0 ≤ e - importShift m e) ∧
    importShift 1 (-21) = -21 ∧
    scaledDenominator 1 (-21) = ((20971520 : Nat) : ℚ) ∧
    scaledNumerator 5 1 (-21) / scaledDenominator 1 (-21)
      = ((5 : Int) : ℚ) * (2 : ℚ) ^ (-21 : Int) / (10 : ℚ) ^ (1 : Int) ∧
    importNumerator 5 1 (-21) = 5 ∧
    importDenominator 1 (-21) = 20971519 ∧
    (importDenominator 1 (-21) : ℚ) ≠ scaledDenominator 1 (-21) ∧
    (importNumerator 5 1 (-21) : ℚ) / (importDenominator 1 (-21) : ℚ)
      ≠ ((5 : Int) : ℚ) * (2 : ℚ) ^ (-21 : Int) / (10 : ℚ) ^ (1 : Int) := by
  have hs : importShift 1 (-21) = -21 := by decide
  have hd : scaledDenominator 1 (-21) = ((20971520 : Nat) : ℚ) := by
    simp only [scaledDenominator, hs]; norm_num
  obtain ⟨_, _, _, g4⟩ := scaled_value_exact 5 1 (-21) (by decide)
  refine ⟨?_, hs, hd, g4, importNumerator_two_pow_neg22, importDenominator_two_pow_neg22,
    ?_, ?_⟩
  · intro m e
    have h2 : importShift m e ≤ e := min_le_right _ _
    exact ⟨min_comm _ _, by omega⟩
  · rw [importDenominator_two_pow_neg22, hd]; norm_num
  · rw [importNumerator_two_pow_neg22, importDenominator_two_pow_neg22]; norm_num

end Fraction
